import Mathlib

/-!
# The camera path animation engine of fractal-pioneer

A shallow embedding of the camera path code of `src/FractalWidget.cpp`
(`exp`, `log`, `toRotationMatrix`, `blend`, `s2u`, `interpolatePosition`,
`interpolateRotation`), of the playback controller built on it and of the spin-box
handlers of `src/FractalPioneer.cpp` that feed the fractal shift and rotation, together
with the properties its specification states.

Conventions of the embedding.

* A C++ `float` is an element of an ordered field `K` carrying a floor function:
  arithmetic is exact. The development can be run over `ℚ` and is proved for `ℝ`.
  The one `float` that is not treated so is the counter `u` of the loop of `blend`,
  whose rounding decides how many turns the loop takes: it is a binary32 number and
  `u += 0.01f` is the binary32 addition.
* The functions of the C math library (`std::sqrt`, `std::sin`, ...) and the constant
  `M_PI` are not part of the repository; they are the fields of a record `CMath K`.
  `CMath.real` is the instance given by the real functions.
* A C++ `int` is an element of `ℤ`. An access `list[i]`, `list.first()`, `list.last()`
  outside the list is undefined in C++; here it yields `none`, so every function that
  reads a waypoint returns an `Option`.
-/

namespace FractalPioneer

/-! ## Library types -/

/-- The functions of the C math library and the constant `M_PI` used by the program. -/
structure CMath (K : Type) where
  sqrt : K → K
  sin : K → K
  cos : K → K
  exp : K → K
  log : K → K
  atan2 : K → K → K
  pi : K

/-- Qt vector of three floats. -/
@[ext]
structure QVector3D (K : Type) where
  x : K
  y : K
  z : K

/-- Qt quaternion, in the argument order of its constructor `QQuaternion(scalar, x, y, z)`. -/
@[ext]
structure QQuaternion (K : Type) where
  scalar : K
  x : K
  y : K
  z : K

set_option linter.unusedSectionVars false

variable {K : Type} [LinearOrderedField K] [FloorRing K]

instance QVector3D.instAdd : Add (QVector3D K) :=
  ⟨fun a b => ⟨a.x + b.x, a.y + b.y, a.z + b.z⟩⟩

instance QVector3D.instSub : Sub (QVector3D K) :=
  ⟨fun a b => ⟨a.x - b.x, a.y - b.y, a.z - b.z⟩⟩

instance QVector3D.instSMul : SMul K (QVector3D K) :=
  ⟨fun c a => ⟨c * a.x, c * a.y, c * a.z⟩⟩

instance QVector3D.instInhabited : Inhabited (QVector3D K) :=
  ⟨⟨0, 0, 0⟩⟩

/-- Qt `QVector3D::length()`: the Euclidean norm. -/
def QVector3D.length (M : CMath K) (v : QVector3D K) : K :=
  M.sqrt (v.x * v.x + v.y * v.y + v.z * v.z)

/-- Qt `QQuaternion::length()`. -/
def QQuaternion.length (M : CMath K) (q : QQuaternion K) : K :=
  M.sqrt (q.x * q.x + q.y * q.y + q.z * q.z + q.scalar * q.scalar)

instance QQuaternion.instAdd : Add (QQuaternion K) :=
  ⟨fun a b => ⟨a.scalar + b.scalar, a.x + b.x, a.y + b.y, a.z + b.z⟩⟩

instance QQuaternion.instNeg : Neg (QQuaternion K) :=
  ⟨fun a => ⟨-a.scalar, -a.x, -a.y, -a.z⟩⟩

/-- Qt `operator*(QQuaternion, QQuaternion)`: the Hamilton product (Qt evaluates it with
a factored formula that is equal to this one in exact arithmetic). -/
instance QQuaternion.instMul : Mul (QQuaternion K) :=
  ⟨fun a b =>
    ⟨a.scalar * b.scalar - a.x * b.x - a.y * b.y - a.z * b.z,
     a.scalar * b.x + a.x * b.scalar + a.y * b.z - a.z * b.y,
     a.scalar * b.y - a.x * b.z + a.y * b.scalar + a.z * b.x,
     a.scalar * b.z + a.x * b.y - a.y * b.x + a.z * b.scalar⟩⟩

/-- Qt `operator/(QQuaternion, float)`. -/
def QQuaternion.divide (q : QQuaternion K) (d : K) : QQuaternion K :=
  ⟨q.scalar / d, q.x / d, q.y / d, q.z / d⟩

/-- Qt `QQuaternion::inverted()`: the conjugate over the squared length, and the zero
quaternion when the squared length is zero. -/
def QQuaternion.inverted (q : QQuaternion K) : QQuaternion K :=
  let len := q.scalar * q.scalar + q.x * q.x + q.y * q.y + q.z * q.z
  if len = 0 then ⟨0, 0, 0, 0⟩ else ⟨q.scalar / len, -q.x / len, -q.y / len, -q.z / len⟩

/-- Qt `QQuaternion::fromAxisAndAngle(axis, angle)` with the angle in degrees, for a unit
`axis` (every call of the program passes a coordinate axis; Qt normalises the axis and
the result, which leaves both unchanged in exact arithmetic). -/
def QQuaternion.fromAxisAndAngle (M : CMath K) (axis : QVector3D K) (angle : K) :
    QQuaternion K :=
  let a := (angle / 2) * (M.pi / 180)
  let s := M.sin a
  let c := M.cos a
  ⟨c, axis.x * s, axis.y * s, axis.z * s⟩

/-- Qt `QQuaternion::toRotationMatrix()`. -/
def QQuaternion.toRotationMatrix (q : QQuaternion K) : Matrix (Fin 3) (Fin 3) K :=
  let f2x := q.x + q.x
  let f2y := q.y + q.y
  let f2z := q.z + q.z
  let f2xw := f2x * q.scalar
  let f2yw := f2y * q.scalar
  let f2zw := f2z * q.scalar
  let f2xx := f2x * q.x
  let f2xy := f2x * q.y
  let f2xz := f2x * q.z
  let f2yy := f2y * q.y
  let f2yz := f2y * q.z
  let f2zz := f2z * q.z
  !![1 - (f2yy + f2zz), f2xy - f2zw, f2xz + f2yw;
     f2xy + f2zw, 1 - (f2xx + f2zz), f2yz - f2xw;
     f2xz - f2yw, f2yz + f2xw, 1 - (f2xx + f2yy)]

/-- The two functions of `QQuaternion` that the program uses as black boxes:
`QQuaternion::slerp` and `QQuaternion::toEulerAngles` (the result in degrees). -/
structure QtMath (K : Type) where
  slerp : QQuaternion K → QQuaternion K → K → QQuaternion K
  toEulerAngles : QQuaternion K → QVector3D K

/-- Access `list[i]` of a `QList` with a C++ `int` index: defined inside the list only. -/
def QList.at {α : Type} (l : List α) (i : ℤ) : Option α :=
  if 0 ≤ i then l[i.toNat]? else none

/-! ## `src/FractalWidget.cpp` -/

/-- Conversion of a `float` to a C++ `int`: truncation toward zero. -/
def truncToInt (v : K) : ℤ :=
  if 0 ≤ v then ⌊v⌋ else ⌈v⌉

/-- Source `static QQuaternion exp(QQuaternion q)`, lines 12-36. The locals `i`, `j`,
`k` are declared `auto i = 0;`, hence of type `int`: the assignments of line 30-32
convert the float on their right-hand side to `int`. -/
def exp (M : CMath K) (q : QQuaternion K) : QQuaternion K :=
  let x := q.x
  let y := q.y
  let z := q.z
  let w := q.scalar
  let immaginaryNorm := M.sqrt ((x * x) + (y * y) + (z * z))
  let r := M.exp w * M.cos immaginaryNorm
  let i : ℤ := 0
  let j : ℤ := 0
  let k : ℤ := 0
  if immaginaryNorm = 0 then
    ⟨r, (i : K), (j : K), (k : K)⟩
  else
    let i : ℤ := truncToInt (M.exp w * (x * M.sin immaginaryNorm) / immaginaryNorm)
    let j : ℤ := truncToInt (M.exp w * (y * M.sin immaginaryNorm) / immaginaryNorm)
    let k : ℤ := truncToInt (M.exp w * (z * M.sin immaginaryNorm) / immaginaryNorm)
    ⟨r, (i : K), (j : K), (k : K)⟩

/-- Source `static QQuaternion log(QQuaternion q)`, lines 40-65. -/
def log (M : CMath K) (q : QQuaternion K) : QQuaternion K :=
  let x := q.x
  let y := q.y
  let z := q.z
  let w := q.scalar
  let immaginaryNorm := M.sqrt ((x * x) + (y * y) + (z * z))
  if immaginaryNorm = 0 then
    let r := M.log (q.length M)
    let i := x * M.atan2 immaginaryNorm w
    let j := y * M.atan2 immaginaryNorm w
    let k := z * M.atan2 immaginaryNorm w
    ⟨r, i, j, k⟩
  else
    let r := M.log (q.length M)
    let i := (x * M.atan2 immaginaryNorm w) / immaginaryNorm
    let j := (y * M.atan2 immaginaryNorm w) / immaginaryNorm
    let k := (z * M.atan2 immaginaryNorm w) / immaginaryNorm
    ⟨r, i, j, k⟩

/-- Source `static QMatrix3x3 toRotationMatrix(QVector3D r)`, lines 67-74. -/
def toRotationMatrix (M : CMath K) (r : QVector3D K) : Matrix (Fin 3) (Fin 3) K :=
  let rx := QQuaternion.fromAxisAndAngle M ⟨0, 1, 0⟩ (r.x / (M.pi / 180))
  let ry := QQuaternion.fromAxisAndAngle M ⟨1, 0, 0⟩ (r.y / (M.pi / 180))
  let rz := QQuaternion.fromAxisAndAngle M ⟨0, 0, 1⟩ (r.z / (M.pi / 180))
  (rx * ry * rz).toRotationMatrix

/-- Source `FractalWidget::getLookDirectionFromRotation`, lines 322-326. -/
def getLookDirectionFromRotation (M : CMath K) (rotation : QVector3D K) : QVector3D K :=
  let rotationMatrix := toRotationMatrix M rotation
  ⟨rotationMatrix 0 2, rotationMatrix 1 2, rotationMatrix 2 2⟩

/-- The characteristic matrix `B` of `interpolatePosition`, line 162 (the constructor of
`QMatrix4x4` takes its sixteen entries row by row). -/
def catmullRomB : Matrix (Fin 4) (Fin 4) K :=
  !![0, -1, 2, -1;
     2, 0, -5, 3;
     0, 1, 4, -3;
     0, 0, -1, 1]

/-- Lines 148-190 of `interpolatePosition`: the segment `i` of the curve at the local
parameter `h = t - i`. The basis vector `u`, the four columns of `G` (each extended by a
fourth coordinate `0`) and the product `(G * B * tau * u).toVector3D()`. -/
def catmullRomSegment (M : CMath K) (positionWaypoints rotationWaypoints : List (QVector3D K))
    (i : ℤ) (h : K) (takeDerivative : Bool) : Option (QVector3D K) := do
  let u : Fin 4 → K :=
    if takeDerivative then ![0, 1, 2 * h, 3 * h * h] else ![1, h, h * h, (h * h) * h]
  let column0 ←
    (if i ≠ 0 then QList.at positionWaypoints (i - 1)
    else do
      let p ← QList.at positionWaypoints (i + 0)
      let r ← QList.at rotationWaypoints (i + 0)
      pure (p - getLookDirectionFromRotation M r))
  let column1 ← QList.at positionWaypoints (i + 0)
  let column2 ← QList.at positionWaypoints (i + 1)
  let column3 ←
    (if i ≠ (positionWaypoints.length : ℤ) - 2 then QList.at positionWaypoints (i + 2)
    else do
      let p ← QList.at positionWaypoints (i + 1)
      let r ← QList.at rotationWaypoints (i + 1)
      pure (p + getLookDirectionFromRotation M r))
  let G : Matrix (Fin 4) (Fin 4) K :=
    !![column0.x, column1.x, column2.x, column3.x;
       column0.y, column1.y, column2.y, column3.y;
       column0.z, column1.z, column2.z, column3.z;
       0, 0, 0, 0]
  let tau : K := 0.5
  let v := Matrix.mulVec (tau • (G * catmullRomB)) u
  pure ⟨v 0, v 1, v 2⟩

/-- Source `FractalWidget::interpolatePosition`, lines 136-191. -/
def interpolatePosition (M : CMath K) (positionWaypoints rotationWaypoints : List (QVector3D K))
    (t : K) (takeDerivative : Bool) : Option (QVector3D K) :=
  if t ≤ 0 then positionWaypoints.head?
  else if t ≥ (((positionWaypoints.length : ℤ) - 1 : ℤ) : K) then positionWaypoints.getLast?
  else
    let i : ℤ := ⌊t⌋
    catmullRomSegment M positionWaypoints rotationWaypoints i (t - (i : K)) takeDerivative

/-- The expression that `interpolateRotation` writes five times under the comment
`// fromEulerAngles`: yaw about Y by `r.y()`, pitch about X by `r.x()`, roll about Z by
`r.z()`, each angle converted from radians to degrees. -/
def fromEulerAngles (M : CMath K) (r : QVector3D K) : QQuaternion K :=
  QQuaternion.fromAxisAndAngle M ⟨0, 1, 0⟩ (r.y / (M.pi / 180)) *
  QQuaternion.fromAxisAndAngle M ⟨1, 0, 0⟩ (r.x / (M.pi / 180)) *
  QQuaternion.fromAxisAndAngle M ⟨0, 0, 1⟩ (r.z / (M.pi / 180))

/-- Lines 216-228 of `interpolateRotation`: the quaternion `si0` of segment `i`. -/
def si0 (M : CMath K) (rotationWaypoints : List (QVector3D K)) (i : ℤ) :
    Option (QQuaternion K) := do
  let qi0 ← (QList.at rotationWaypoints i).map (fromEulerAngles M)
  let qi1 ← (QList.at rotationWaypoints (i + 1)).map (fromEulerAngles M)
  if i ≤ 1 then
    pure qi0
  else
    let qim1 ← (QList.at rotationWaypoints (i - 1)).map (fromEulerAngles M)
    pure (qi0 * exp M (QQuaternion.divide
      (-(log M (qi0.inverted * qi1) + log M (qi0.inverted * qim1))) 4))

/-- Lines 230-245 of `interpolateRotation`: the quaternion `si1` of segment `i`. -/
def si1 (M : CMath K) (rotationWaypoints : List (QVector3D K)) (i : ℤ) :
    Option (QQuaternion K) := do
  let qi0 ← (QList.at rotationWaypoints i).map (fromEulerAngles M)
  let qi1 ← (QList.at rotationWaypoints (i + 1)).map (fromEulerAngles M)
  if i ≥ (rotationWaypoints.length : ℤ) - 3 then
    rotationWaypoints.getLast?.map (fromEulerAngles M)
  else
    let qip2 ← (QList.at rotationWaypoints (i + 2)).map (fromEulerAngles M)
    pure (qi1 * exp M (QQuaternion.divide
      (-(log M (qi1.inverted * qip2) + log M (qi1.inverted * qi0))) 4))

/-- Source `FractalWidget::interpolateRotation`, lines 193-253. -/
def interpolateRotation (M : CMath K) (Q : QtMath K) (rotationWaypoints : List (QVector3D K))
    (t : K) : Option (QVector3D K) :=
  if t ≤ 0 then rotationWaypoints.head?
  else if t ≥ (((rotationWaypoints.length : ℤ) - 1 : ℤ) : K) then rotationWaypoints.getLast?
  else do
    let i : ℤ := ⌊t⌋
    let qi0 ← (QList.at rotationWaypoints i).map (fromEulerAngles M)
    let qi1 ← (QList.at rotationWaypoints (i + 1)).map (fromEulerAngles M)
    let si0 ← si0 M rotationWaypoints i
    let si1 ← si1 M rotationWaypoints i
    let h := t - (i : K)
    let squad := Q.slerp (Q.slerp qi0 qi1 h) (Q.slerp si0 si1 h) (2 * h * (1 - h))
    pure ((M.pi / 180) • Q.toEulerAngles squad)

/-- The member variables of `class FractalWidget` (`src/FractalWidget.h`, lines 287-393)
that the camera path engine reads or writes. -/
structure FractalWidget (K : Type) where
  animateKeyframesActive : Bool
  previewKeyframesActive : Bool
  fractalKeyframeBegin : ℤ
  fractalKeyframeCurrent : ℤ
  cameraPosition : QVector3D K
  cameraRotation : QVector3D K
  cameraRotationMatrix : Matrix (Fin 3) (Fin 3) K
  positionWaypoints : List (QVector3D K)
  rotationWaypoints : List (QVector3D K)
  s2uTable : List (K × K)
  outputResolution : K × K
  outputTargetFPS : K
  outputTargetDuration : K
  outputLastDrawnFrame : ℤ

/-- The table `coefficients` of `blend`, lines 82-89: the nodes and weights of the
Gauss-Legendre quadrature of order five, as pairs `(xi, wi)`. -/
def coefficients : List (K × K) :=
  [(0.00000000, 0.56888890),
   (-0.53846930, 0.47862867),
   (0.53846930, 0.47862867),
   (-0.90617985, 0.23692688),
   (0.90617985, 0.23692688)]

/-- The lambda `gaussianQuadrature` of `blend`, lines 79-99. -/
def gaussianQuadrature (M : CMath K) (positionWaypoints rotationWaypoints : List (QVector3D K))
    (a b : K) : Option K := do
  let s ← coefficients.foldlM
    (fun (s : K) (c : K × K) => do
      let p ← interpolatePosition M positionWaypoints rotationWaypoints
        (((b - a) / 2 * c.1) + ((b + a) / 2)) true
      pure (s + c.2 * p.length M))
    0
  pure (s * ((b - a) / 2))

/-! ### The counter of the loop of `blend`

The variable `u` of `blend` is a `float` that starts at `0.0f` and is advanced by
`u += 0.01f`. The literal `0.01f` is `10737418 * 2^-30`, and every value that `u` takes is a
multiple of `2^-30`, so the counter is held as the natural number `u * 2^30` and the
addition is the binary32 addition: the exact sum rounded to 24 significant binary digits,
a tie to the even neighbour. The variable `s` and the quadrature stay in the field `K`. -/

/-- The number of binary digits of `n` beyond 24: the `e` with `n / 2^e < 2^24` and
`2^23 <= n / 2^e` when `e > 0`, for `n < 2^(24 + fuel)`. -/
def Binary32.excess : ℕ → ℕ → ℕ
  | 0, _ => 0
  | fuel + 1, n => if n < 2 ^ 24 then 0 else Binary32.excess fuel (n / 2) + 1

/-- The binary32 value nearest to `n * 2^-30`, in units of `2^-30`: `n` rounded to 24
significant binary digits, a tie to the neighbour whose last digit is even. -/
def Binary32.round (n : ℕ) : ℕ :=
  let q := 2 ^ Binary32.excess 64 n
  let base := n / q
  let r := n % q
  if 2 * r < q then base * q
  else if q < 2 * r then (base + 1) * q
  else if base % 2 = 0 then base * q
  else (base + 1) * q

/-- The binary32 addition of two values given in units of `2^-30`: the exact sum,
rounded. -/
def Binary32.add (a b : ℕ) : ℕ :=
  Binary32.round (b + a)

/-- The literal `0.01f`, which is `0x3C23D70A = 10737418 * 2^-30`, in units of `2^-30`. -/
def Binary32.hundredth : ℕ := 10737418

/-- The value of a counter given in units of `2^-30`. -/
def Binary32.toField (n : ℕ) : K :=
  (n : K) / 2 ^ 30

/-- The `while` loop of `blend`, lines 106-111, from the values `s`, `u` of its two
variables and the current content `table` of `s2uTable`; `u` is given in units of
`2^-30`. A turn of the loop whose `u += 0.01f` leaves `u` where it is (the sum rounds
back to `u`) is followed by the same turn for ever, so from there the loop does not
return: the result is `none`. Every other turn moves `u` closer to `size - 1`. -/
def blendLoop (M : CMath K) (positionWaypoints rotationWaypoints : List (QVector3D K))
    (s : K) (u : ℕ) (table : List (K × K)) : Option (List (K × K)) :=
  if (Binary32.toField u : K) < (((positionWaypoints.length : ℤ) - 1 : ℤ) : K) then
    if u < Binary32.add u Binary32.hundredth then
      match gaussianQuadrature M positionWaypoints rotationWaypoints (Binary32.toField u)
          (Binary32.toField (Binary32.add u Binary32.hundredth)) with
      | none => none
      | some g => blendLoop M positionWaypoints rotationWaypoints (s + g)
          (Binary32.add u Binary32.hundredth) (table ++ [(s, Binary32.toField u)])
    else none
  else some table
termination_by 2 ^ 30 * positionWaypoints.length - u
decreasing_by
  rename_i hu hadd
  have h1 : (u : K) < (positionWaypoints.length : K) * 2 ^ 30 := by
    unfold Binary32.toField at hu
    rw [div_lt_iff₀ (by positivity)] at hu
    push_cast at hu
    have h30 : (0 : K) ≤ 2 ^ 30 := by positivity
    exact lt_of_lt_of_le hu (mul_le_mul_of_nonneg_right (by linarith) h30)
  have h2 : u < positionWaypoints.length * 2 ^ 30 := by exact_mod_cast h1
  omega

/-- Source `FractalWidget::blend`, lines 76-112: the table is cleared, the loop starts
from `s = 0`, `u = 0`, and the table it builds is stored in `s2uTable`. The result is
`none` when a waypoint is read outside its list or the loop does not end. -/
def blend (M : CMath K) (w : FractalWidget K) : Option (FractalWidget K) :=
  (blendLoop M w.positionWaypoints w.rotationWaypoints 0 0 []).map
    (fun table => { w with s2uTable := table })

/-- The widget as its constructor leaves it (the default member initialisers of
`src/FractalWidget.h`), holding the waypoints `ps`, `rs`. -/
def FractalWidget.withWaypoints (ps rs : List (QVector3D K)) : FractalWidget K where
  animateKeyframesActive := false
  previewKeyframesActive := false
  fractalKeyframeBegin := 0
  fractalKeyframeCurrent := 0
  cameraPosition := ⟨0, 0, 0⟩
  cameraRotation := ⟨0, 0, 0⟩
  cameraRotationMatrix := 1
  positionWaypoints := ps
  rotationWaypoints := rs
  s2uTable := []
  outputResolution := (0, 0)
  outputTargetFPS := 0
  outputTargetDuration := 0
  outputLastDrawnFrame := 0

/-- The C math library over the real numbers; `atan2 y x` is the argument of `x + y i`. -/
noncomputable def CMath.real : CMath ℝ where
  sqrt := Real.sqrt
  sin := Real.sin
  cos := Real.cos
  exp := Real.exp
  log := Real.log
  atan2 := fun y x => Complex.arg ⟨x, y⟩
  pi := Real.pi

/-! ## The inverse arc-length lookup -/

/-- The call `std::upper_bound(first, last, QPair(s, 0.0f), comp)` of `s2u`, line 121, over
the elements `l` of the range `[first, last)`, as the C++ standard defines its result:
the position of the first element `e` with `comp(value, e)`, that is `s < e.first`, and
the end of the range when there is none. -/
def upper_bound (l : List (K × K)) (s : K) : ℕ :=
  l.findIdx (fun e => decide (s < e.1))

/-- Source `FractalWidget::s2u`, lines 114-134. Iterators are positions counted from
`s2uTable.begin()`; the range of the search is the table without its last entry; after
`auto i0 = i1--;` the iterator `i0` is the result of the search and `i1` the entry
before it. -/
def s2u (s2uTable : List (K × K)) (s : K) : Option K := do
  let i1 : ℤ := (upper_bound s2uTable.dropLast s : ℕ)
  let i0 := i1
  let i1 := i1 - 1
  let e0 ← QList.at s2uTable i0
  let e1 ← QList.at s2uTable i1
  let u0 := e0.2
  let u1 := e1.2
  let s0 := e0.1
  let s1 := e1.1
  let a := (s - s0) / (s1 - s0)
  pure ((1 - a) * u0 + a * u1)

/-! ## The playback controller

The object of class `FractalWidget` is modelled on its own: a signal that it emits is
recorded, the slots that the main window connects to the signal are not run. The calls
`grabKeyboard`, `releaseKeyboard`, `grabMouse`, `releaseMouse`, `QCursor::setPos` and the
OpenGL calls do not touch the state below and are left out. The listing of the output
directory that `animateKeyframes` reads is an argument of the call: the numbers of the
listed files, in the order of the listing.

A division by zero has the value `0` in `K` and is infinite or not a number in C++; the
statements about ticks are made for a positive `outputTargetFPS` and a positive
`outputTargetDuration`, where the two agree. -/

/-- The conversion `QString::number(value, 'f', 4).toFloat()` of `setCameraPosition` and
`setCameraRotation`, a library function. -/
structure QtString (K : Type) where
  toFloat4 : K → K

/-- The library functions the program is built on. -/
structure Lib (K : Type) where
  math : CMath K
  quaternion : QtMath K
  string : QtString K

/-- The text shown by `statusChanged`: the progress message of `updatePhysics`, lines
859-861, with the two numbers it prints, and the messages of the setters. -/
inductive Status (K : Type) where
  | animatingKeyframes (elapsedSeconds duration : K)
  | error (message : String)

/-- The signals of `class FractalWidget` (`src/FractalWidget.h`, lines 82-115). -/
inductive Signal (K : Type) where
  | statusChanged (message : Status K)
  | cameraPositionChaged (value : QVector3D K)
  | cameraRotationChaged (value : QVector3D K)
  | fractalKeyframeChanged (value : ℤ)
  | animateKeyframesCancelled
  | animateKeyframesFinished
  | previewKeyframesCancelled
  | previewKeyframesFinished

/-- The entries of the member `keyMap` that the program reads. -/
structure KeyMap where
  W : Bool
  A : Bool
  S : Bool
  D : Bool
  Q : Bool
  E : Bool

/-- The keys that `keyPressEvent` and `keyReleaseEvent` tell apart. -/
inductive Key where
  | W | Up | A | Left | S | Down | D | Right | Q | E
  | Space | Backspace | Delete | Escape | other

/-- The widget object and what it acts on: the member variables, the mouse tracking flag
of its base class `QWidget`, the signals emitted so far (oldest first) and the indices of
the image files saved so far by `paintGL` (oldest first). -/
structure World (K : Type) extends FractalWidget K where
  keyMap : KeyMap
  hasMouseTracking : Bool
  emitted : List (Signal K)
  savedFrames : List ℤ

/-- The widget after its construction. -/
def World.initial : World K where
  toFractalWidget := FractalWidget.withWaypoints [] []
  keyMap := ⟨false, false, false, false, false, false⟩
  hasMouseTracking := false
  emitted := []
  savedFrames := []

/-- The statement `emit signal(...)`. -/
def World.emit (w : World K) (signal : Signal K) : World K :=
  { w with emitted := w.emitted ++ [signal] }

instance QVector3D.instDecidableEq : DecidableEq (QVector3D K) :=
  fun a b => decidable_of_iff (a.x = b.x ∧ a.y = b.y ∧ a.z = b.z)
    ⟨fun h => QVector3D.ext h.1 h.2.1 h.2.2, fun h => by subst h; exact ⟨rfl, rfl, rfl⟩⟩

/-- The function `std::fmod`: the remainder of the division truncated toward zero. -/
def fmod (x y : K) : K :=
  x - (truncToInt (x / y) : K) * y

/-- Source `FractalWidget::setCameraPosition`, lines 338-352. -/
def setCameraPosition (L : Lib K) (value : QVector3D K) (w : World K) : World K :=
  let x := L.string.toFloat4 value.x
  let y := L.string.toFloat4 value.y
  let z := L.string.toFloat4 value.z
  let value : QVector3D K := ⟨x, y, z⟩
  if w.cameraPosition ≠ value then
    ({ w with cameraPosition := value }).emit (Signal.cameraPositionChaged value)
  else w

/-- Source `FractalWidget::setCameraRotation`, lines 354-395. -/
def setCameraRotation (L : Lib K) (value : QVector3D K) (w : World K) : World K :=
  let x := L.string.toFloat4 value.x
  let y := L.string.toFloat4 value.y
  let z := L.string.toFloat4 value.z
  let x := fmod x (2 * L.math.pi)
  let y := fmod y (2 * L.math.pi)
  let z := fmod z (2 * L.math.pi)
  let value : QVector3D K := ⟨x, y, z⟩
  if w.cameraRotation ≠ value then
    let rx := QQuaternion.fromAxisAndAngle L.math ⟨1, 0, 0⟩ (value.x / (L.math.pi / 180))
    let ry := QQuaternion.fromAxisAndAngle L.math ⟨0, 1, 0⟩ (value.y / (L.math.pi / 180))
    let rz := QQuaternion.fromAxisAndAngle L.math ⟨0, 0, 1⟩ (value.z / (L.math.pi / 180))
    ({ w with cameraRotation := value
              cameraRotationMatrix := (ry * rx * rz).toRotationMatrix }).emit
      (Signal.cameraRotationChaged value)
  else w

/-- The constant `static_cast<int32_t>(2 * M_PI / ANIMATION_SIN_INNER_FACTOR)` of
`setFractalKeyframe`, line 424, with `ANIMATION_SIN_INNER_FACTOR = 0.0003f`. -/
def keyframePeriod (M : CMath K) : ℤ :=
  truncToInt (2 * M.pi / 0.0003)

/-- Source `FractalWidget::setFractalKeyframe`, lines 422-427; the operator `%` of C++
truncates toward zero. -/
def setFractalKeyframe (L : Lib K) (value : ℤ) (w : World K) : World K :=
  let current := Int.tmod value (keyframePeriod L.math)
  ({ w with fractalKeyframeCurrent := current }).emit (Signal.fractalKeyframeChanged current)

/-- Source `FractalWidget::setOutputResultion`, lines 508-515. -/
def setOutputResultion (value : K × K) (w : World K) : World K :=
  if value.1 > 0 ∧ value.2 > 0 then
    { w with outputResolution := value }
  else
    w.emit (Signal.statusChanged
      (Status.error "Cannot set output resolution to a negative value"))

/-- Source `FractalWidget::setOutputTargetFPS`, lines 517-524. -/
def setOutputTargetFPS (value : K) (w : World K) : World K :=
  if value ≥ 0 then
    { w with outputTargetFPS := value }
  else
    w.emit (Signal.statusChanged
      (Status.error "Cannot set output target FPS to a negative value"))

/-- Source `FractalWidget::setOutputTargetDuration`, lines 526-533. -/
def setOutputTargetDuration (value : K) (w : World K) : World K :=
  if value ≥ 0 then
    { w with outputTargetDuration := value }
  else
    w.emit (Signal.statusChanged
      (Status.error "Cannot set output target duration to a negative value"))

/-- Source `FractalWidget::animateKeyframes`, lines 261-280. The argument `drawnFrames`
is the list `QDir(outputDirectory).entryInfoList({ "*.png" }, QDir::Files, QDir::Time)`
in its order, every entry given by its number `baseName().toLong()`. -/
def animateKeyframes (L : Lib K) (drawnFrames : List ℤ) (w : World K) : Option (World K) :=
  if !w.animateKeyframesActive && !w.previewKeyframesActive then do
    let w ←
      (if w.positionWaypoints.length > 1 then do
        let members ← blend L.math w.toFractalWidget
        let w : World K := { w with toFractalWidget := members }
        pure { w with fractalKeyframeBegin := w.fractalKeyframeCurrent
                      animateKeyframesActive := true }
      else pure w)
    match drawnFrames.getLast? with
    | some last => pure { w with outputLastDrawnFrame := last }
    | none => pure { w with outputLastDrawnFrame := 0 }
  else pure w

/-- Source `FractalWidget::previewKeyframes`, lines 282-294. -/
def previewKeyframes (L : Lib K) (w : World K) : Option (World K) :=
  if !w.animateKeyframesActive && !w.previewKeyframesActive then
    (if w.positionWaypoints.length > 1 then do
      let members ← blend L.math w.toFractalWidget
      let w : World K := { w with toFractalWidget := members }
      pure { w with fractalKeyframeBegin := w.fractalKeyframeCurrent
                    previewKeyframesActive := true }
    else pure w)
  else pure w

/-- Source `FractalWidget::addWaypoint(QVector3D, QVector3D)`, lines 301-307. -/
def addWaypoint (position rotation : QVector3D K) (w : World K) : World K :=
  if !w.animateKeyframesActive && !w.previewKeyframesActive then
    { w with positionWaypoints := w.positionWaypoints ++ [position]
             rotationWaypoints := w.rotationWaypoints ++ [rotation] }
  else w

/-- Source `FractalWidget::clearWayPoints`, lines 309-315. -/
def clearWayPoints (w : World K) : World K :=
  if !w.animateKeyframesActive && !w.previewKeyframesActive then
    { w with positionWaypoints := [], rotationWaypoints := [] }
  else w

/-- The case `Qt::Key_Backspace` of `keyPressEvent`, lines 606-616. -/
def removeLastWaypoint (w : World K) : World K :=
  if !w.animateKeyframesActive && !w.previewKeyframesActive then
    let w : World K :=
      if !w.positionWaypoints.isEmpty then
        { w with positionWaypoints := w.positionWaypoints.dropLast }
      else w
    let w : World K :=
      if !w.positionWaypoints.isEmpty then
        { w with rotationWaypoints := w.rotationWaypoints.dropLast }
      else w
    w
  else w

/-- The case `Qt::Key_Escape` of `keyPressEvent`, lines 622-636. -/
def cancel (w : World K) : World K :=
  let w : World K := { w with hasMouseTracking := false }
  let w : World K :=
    if w.animateKeyframesActive then
      ({ w with animateKeyframesActive := false }).emit Signal.animateKeyframesCancelled
    else w
  let w : World K :=
    if w.previewKeyframesActive then
      ({ w with previewKeyframesActive := false }).emit Signal.previewKeyframesCancelled
    else w
  w

/-- Source `FractalWidget::keyPressEvent`, lines 570-641. -/
def keyPressEvent (key : Key) (w : World K) : World K :=
  match key with
  | Key.W | Key.Up => { w with keyMap := { w.keyMap with W := true } }
  | Key.A | Key.Left => { w with keyMap := { w.keyMap with A := true } }
  | Key.S | Key.Down => { w with keyMap := { w.keyMap with S := true } }
  | Key.D | Key.Right => { w with keyMap := { w.keyMap with D := true } }
  | Key.Q => { w with keyMap := { w.keyMap with Q := true } }
  | Key.E => { w with keyMap := { w.keyMap with E := true } }
  | Key.Space => addWaypoint w.cameraPosition w.cameraRotation w
  | Key.Backspace => removeLastWaypoint w
  | Key.Delete => clearWayPoints w
  | Key.Escape => cancel w
  | Key.other => w

/-- Source `FractalWidget::keyReleaseEvent`, lines 643-678. -/
def keyReleaseEvent (key : Key) (w : World K) : World K :=
  match key with
  | Key.W | Key.Up => { w with keyMap := { w.keyMap with W := false } }
  | Key.A | Key.Left => { w with keyMap := { w.keyMap with A := false } }
  | Key.S | Key.Down => { w with keyMap := { w.keyMap with S := false } }
  | Key.D | Key.Right => { w with keyMap := { w.keyMap with D := false } }
  | Key.Q => { w with keyMap := { w.keyMap with Q := false } }
  | Key.E => { w with keyMap := { w.keyMap with E := false } }
  | _ => w

/-- Source `FractalWidget::mousePressEvent`, lines 680-690. -/
def mousePressEvent (leftButton : Bool) (w : World K) : World K :=
  if leftButton then { w with hasMouseTracking := true } else w

/-- The local `elapsed` of `updatePhysics`, line 834. -/
def elapsed (w : World K) : K :=
  ((w.fractalKeyframeCurrent - w.fractalKeyframeBegin : ℤ) : K) * (1000 / w.outputTargetFPS)

/-- The argument `elapsed * arclengthPerMillisecond` of the call of `s2u` in
`updatePhysics`, lines 836-840. -/
def arclengthArgument (w : World K) : Option K := do
  let last ← w.s2uTable.getLast?
  let arclength := last.1
  let arclengthPerSecond := arclength / w.outputTargetDuration
  let arclengthPerMillisecond := arclengthPerSecond / 1000
  pure (elapsed w * arclengthPerMillisecond)

/-- The first branch of `updatePhysics`, lines 773-832: the camera follows the keys and
the cursor. The argument `cursor` is the point `widgetCenterInGlobalCoords - QCursor::pos()`. -/
def updateNavigation (L : Lib K) (cursor : ℤ × ℤ) (w : World K) : World K :=
  let dx : K := 0
  let dy : K := 0
  let dx := if w.keyMap.W then dx + 1 else dx
  let dy := if w.keyMap.A then dy - 1 else dy
  let dx := if w.keyMap.S then dx - 1 else dx
  let dy := if w.keyMap.D then dy + 1 else dy
  let mag2 := dx * dx + dy * dy
  let dx := if mag2 > 1 then dx / L.math.sqrt mag2 else dx
  let dy := if mag2 > 1 then dy / L.math.sqrt mag2 else dy
  let xAxis : QVector3D K :=
    ⟨w.cameraRotationMatrix 0 0, w.cameraRotationMatrix 1 0, w.cameraRotationMatrix 2 0⟩
  let zAxis : QVector3D K :=
    ⟨w.cameraRotationMatrix 0 2, w.cameraRotationMatrix 1 2, w.cameraRotationMatrix 2 2⟩
  let newCameraPosition := w.cameraPosition
  let newCameraPosition := newCameraPosition + (dy * 0.01) • xAxis
  let newCameraPosition := newCameraPosition + (dx * -0.01) • zAxis
  let w := setCameraPosition L newCameraPosition w
  let rx : K := (cursor.1 : K) * 0.005
  let ry : K := (cursor.2 : K) * 0.005
  let rz : K := 0
  let rz := if w.keyMap.Q then rz + 0.01 else rz
  let rz := if w.keyMap.E then rz - 0.01 else rz
  let newCameraRotation := w.cameraRotation + ⟨ry, rx, rz⟩
  let x :=
    if newCameraRotation.x < -(L.math.pi / 2) then -(L.math.pi / 2)
    else if L.math.pi / 2 < newCameraRotation.x then L.math.pi / 2
    else newCameraRotation.x
  let newCameraRotation : QVector3D K := ⟨x, newCameraRotation.y, newCameraRotation.z⟩
  setCameraRotation L newCameraRotation w

/-- Lines 849-857 of `updatePhysics`: the end of the session. -/
def finishSession (w : World K) : World K :=
  let w : World K :=
    if w.animateKeyframesActive then
      ({ w with animateKeyframesActive := false }).emit Signal.animateKeyframesFinished
    else w
  let w : World K :=
    if w.previewKeyframesActive then
      ({ w with previewKeyframesActive := false }).emit Signal.previewKeyframesFinished
    else w
  w

/-- The second branch of `updatePhysics`, lines 833-865: one step of the running
session. -/
def updateSession (L : Lib K) (w : World K) : Option (World K) := do
  let elapsed := elapsed w
  let s ← arclengthArgument w
  let u ← s2u w.s2uTable s
  let interpolatedPosition ←
    interpolatePosition L.math w.positionWaypoints w.rotationWaypoints u false
  let w := setCameraPosition L interpolatedPosition w
  let interpolatedRotation ←
    interpolateRotation L.math L.quaternion w.rotationWaypoints u
  let w := setCameraRotation L interpolatedRotation w
  if elapsed > w.outputTargetDuration * 1000 then
    pure (finishSession w)
  else
    pure (w.emit (Signal.statusChanged
      (Status.animatingKeyframes (elapsed / 1000) w.outputTargetDuration)))

/-- Source `FractalWidget::updatePhysics`, lines 770-865. -/
def updatePhysics (L : Lib K) (cursor : ℤ × ℤ) (w : World K) : Option (World K) :=
  if w.hasMouseTracking then
    some (updateNavigation L cursor w)
  else if w.animateKeyframesActive || w.previewKeyframesActive then
    updateSession L w
  else
    some w

/-- The part of `FractalWidget::updateVisuals`, lines 868-877, that changes the state:
the call `setFractalKeyframe(fractalKeyframeCurrent + 1)`, which is always made. -/
def updateVisuals (L : Lib K) (w : World K) : World K :=
  setFractalKeyframe L (w.fractalKeyframeCurrent + 1) w

/-- Source `FractalWidget::paintGL`, lines 692-729: one tick. While animating, the frame
is saved under the index `outputLastDrawnFrame++`. -/
def paintGL (L : Lib K) (cursor : ℤ × ℤ) (w : World K) : Option (World K) := do
  let w ← updatePhysics L cursor w
  let w := updateVisuals L w
  if w.animateKeyframesActive then
    pure { w with savedFrames := w.savedFrames ++ [w.outputLastDrawnFrame]
                  outputLastDrawnFrame := w.outputLastDrawnFrame + 1 }
  else pure w

/-- The calls the widget receives: the events of the window system and the public
functions and slots that touch the camera path engine. -/
inductive Event (K : Type) where
  | paintGL (cursor : ℤ × ℤ)
  | keyPressEvent (key : Key)
  | keyReleaseEvent (key : Key)
  | mousePressEvent (leftButton : Bool)
  | animateKeyframes (drawnFrames : List ℤ)
  | previewKeyframes
  | addWaypoint (position rotation : QVector3D K)
  | clearWayPoints
  | setCameraPosition (value : QVector3D K)
  | setCameraRotation (value : QVector3D K)
  | setFractalKeyframe (value : ℤ)
  | setOutputResultion (value : K × K)
  | setOutputTargetFPS (value : K)
  | setOutputTargetDuration (value : K)

/-- The effect of one call; `none` when the call reads outside a list. -/
def step (L : Lib K) (w : World K) : Event K → Option (World K)
  | Event.paintGL cursor => paintGL L cursor w
  | Event.keyPressEvent key => some (keyPressEvent key w)
  | Event.keyReleaseEvent key => some (keyReleaseEvent key w)
  | Event.mousePressEvent leftButton => some (mousePressEvent leftButton w)
  | Event.animateKeyframes drawnFrames => animateKeyframes L drawnFrames w
  | Event.previewKeyframes => previewKeyframes L w
  | Event.addWaypoint position rotation => some (addWaypoint position rotation w)
  | Event.clearWayPoints => some (clearWayPoints w)
  | Event.setCameraPosition value => some (setCameraPosition L value w)
  | Event.setCameraRotation value => some (setCameraRotation L value w)
  | Event.setFractalKeyframe value => some (setFractalKeyframe L value w)
  | Event.setOutputResultion value => some (setOutputResultion value w)
  | Event.setOutputTargetFPS value => some (setOutputTargetFPS value w)
  | Event.setOutputTargetDuration value => some (setOutputTargetDuration value w)

/-- The states the widget can be in: the state after construction and every state that
a call leads to from one of them. -/
inductive Reachable (L : Lib K) : World K → Prop where
  | initial : Reachable L World.initial
  | step (w w2 : World K) (e : Event K) :
      Reachable L w → step L w e = some w2 → Reachable L w2

/-- The state `Idle` of the controller. -/
def World.idle (w : World K) : Prop :=
  w.animateKeyframesActive = false ∧ w.previewKeyframesActive = false

/-- The state `Previewing` of the controller. -/
def World.previewing (w : World K) : Prop :=
  w.animateKeyframesActive = false ∧ w.previewKeyframesActive = true

/-- The state `Animating` of the controller. -/
def World.animating (w : World K) : Prop :=
  w.animateKeyframesActive = true ∧ w.previewKeyframesActive = false

/-! ## The divisions of `exp` and `log`

The two functions once more, with the operator `/` replaced by a division that has no
value when the divisor is zero. -/

/-- The operator `/` on floats, without a value when the divisor is zero. -/
def checkedDiv (a b : K) : Option K :=
  if b = 0 then none else some (a / b)

/-- Source `static QQuaternion exp(QQuaternion q)`, lines 12-36, every division checked. -/
def expChecked (M : CMath K) (q : QQuaternion K) : Option (QQuaternion K) :=
  let x := q.x
  let y := q.y
  let z := q.z
  let w := q.scalar
  let immaginaryNorm := M.sqrt ((x * x) + (y * y) + (z * z))
  let r := M.exp w * M.cos immaginaryNorm
  let i : ℤ := 0
  let j : ℤ := 0
  let k : ℤ := 0
  if immaginaryNorm = 0 then
    some ⟨r, (i : K), (j : K), (k : K)⟩
  else do
    let i : ℤ := truncToInt (← checkedDiv (M.exp w * (x * M.sin immaginaryNorm)) immaginaryNorm)
    let j : ℤ := truncToInt (← checkedDiv (M.exp w * (y * M.sin immaginaryNorm)) immaginaryNorm)
    let k : ℤ := truncToInt (← checkedDiv (M.exp w * (z * M.sin immaginaryNorm)) immaginaryNorm)
    pure ⟨r, (i : K), (j : K), (k : K)⟩

/-- Source `static QQuaternion log(QQuaternion q)`, lines 40-65, every division checked. -/
def logChecked (M : CMath K) (q : QQuaternion K) : Option (QQuaternion K) :=
  let x := q.x
  let y := q.y
  let z := q.z
  let w := q.scalar
  let immaginaryNorm := M.sqrt ((x * x) + (y * y) + (z * z))
  if immaginaryNorm = 0 then
    let r := M.log (q.length M)
    let i := x * M.atan2 immaginaryNorm w
    let j := y * M.atan2 immaginaryNorm w
    let k := z * M.atan2 immaginaryNorm w
    some ⟨r, i, j, k⟩
  else do
    let r := M.log (q.length M)
    let i ← checkedDiv (x * M.atan2 immaginaryNorm w) immaginaryNorm
    let j ← checkedDiv (y * M.atan2 immaginaryNorm w) immaginaryNorm
    let k ← checkedDiv (z * M.atan2 immaginaryNorm w) immaginaryNorm
    pure ⟨r, i, j, k⟩

/-! ## `src/FractalPioneer.cpp`

The handlers that the constructor of the main window connects to the signal
`valueChanged` of the six spin boxes of the fractal shift and the fractal rotation. A
handler is given by the vector that it passes to `setFractalPosition` or to
`setFractalRotation`, which store their argument. -/

/-- The values `value()` of the six spin boxes at the time a handler runs. -/
structure SpinBoxes (K : Type) where
  fractalShiftX : K
  fractalShiftY : K
  fractalShiftZ : K
  fractalRotationX : K
  fractalRotationY : K
  fractalRotationZ : K

/-- The handler of `ui.fractalShiftX`, lines 253-261. -/
def fractalShiftXChanged (ui : SpinBoxes K) (value : K) : QVector3D K :=
  let x := value
  let y := ui.fractalShiftY
  let z := ui.fractalShiftZ
  ⟨x, y, z⟩

/-- The handler of `ui.fractalShiftY`, lines 263-271. -/
def fractalShiftYChanged (ui : SpinBoxes K) (value : K) : QVector3D K :=
  let x := ui.fractalShiftZ
  let y := value
  let z := ui.fractalShiftZ
  ⟨x, y, z⟩

/-- The handler of `ui.fractalShiftZ`, lines 273-281. -/
def fractalShiftZChanged (ui : SpinBoxes K) (value : K) : QVector3D K :=
  let x := ui.fractalShiftZ
  let y := ui.fractalShiftY
  let z := value
  ⟨x, y, z⟩

/-- The handler of `ui.fractalRotationX`, lines 283-291. -/
def fractalRotationXChanged (ui : SpinBoxes K) (value : K) : QVector3D K :=
  let x := value
  let y := ui.fractalRotationY
  let z := ui.fractalRotationZ
  ⟨x, y, z⟩

/-- The handler of `ui.fractalRotationY`, lines 293-301. -/
def fractalRotationYChanged (ui : SpinBoxes K) (value : K) : QVector3D K :=
  let x := ui.fractalRotationX
  let y := value
  let z := ui.fractalRotationZ
  ⟨x, y, z⟩

/-- The handler of `ui.fractalRotationZ`, lines 303-311. -/
def fractalRotationZChanged (ui : SpinBoxes K) (value : K) : QVector3D K :=
  let x := ui.fractalRotationX
  let y := ui.fractalRotationY
  let z := value
  ⟨x, y, z⟩

/-! ## The statements of the specification -/

/-- The control point before waypoint `i`, as the specification names it: waypoint
`i - 1`, and before the first waypoint `waypoint[0] - lookDirection(rotation[0])`. -/
def controlPointBefore (M : CMath K) (ps rs : List (QVector3D K)) (i : ℕ) : QVector3D K :=
  if i ≠ 0 then ps.getD (i - 1) default
  else ps.getD 0 default - getLookDirectionFromRotation M (rs.getD 0 default)

/-- The control point after waypoint `i + 1`, as the specification names it: waypoint
`i + 2`, and after the last waypoint `waypoint[last] + lookDirection(rotation[last])`. -/
def controlPointAfter (M : CMath K) (ps rs : List (QVector3D K)) (i : ℕ) : QVector3D K :=
  if i + 2 ≠ ps.length then ps.getD (i + 2) default
  else ps.getD (ps.length - 1) default
    + getLookDirectionFromRotation M (rs.getD (ps.length - 1) default)

/-- The cubic of the specification on segment `i` at the local parameter `h`. -/
def catmullRomSpec (M : CMath K) (ps rs : List (QVector3D K)) (i : ℕ) (h : K) : QVector3D K :=
  (0.5 : K) • ((-h + 2 * h ^ 2 - h ^ 3) • controlPointBefore M ps rs i
    + (2 - 5 * h ^ 2 + 3 * h ^ 3) • ps.getD i default
    + (h + 4 * h ^ 2 - 3 * h ^ 3) • ps.getD (i + 1) default
    + (-h ^ 2 + h ^ 3) • controlPointAfter M ps rs i)

/-- The derivative in `h` of the cubic of the specification on segment `i`. -/
def catmullRomDerivSpec (M : CMath K) (ps rs : List (QVector3D K)) (i : ℕ) (h : K) :
    QVector3D K :=
  (0.5 : K) • ((-1 + 4 * h - 3 * h ^ 2) • controlPointBefore M ps rs i
    + (-10 * h + 9 * h ^ 2) • ps.getD i default
    + (1 + 8 * h - 9 * h ^ 2) • ps.getD (i + 1) default
    + (-2 * h + 3 * h ^ 2) • controlPointAfter M ps rs i)

/-- The standard quaternion exponential, as the specification states it for a quaternion
whose imaginary norm `n` is not zero. -/
def expSpec (M : CMath K) (q : QQuaternion K) : QQuaternion K :=
  let n := M.sqrt (q.x ^ 2 + q.y ^ 2 + q.z ^ 2)
  ⟨M.exp q.scalar * M.cos n, M.exp q.scalar * q.x * (M.sin n / n),
    M.exp q.scalar * q.y * (M.sin n / n), M.exp q.scalar * q.z * (M.sin n / n)⟩

/-- The auxiliary quaternion `S_k` of waypoint `k`, as the specification defines it:
`Q_k` at the first and at the last waypoint, and
`Q_k * exp(-(log(Q_k⁻¹ Q_{k+1}) + log(Q_k⁻¹ Q_{k-1})) / 4)` at an interior waypoint. -/
def auxQuaternionSpec (M : CMath K) (rs : List (QVector3D K)) (k : ℕ) : QQuaternion K :=
  let Q := fun j : ℕ => fromEulerAngles M (rs.getD j default)
  if k = 0 ∨ k + 1 = rs.length then Q k
  else Q k * exp M (QQuaternion.divide
    (-(log M ((Q k).inverted * Q (k + 1)) + log M ((Q k).inverted * Q (k - 1)))) 4)

/-- The speed `|interpolatePosition(t, true)|` of the position spline at `t`. -/
def speed (M : CMath K) (ps rs : List (QVector3D K)) (t : K) : K :=
  match interpolatePosition M ps rs t true with
  | some v => v.length M
  | none => 0

/-- The quadrature of the specification,
`GL5(a, b) = ((b-a)/2) * Σ w_i * |interpolatePosition((b-a)/2 * x_i + (a+b)/2, true)|`
over the five Gauss-Legendre nodes. -/
def GL5 (M : CMath K) (ps rs : List (QVector3D K)) (a b : K) : K :=
  ((b - a) / 2) *
    (coefficients.map (fun c => c.2 * speed M ps rs ((b - a) / 2 * c.1 + (a + b) / 2))).sum

/-- The values `u_k` of the counter of the table in units of `2^-30`: `u_0 = 0` and
`u_{k+1}` is the binary32 sum of `u_k` and `0.01f`. -/
def loopCounter : ℕ → ℕ
  | 0 => 0
  | k + 1 => Binary32.add (loopCounter k) Binary32.hundredth

/-- The search for the number of entries of the table, from the index `k` and the
counter `u = u_k`: the first index from `k` on whose counter is not below `N - 1`, which
in units of `2^-30` reads `2^30 + u < 2^30 * N`; no more than `fuel` indices are tried. -/
def tableSizeFrom (N : ℕ) : ℕ → ℕ → ℕ → ℕ
  | 0, k, _ => k
  | fuel + 1, k, u =>
    if 2 ^ 30 + u < 2 ^ 30 * N then
      tableSizeFrom N fuel (k + 1) (Binary32.add u Binary32.hundredth)
    else k

/-- The number of entries of the table for `N` waypoints: the first `n` with
`u_n >= N - 1`, looked for among the first `2^30 * N` indices. -/
def tableSize (N : ℕ) : ℕ :=
  tableSizeFrom N (2 ^ 30 * N) 0 0

/-- The cumulative arc length of the specification, `s_k = Σ_{j < k} GL5(u_j, u_{j+1})`. -/
def arcLengthSpec (M : CMath K) (ps rs : List (QVector3D K)) (k : ℕ) : K :=
  ∑ j in Finset.range k, GL5 M ps rs (Binary32.toField (loopCounter j))
    (Binary32.toField (loopCounter (j + 1)))

/-- The table of the specification: the entries `(s_k, u_k)` for `k` below the number of
entries. -/
def tableSpec (M : CMath K) (ps rs : List (QVector3D K)) : List (K × K) :=
  (List.range (tableSize ps.length)).map
    (fun k => (arcLengthSpec M ps rs k, Binary32.toField (loopCounter k)))

/-- The signals `cameraPositionChaged` and `cameraRotationChaged`. -/
def Signal.isCamera : Signal K → Bool
  | Signal.cameraPositionChaged _ => true
  | Signal.cameraRotationChaged _ => true
  | _ => false

/-- The ticks: `paintGL` called once for every element of `cursors`, in order. -/
def runTicks (L : Lib K) : List (ℤ × ℤ) → World K → Option (World K)
  | [], w => some w
  | cursor :: cursors, w => (paintGL L cursor w).bind (runTicks L cursors)

/-- What holds in every state the widget can be in: the two sessions are never active
together, no position lacks its rotation, and while a session is active there are at
least two waypoints, no more than the 262145 for which the loop of `blend()` ends, and
the table is the one `blend()` builds from them. -/
def Invariant (L : Lib K) (w : World K) : Prop :=
  ¬ (w.animateKeyframesActive = true ∧ w.previewKeyframesActive = true) ∧
  w.positionWaypoints.length ≤ w.rotationWaypoints.length ∧
  ((w.animateKeyframesActive = true ∨ w.previewKeyframesActive = true) →
    (2 ≤ w.positionWaypoints.length ∧ w.positionWaypoints.length ≤ 262145) ∧
    w.s2uTable = tableSpec L.math w.positionWaypoints w.rotationWaypoints)

/-- The state `w2` is the state `w` but for the camera and for camera signals. -/
structure CameraStep (w w2 : World K) : Prop where
  animate : w2.animateKeyframesActive = w.animateKeyframesActive
  preview : w2.previewKeyframesActive = w.previewKeyframesActive
  keyframeBegin : w2.fractalKeyframeBegin = w.fractalKeyframeBegin
  keyframeCurrent : w2.fractalKeyframeCurrent = w.fractalKeyframeCurrent
  positions : w2.positionWaypoints = w.positionWaypoints
  rotations : w2.rotationWaypoints = w.rotationWaypoints
  table : w2.s2uTable = w.s2uTable
  resolution : w2.outputResolution = w.outputResolution
  targetFPS : w2.outputTargetFPS = w.outputTargetFPS
  targetDuration : w2.outputTargetDuration = w.outputTargetDuration
  lastDrawnFrame : w2.outputLastDrawnFrame = w.outputLastDrawnFrame
  keys : w2.keyMap = w.keyMap
  tracking : w2.hasMouseTracking = w.hasMouseTracking
  saved : w2.savedFrames = w.savedFrames
  signals : ∃ camera : List (Signal K),
    w2.emitted = w.emitted ++ camera ∧ ∀ signal ∈ camera, signal.isCamera = true

/-- The state `w2` has the session data of the state `w`: the keyframe at which the
session began, the waypoints, the table, the targets and the mouse tracking flag. -/
structure SessionFrame (w w2 : World K) : Prop where
  keyframeBegin : w2.fractalKeyframeBegin = w.fractalKeyframeBegin
  positions : w2.positionWaypoints = w.positionWaypoints
  rotations : w2.rotationWaypoints = w.rotationWaypoints
  table : w2.s2uTable = w.s2uTable
  targetFPS : w2.outputTargetFPS = w.outputTargetFPS
  targetDuration : w2.outputTargetDuration = w.outputTargetDuration
  tracking : w2.hasMouseTracking = w.hasMouseTracking

/-- The signals `animateKeyframesFinished` and `previewKeyframesFinished`. -/
def Signal.isFinished : Signal K → Bool
  | Signal.animateKeyframesFinished => true
  | Signal.previewKeyframesFinished => true
  | _ => false

/-- The signals `animateKeyframesCancelled` and `previewKeyframesCancelled`. -/
def Signal.isCancelled : Signal K → Bool
  | Signal.animateKeyframesCancelled => true
  | Signal.previewKeyframesCancelled => true
  | _ => false

/-- The signal `statusChanged`. -/
def Signal.isStatus : Signal K → Bool
  | Signal.statusChanged _ => true
  | _ => false

/-- A library over the reals for the examples: the real functions of the C math library,
and in place of the Qt functions, whose values no example depends on, a `slerp` that
returns its first argument, a `toEulerAngles` that returns zero and a `toFloat4` that
returns its argument. -/
noncomputable def Lib.sample : Lib ℝ where
  math := CMath.real
  quaternion := ⟨fun a _ _ => a, fun _ => ⟨0, 0, 0⟩⟩
  string := ⟨fun v => v⟩

/-- The state of the examples: after the construction, the target of 60 frames per
second, the target duration of 2 seconds and the two waypoints `(0,0,0)` and `(1,0,0)`,
both recorded with the rotation `(0,0,0)`. -/
noncomputable def World.sample : World ℝ :=
  addWaypoint ⟨1, 0, 0⟩ ⟨0, 0, 0⟩
    (addWaypoint ⟨0, 0, 0⟩ ⟨0, 0, 0⟩
      (setOutputTargetDuration 2 (setOutputTargetFPS 60 World.initial)))

/-- The state of the examples with the target of 50 frames per second, at which one tick
is 20 milliseconds. -/
noncomputable def World.sample50 : World ℝ :=
  setOutputTargetFPS 50 World.sample

/-- The state of the examples after 262144 further waypoints `(0,0,0)` were recorded with
the rotation `(0,0,0)`: it has 262146 waypoints. -/
noncomputable def World.crowded : World ℝ :=
  (addWaypoint ⟨0, 0, 0⟩ ⟨0, 0, 0⟩)^[262144] World.sample

/-! ## Auxiliary lemmas -/

@[simp]
theorem QVector3D.add_x (a b : QVector3D K) : (a + b).x = a.x + b.x := rfl

@[simp]
theorem QVector3D.add_y (a b : QVector3D K) : (a + b).y = a.y + b.y := rfl

@[simp]
theorem QVector3D.add_z (a b : QVector3D K) : (a + b).z = a.z + b.z := rfl

@[simp]
theorem QVector3D.sub_x (a b : QVector3D K) : (a - b).x = a.x - b.x := rfl

@[simp]
theorem QVector3D.sub_y (a b : QVector3D K) : (a - b).y = a.y - b.y := rfl

@[simp]
theorem QVector3D.sub_z (a b : QVector3D K) : (a - b).z = a.z - b.z := rfl

@[simp]
theorem QVector3D.smul_x (c : K) (a : QVector3D K) : (c • a).x = c * a.x := rfl

@[simp]
theorem QVector3D.smul_y (c : K) (a : QVector3D K) : (c • a).y = c * a.y := rfl

@[simp]
theorem QVector3D.smul_z (c : K) (a : QVector3D K) : (c • a).z = c * a.z := rfl

theorem QQuaternion.mul_def (a b : QQuaternion K) :
    a * b = ⟨a.scalar * b.scalar - a.x * b.x - a.y * b.y - a.z * b.z,
      a.scalar * b.x + a.x * b.scalar + a.y * b.z - a.z * b.y,
      a.scalar * b.y - a.x * b.z + a.y * b.scalar + a.z * b.x,
      a.scalar * b.z + a.x * b.y - a.y * b.x + a.z * b.scalar⟩ := rfl

theorem QQuaternion.add_def (a b : QQuaternion K) :
    a + b = ⟨a.scalar + b.scalar, a.x + b.x, a.y + b.y, a.z + b.z⟩ := rfl

theorem QQuaternion.neg_def (a : QQuaternion K) : -a = ⟨-a.scalar, -a.x, -a.y, -a.z⟩ := rfl

theorem QList.at_natCast {α : Type} (l : List α) (n : ℕ) : QList.at l (n : ℤ) = l[n]? := by
  simp [QList.at]

theorem QList.at_of_lt {α : Type} [Inhabited α] (l : List α) (n : ℕ) (h : n < l.length) :
    QList.at l (n : ℤ) = some (l.getD n default) := by
  rw [QList.at_natCast, List.getD_eq_getElem?_getD, List.getElem?_eq_getElem h]
  rfl

/-- On a segment inside the list the code computes the cubic of the specification, or
its derivative. -/
theorem catmullRomSegment_eq_of_le (M : CMath K) (ps rs : List (QVector3D K)) (n : ℕ) (h : K)
    (d : Bool) (hn : n + 1 < ps.length) (hlen : ps.length ≤ rs.length) :
    catmullRomSegment M ps rs (n : ℤ) h d
      = some (if d then catmullRomDerivSpec M ps rs n h else catmullRomSpec M ps rs n h) := by
  have a0 : QList.at ps ((n : ℤ) + 0) = some (ps.getD n default) := by
    simpa using QList.at_of_lt ps n (by omega)
  have a1 : QList.at ps ((n : ℤ) + 1) = some (ps.getD (n + 1) default) := by
    have := QList.at_of_lt ps (n + 1) hn
    simpa using this
  have r0 : QList.at rs ((n : ℤ) + 0) = some (rs.getD n default) := by
    simpa using QList.at_of_lt rs n (by omega)
  have r1 : QList.at rs ((n : ℤ) + 1) = some (rs.getD (n + 1) default) := by
    have := QList.at_of_lt rs (n + 1) (by omega)
    simpa using this
  have c0 : (if (n : ℤ) ≠ 0 then QList.at ps ((n : ℤ) - 1)
      else do
        let p ← QList.at ps ((n : ℤ) + 0)
        let r ← QList.at rs ((n : ℤ) + 0)
        pure (p - getLookDirectionFromRotation M r)) = some (controlPointBefore M ps rs n) := by
    unfold controlPointBefore
    by_cases hz : n = 0
    · subst hz
      simp only [a0, r0]
      simp
    · have hm : ((n : ℤ) - 1) = ((n - 1 : ℕ) : ℤ) := by omega
      have hz2 : (n : ℤ) ≠ 0 := by omega
      rw [if_pos hz2, if_pos hz, hm]
      exact QList.at_of_lt ps (n - 1) (by omega)
  have c3 : (if (n : ℤ) ≠ (ps.length : ℤ) - 2 then QList.at ps ((n : ℤ) + 2)
      else do
        let p ← QList.at ps ((n : ℤ) + 1)
        let r ← QList.at rs ((n : ℤ) + 1)
        pure (p + getLookDirectionFromRotation M r)) = some (controlPointAfter M ps rs n) := by
    unfold controlPointAfter
    by_cases hz : n + 2 = ps.length
    · have hz2 : (n : ℤ) = (ps.length : ℤ) - 2 := by omega
      have hl : ps.length - 1 = n + 1 := by omega
      simp only [a1, r1, hl]
      simp [hz, hz2]
    · have hz2 : (n : ℤ) ≠ (ps.length : ℤ) - 2 := by omega
      have hm : ((n : ℤ) + 2) = ((n + 2 : ℕ) : ℤ) := by omega
      rw [if_pos hz2, if_pos hz, hm]
      exact QList.at_of_lt ps (n + 2) (by omega)
  unfold catmullRomSegment
  rw [c0, c3, a0, a1]
  cases d
  · simp only [catmullRomSpec, catmullRomB]
    simp [Matrix.mulVec, Matrix.mul_apply, Matrix.dotProduct, Fin.sum_univ_four]
    ext <;> simp <;> ring
  · simp only [catmullRomDerivSpec, catmullRomB]
    simp [Matrix.mulVec, Matrix.mul_apply, Matrix.dotProduct, Fin.sum_univ_four]
    ext <;> simp <;> ring

theorem catmullRomSegment_eq (M : CMath K) (ps rs : List (QVector3D K)) (n : ℕ) (h : K)
    (d : Bool) (hn : n + 1 < ps.length) (hlen : rs.length = ps.length) :
    catmullRomSegment M ps rs (n : ℤ) h d
      = some (if d then catmullRomDerivSpec M ps rs n h else catmullRomSpec M ps rs n h) :=
  catmullRomSegment_eq_of_le M ps rs n h d hn hlen.ge

/-- Strictly inside the path the segment index `⌊t⌋` is a natural number `n` with
`n + 1` inside the list, and `interpolatePosition` evaluates segment `n`. -/
theorem interpolatePosition_interior (M : CMath K) (ps rs : List (QVector3D K)) (t : K)
    (d : Bool) (h0 : 0 < t) (h1 : t < (ps.length : K) - 1) :
    (⌊t⌋ : ℤ) = ((⌊t⌋.toNat : ℕ) : ℤ) ∧ ⌊t⌋.toNat + 1 < ps.length ∧
    interpolatePosition M ps rs t d
      = catmullRomSegment M ps rs ((⌊t⌋.toNat : ℕ) : ℤ) (t - (⌊t⌋ : K)) d := by
  have hf : 0 ≤ ⌊t⌋ := Int.floor_nonneg.mpr h0.le
  have hcast : (⌊t⌋ : ℤ) = ((⌊t⌋.toNat : ℕ) : ℤ) := (Int.toNat_of_nonneg hf).symm
  have hlt : ⌊t⌋ < (ps.length : ℤ) - 1 := by
    rw [Int.floor_lt]
    push_cast
    exact h1
  refine ⟨hcast, by omega, ?_⟩
  unfold interpolatePosition
  rw [if_neg (not_le.mpr h0), if_neg]
  · simp only
    rw [← hcast]
  · push_cast
    exact not_le.mpr h1

theorem interpolatePosition_interior_spec_of_le (M : CMath K) (ps rs : List (QVector3D K)) (t : K)
    (d : Bool) (hlen : ps.length ≤ rs.length) (h0 : 0 < t) (h1 : t < (ps.length : K) - 1) :
    interpolatePosition M ps rs t d
      = some (if d then catmullRomDerivSpec M ps rs ⌊t⌋.toNat (t - (⌊t⌋ : K))
          else catmullRomSpec M ps rs ⌊t⌋.toNat (t - (⌊t⌋ : K))) := by
  obtain ⟨_, hn, he⟩ := interpolatePosition_interior M ps rs t d h0 h1
  rw [he]
  exact catmullRomSegment_eq_of_le M ps rs _ _ d hn hlen

theorem interpolatePosition_interior_spec (M : CMath K) (ps rs : List (QVector3D K)) (t : K)
    (d : Bool) (hlen : rs.length = ps.length) (h0 : 0 < t) (h1 : t < (ps.length : K) - 1) :
    interpolatePosition M ps rs t d
      = some (if d then catmullRomDerivSpec M ps rs ⌊t⌋.toNat (t - (⌊t⌋ : K))
          else catmullRomSpec M ps rs ⌊t⌋.toNat (t - (⌊t⌋ : K))) :=
  interpolatePosition_interior_spec_of_le M ps rs t d hlen.ge h0 h1

/-! ## The position spline -/

/-- C1. Strictly inside a path of `N ≥ 2` waypoints, `interpolatePosition(t, false)` is
the Catmull-Rom cubic `0.5 * [(-h + 2h² - h³) C0 + (2 - 5h² + 3h³) C1 + (h + 4h² - 3h³) C2
+ (-h² + h³) C3]` with `i = ⌊t⌋`, `h = t - i`, `C1 = position[i]`, `C2 = position[i+1]`,
`C0` the waypoint before (or `position[0] - lookDirection(rotation[0])` when `i = 0`) and
`C3` the waypoint after (or `position[N-1] + lookDirection(rotation[N-1])` when
`i = N - 2`). -/
theorem interpolatePosition_eq_catmullRomSpec (M : CMath K) (ps rs : List (QVector3D K))
    (t : K) (_hN : 2 ≤ ps.length) (hlen : rs.length = ps.length) (h0 : 0 < t)
    (h1 : t < (ps.length : K) - 1) :
    interpolatePosition M ps rs t false
      = some (catmullRomSpec M ps rs ⌊t⌋.toNat (t - (⌊t⌋ : K))) := by
  have := interpolatePosition_interior_spec M ps rs t false hlen h0 h1
  simpa using this

/-- Witness of C1: two waypoints one unit apart recorded with the rotation `(0,0,0)`;
at `t = 1/2` the cubic of the specification is the midpoint `(1/2, 0, 0)`. -/
theorem interpolatePosition_eq_catmullRomSpec_witness :
    interpolatePosition CMath.real [⟨0, 0, 0⟩, ⟨1, 0, 0⟩] [⟨0, 0, 0⟩, ⟨0, 0, 0⟩] (1 / 2) false
      = some ⟨1 / 2, 0, 0⟩ := by
  rw [interpolatePosition_eq_catmullRomSpec CMath.real [⟨0, 0, 0⟩, ⟨1, 0, 0⟩]
    [⟨0, 0, 0⟩, ⟨0, 0, 0⟩] (1 / 2) (by simp) (by simp) (by norm_num) (by norm_num)]
  have hfl : ⌊(1 / 2 : ℝ)⌋ = 0 := by
    rw [Int.floor_eq_iff]
    norm_num
  have hlook : getLookDirectionFromRotation CMath.real ⟨0, 0, 0⟩ = ⟨0, 0, 1⟩ := by
    simp [getLookDirectionFromRotation, toRotationMatrix, QQuaternion.fromAxisAndAngle,
      QQuaternion.toRotationMatrix, CMath.real, QQuaternion.mul_def]
  simp only [hfl, catmullRomSpec, controlPointBefore, controlPointAfter,
    List.getD_cons_zero, List.getD_cons_succ, List.length_cons, List.length_nil, hlook,
    Int.toNat_zero]
  congr 1
  ext <;> simp <;> norm_num

/-- The two guards of both splines: the first element at or before `0`, the last
element at or after `length - 1`. -/
theorem boundary_guards {α : Type} (l : List α) (hne : l ≠ []) (t : K) (body : Option α) :
    (t ≤ 0 → (if t ≤ 0 then l.head?
        else if t ≥ (((l.length : ℤ) - 1 : ℤ) : K) then l.getLast? else body)
      = some (l.head hne)) ∧
    ((l.length : K) - 1 ≤ t → (if t ≤ 0 then l.head?
        else if t ≥ (((l.length : ℤ) - 1 : ℤ) : K) then l.getLast? else body)
      = some (l.getLast hne)) := by
  constructor
  · intro ht
    rw [if_pos ht, List.head?_eq_head hne]
  · intro ht
    by_cases h0 : t ≤ 0
    · rw [if_pos h0, List.head?_eq_head hne]
      have hpos : 0 < l.length := List.length_pos.mpr hne
      have hle : (l.length : K) ≤ 1 := by linarith
      have hle2 : l.length ≤ 1 := by exact_mod_cast hle
      have h1 : l.length = 1 := by omega
      obtain ⟨a, rfl⟩ := List.length_eq_one.mp h1
      rfl
    · rw [if_neg h0, if_pos, List.getLast?_eq_getLast l hne]
      push_cast
      exact ht

/-- C2. Boundary law of both splines. For a non-empty list of `N` waypoints,
`interpolatePosition(t, d)` returns the first position for every `t ≤ 0` and the last
position for every `t ≥ N - 1`, for either value of the derivative flag, and
`interpolateRotation(t)` returns the first recorded rotation for every `t ≤ 0` and the
last recorded rotation for every `t ≥ N - 1`, as stored (no quaternion is involved). -/
theorem boundary_law (M : CMath K) (Q : QtMath K) (ps rs : List (QVector3D K))
    (hp : ps ≠ []) (hr : rs ≠ []) (t : K) :
    (t ≤ 0 → ∀ d, interpolatePosition M ps rs t d = some (ps.head hp)) ∧
    ((ps.length : K) - 1 ≤ t → ∀ d, interpolatePosition M ps rs t d = some (ps.getLast hp)) ∧
    (t ≤ 0 → interpolateRotation M Q rs t = some (rs.head hr)) ∧
    ((rs.length : K) - 1 ≤ t → interpolateRotation M Q rs t = some (rs.getLast hr)) := by
  refine ⟨fun ht d => ?_, fun ht d => ?_, fun ht => ?_, fun ht => ?_⟩
  · exact (boundary_guards ps hp t _).1 ht
  · exact (boundary_guards ps hp t _).2 ht
  · exact (boundary_guards rs hr t _).1 ht
  · exact (boundary_guards rs hr t _).2 ht

/-- Witness of C2: three waypoints. At `t = 2 = N - 1` the position is the last waypoint,
also in derivative mode, and at `t = -1` the rotation is the first recorded one. -/
theorem boundary_law_witness :
    interpolatePosition CMath.real [⟨0, 0, 0⟩, ⟨1, 0, 0⟩, ⟨1, 1, 0⟩]
        [⟨0, 0, 0⟩, ⟨0, 1, 0⟩, ⟨0, 2, 0⟩] 2 true = some ⟨1, 1, 0⟩ ∧
    interpolateRotation CMath.real ⟨fun a _ _ => a, fun _ => ⟨0, 0, 0⟩⟩
        [⟨0, 0, 0⟩, ⟨0, 1, 0⟩, ⟨0, 2, 0⟩] (-1) = some ⟨0, 0, 0⟩ :=
  ⟨(boundary_law CMath.real ⟨fun a _ _ => a, fun _ => ⟨0, 0, 0⟩⟩
      [⟨0, 0, 0⟩, ⟨1, 0, 0⟩, ⟨1, 1, 0⟩] [⟨0, 0, 0⟩, ⟨0, 1, 0⟩, ⟨0, 2, 0⟩]
      (by simp) (by simp) 2).2.1 (by norm_num) true,
   (boundary_law CMath.real ⟨fun a _ _ => a, fun _ => ⟨0, 0, 0⟩⟩
      [⟨0, 0, 0⟩, ⟨1, 0, 0⟩, ⟨1, 1, 0⟩] [⟨0, 0, 0⟩, ⟨0, 1, 0⟩, ⟨0, 2, 0⟩]
      (by simp) (by simp) (-1)).2.2.1 (by norm_num)⟩

/-- C3. The position spline passes through every waypoint. With `N ≥ 2` waypoints, on
every segment `i` in `[0, N-2]` the cubic at `h = 0` is `position[i]` and at `h = 1` is
`position[i+1]`; hence `interpolatePosition(k, false) = position[k]` for every integer
`k` in `[0, N-1]`. -/
theorem interpolatePosition_through_waypoints (M : CMath K) (ps rs : List (QVector3D K))
    (hN : 2 ≤ ps.length) (hlen : rs.length = ps.length) :
    (∀ i : ℕ, ∀ hi : i + 1 < ps.length,
      catmullRomSegment M ps rs (i : ℤ) 0 false = some (ps[i]) ∧
      catmullRomSegment M ps rs (i : ℤ) 1 false = some (ps[i + 1])) ∧
    (∀ k : ℕ, ∀ hk : k < ps.length, interpolatePosition M ps rs (k : K) false = some (ps[k])) := by
  have seg : ∀ i : ℕ, ∀ hi : i + 1 < ps.length,
      catmullRomSegment M ps rs (i : ℤ) 0 false = some (ps[i]) ∧
      catmullRomSegment M ps rs (i : ℤ) 1 false = some (ps[i + 1]) := by
    intro i hi
    have e0 : ps.getD i default = ps[i] := by
      rw [List.getD_eq_getElem?_getD, List.getElem?_eq_getElem (by omega)]; rfl
    have e1 : ps.getD (i + 1) default = ps[i + 1] := by
      rw [List.getD_eq_getElem?_getD, List.getElem?_eq_getElem hi]; rfl
    rw [catmullRomSegment_eq M ps rs i 0 false hi hlen,
      catmullRomSegment_eq M ps rs i 1 false hi hlen]
    simp only [catmullRomSpec, e0, e1, Bool.false_eq_true, if_false]
    constructor
    · congr 1
      ext <;> simp <;> ring
    · congr 1
      ext <;> simp <;> ring
  refine ⟨seg, fun k hk => ?_⟩
  have hne : ps ≠ [] := by
    intro h
    simp [h] at hN
  by_cases hk0 : k = 0
  · subst hk0
    have := (boundary_guards ps hne (0 : K) (catmullRomSegment M ps rs ⌊(0 : K)⌋
      ((0 : K) - (⌊(0 : K)⌋ : K)) false)).1 le_rfl
    simp only [Nat.cast_zero]
    unfold interpolatePosition
    rw [this, List.head_eq_getElem]
  · by_cases hkl : k + 1 = ps.length
    · have hge : (ps.length : K) - 1 ≤ (k : K) := by
        rw [← hkl]
        push_cast
        linarith
      have := (boundary_guards ps hne (k : K) (catmullRomSegment M ps rs ⌊(k : K)⌋
        ((k : K) - (⌊(k : K)⌋ : K)) false)).2 hge
      unfold interpolatePosition
      rw [this, List.getLast_eq_getElem]
      congr 2
      omega
    · have h0 : (0 : K) < (k : K) := by
        exact_mod_cast Nat.pos_of_ne_zero hk0
      have h1 : (k : K) < (ps.length : K) - 1 := by
        have : k + 1 < ps.length := by omega
        have : ((k + 1 : ℕ) : K) < (ps.length : K) := by exact_mod_cast this
        push_cast at this
        linarith
      obtain ⟨_, hn, he⟩ := interpolatePosition_interior M ps rs (k : K) false h0 h1
      rw [he]
      simp only [Int.floor_natCast, Int.toNat_ofNat, Int.cast_natCast, sub_self]
      exact (seg k (by omega)).1

/-- Witness of C3: three waypoints; the curve at `t = 1` is the middle one. -/
theorem interpolatePosition_through_waypoints_witness :
    interpolatePosition CMath.real [⟨0, 0, 0⟩, ⟨1, 2, 0⟩, ⟨1, 1, 5⟩]
      [⟨0, 0, 0⟩, ⟨0, 1, 0⟩, ⟨0, 2, 0⟩] ((1 : ℕ) : ℝ) false = some ⟨1, 2, 0⟩ :=
  (interpolatePosition_through_waypoints CMath.real [⟨0, 0, 0⟩, ⟨1, 2, 0⟩, ⟨1, 1, 5⟩]
    [⟨0, 0, 0⟩, ⟨0, 1, 0⟩, ⟨0, 2, 0⟩] (by simp) (by simp)).2 1 (by simp)

/-- Equally spaced collinear waypoints give a straight line on every inner segment. -/
theorem interpolatePosition_collinear (M : CMath K) (ps rs : List (QVector3D K))
    (A D : QVector3D K) (_hN : 4 ≤ ps.length) (hlen : rs.length = ps.length)
    (hps : ∀ k : ℕ, ∀ hk : k < ps.length, ps[k] = A + (k : K) • D)
    (t : K) (h1 : 1 ≤ t) (h2 : t ≤ (ps.length : K) - 2) :
    interpolatePosition M ps rs t false = some (A + t • D) := by
  have ht0 : 0 < t := by linarith
  have ht1 : t < (ps.length : K) - 1 := by linarith
  obtain ⟨hcast, hn, -⟩ := interpolatePosition_interior M ps rs t false ht0 ht1
  rw [(by simpa using interpolatePosition_interior_spec M ps rs t false hlen ht0 ht1 :
    interpolatePosition M ps rs t false = some (catmullRomSpec M ps rs ⌊t⌋.toNat (t - (⌊t⌋ : K))))]
  set n := ⌊t⌋.toNat with hn_def
  have hfl : (⌊t⌋ : K) = (n : K) := by
    have : ((⌊t⌋ : ℤ) : K) = (((n : ℕ) : ℤ) : K) := by rw [← hcast]
    simpa using this
  have hn1 : 1 ≤ n := by
    have : (1 : ℤ) ≤ ⌊t⌋ := Int.le_floor.mpr (by simpa using h1)
    omega
  have hle : (n : K) ≤ t := by rw [← hfl]; exact Int.floor_le t
  have gd : ∀ k : ℕ, k < ps.length → ps.getD k default = A + (k : K) • D := by
    intro k hk
    rw [List.getD_eq_getElem?_getD, List.getElem?_eq_getElem hk]
    exact hps k hk
  have hb : controlPointBefore M ps rs n = A + ((n : K) - 1) • D := by
    unfold controlPointBefore
    rw [if_pos (by omega), gd (n - 1) (by omega), Nat.cast_sub hn1, Nat.cast_one]
  rw [hfl]
  simp only [catmullRomSpec, hb, gd n (by omega), gd (n + 1) hn]
  congr 1
  by_cases hlast : n + 2 = ps.length
  · have hnt : t = (n : K) := by
      have : (ps.length : K) = (n : K) + 2 := by rw [← hlast]; push_cast; ring
      rw [this] at h2
      linarith
    rw [hnt]
    ext <;> simp <;> ring
  · have ha : controlPointAfter M ps rs n = A + ((n : K) + 2) • D := by
      unfold controlPointAfter
      rw [if_pos hlast, gd (n + 2) (by omega)]
      push_cast
      rfl
    rw [ha]
    ext <;> simp <;> ring

/-- C4. Straight-line degeneracy. For the waypoints `(0,0,0), (1,0,0), (2,0,0), (3,0,0)`
with identical rotations `interpolatePosition(1.5, false) = (1.5, 0, 0)`; in general,
for `N ≥ 4` equally spaced collinear waypoints `position[k] = A + k D` and any rotations,
`interpolatePosition(t, false) = A + t D` for every `t` in `[1, N-2]`. -/
theorem interpolatePosition_straight_line (M : CMath K) :
    (∀ r : QVector3D K,
      interpolatePosition M [⟨0, 0, 0⟩, ⟨1, 0, 0⟩, ⟨2, 0, 0⟩, ⟨3, 0, 0⟩] [r, r, r, r] 1.5 false
        = some ⟨1.5, 0, 0⟩) ∧
    (∀ (ps rs : List (QVector3D K)) (A D : QVector3D K), 4 ≤ ps.length →
      rs.length = ps.length →
      (∀ k : ℕ, ∀ hk : k < ps.length, ps[k] = A + (k : K) • D) →
      ∀ t : K, 1 ≤ t → t ≤ (ps.length : K) - 2 →
      interpolatePosition M ps rs t false = some (A + t • D)) := by
  refine ⟨fun r => ?_, fun ps rs A D hN hlen hps t h1 h2 =>
    interpolatePosition_collinear M ps rs A D hN hlen hps t h1 h2⟩
  have := interpolatePosition_collinear M [⟨0, 0, 0⟩, ⟨1, 0, 0⟩, ⟨2, 0, 0⟩, ⟨3, 0, 0⟩]
    [r, r, r, r] ⟨0, 0, 0⟩ ⟨1, 0, 0⟩ (by simp) (by simp)
    (by
      intro k hk
      simp only [List.length_cons, List.length_nil] at hk
      interval_cases k <;> ext <;> simp)
    1.5 (by norm_num) (by norm_num)
  rw [this]
  congr 1
  ext <;> simp

/-- Witness of C4: five waypoints on the line `(1,1,1) + k (2,0,-1)`, at `t = 5/2`. -/
theorem interpolatePosition_straight_line_witness :
    interpolatePosition CMath.real
      [⟨1, 1, 1⟩, ⟨3, 1, 0⟩, ⟨5, 1, -1⟩, ⟨7, 1, -2⟩, ⟨9, 1, -3⟩]
      [⟨0, 0, 0⟩, ⟨0, 1, 0⟩, ⟨0, 2, 0⟩, ⟨1, 0, 0⟩, ⟨0, 0, 1⟩] (5 / 2) false
      = some ((⟨1, 1, 1⟩ : QVector3D ℝ) + (5 / 2 : ℝ) • (⟨2, 0, -1⟩ : QVector3D ℝ)) :=
  (interpolatePosition_straight_line CMath.real).2
    [⟨1, 1, 1⟩, ⟨3, 1, 0⟩, ⟨5, 1, -1⟩, ⟨7, 1, -2⟩, ⟨9, 1, -3⟩]
    [⟨0, 0, 0⟩, ⟨0, 1, 0⟩, ⟨0, 2, 0⟩, ⟨1, 0, 0⟩, ⟨0, 0, 1⟩] ⟨1, 1, 1⟩ ⟨2, 0, -1⟩
    (by simp) (by simp)
    (by
      intro k hk
      simp only [List.length_cons, List.length_nil] at hk
      interval_cases k <;> ext <;> norm_num)
    (5 / 2) (by norm_num) (by norm_num)

theorem getLookDirectionFromRotation_zero :
    getLookDirectionFromRotation CMath.real ⟨0, 0, 0⟩ = ⟨0, 0, 1⟩ := by
  simp [getLookDirectionFromRotation, toRotationMatrix, QQuaternion.fromAxisAndAngle,
    QQuaternion.toRotationMatrix, CMath.real, QQuaternion.mul_def]

/-- C5 at a failing input. Two waypoints `(0,0,0)` and `(1,0,0)` recorded with the
rotation `(0,0,0)`, whose look direction is `(0,0,1)`: the derivative of segment `0` at
`h = 0` is `(1/2, 0, 1/2)`, not the look direction, and the point of the curve at
`t = 1/4` is `(13/64, 0, 3/64)`, off the line through the two waypoints. -/
theorem endpoint_tangent_is_not_look_direction :
    getLookDirectionFromRotation CMath.real ⟨0, 0, 0⟩ = ⟨0, 0, 1⟩ ∧
    catmullRomSegment CMath.real [⟨0, 0, 0⟩, ⟨1, 0, 0⟩] [⟨0, 0, 0⟩, ⟨0, 0, 0⟩] 0 0 true
      = some ⟨1 / 2, 0, 1 / 2⟩ ∧
    interpolatePosition CMath.real [⟨0, 0, 0⟩, ⟨1, 0, 0⟩] [⟨0, 0, 0⟩, ⟨0, 0, 0⟩] (1 / 4) false
      = some ⟨13 / 64, 0, 3 / 64⟩ := by
  refine ⟨getLookDirectionFromRotation_zero, ?_, ?_⟩
  · have := catmullRomSegment_eq CMath.real [⟨0, 0, 0⟩, ⟨1, 0, 0⟩] [⟨0, 0, 0⟩, ⟨0, 0, 0⟩]
      0 0 true (by simp) (by simp)
    rw [Nat.cast_zero] at this
    rw [this]
    simp only [catmullRomDerivSpec, controlPointBefore, controlPointAfter, if_true,
      List.getD_cons_zero, List.getD_cons_succ, List.length_cons, List.length_nil,
      getLookDirectionFromRotation_zero]
    congr 1
    ext <;> simp <;> norm_num
  · have := interpolatePosition_interior_spec CMath.real [⟨0, 0, 0⟩, ⟨1, 0, 0⟩]
      [⟨0, 0, 0⟩, ⟨0, 0, 0⟩] (1 / 4) false (by simp) (by norm_num) (by norm_num)
    rw [this]
    have hfl : ⌊(1 / 4 : ℝ)⌋ = 0 := by
      rw [Int.floor_eq_iff]
      norm_num
    simp only [hfl, catmullRomSpec, controlPointBefore, controlPointAfter,
      List.getD_cons_zero, List.getD_cons_succ, List.length_cons, List.length_nil,
      getLookDirectionFromRotation_zero, Int.toNat_zero]
    congr 1
    ext <;> simp <;> norm_num

/-! ## Evaluation of the quaternion functions over the reals -/

theorem truncToInt_of_abs_lt_one (v : K) (h : |v| < 1) : truncToInt v = 0 := by
  rw [abs_lt] at h
  unfold truncToInt
  split_ifs with h0
  · rw [Int.floor_eq_zero_iff]
    exact ⟨h0, h.2⟩
  · rw [Int.ceil_eq_zero_iff]
    exact ⟨h.1, le_of_lt (not_le.mp h0)⟩

theorem sin_one_bounds : 0 < Real.sin 1 ∧ Real.sin 1 < 1 :=
  ⟨Real.sin_pos_of_pos_of_lt_pi one_pos (by linarith [Real.pi_gt_three]), Real.sin_lt one_pos⟩

theorem arg_cos_sin_one : Complex.arg ⟨Real.cos 1, Real.sin 1⟩ = 1 := by
  have h := Complex.arg_cos_add_sin_mul_I (θ := 1)
    ⟨by linarith [Real.pi_gt_three], by linarith [Real.pi_gt_three]⟩
  have e : (⟨Real.cos 1, Real.sin 1⟩ : ℂ)
      = Complex.cos ((1 : ℝ) : ℂ) + Complex.sin ((1 : ℝ) : ℂ) * Complex.I := by
    apply Complex.ext
    · simp [← Complex.ofReal_cos, ← Complex.ofReal_sin, -Complex.ofReal_one]
    · simp [← Complex.ofReal_cos, ← Complex.ofReal_sin, -Complex.ofReal_one]
  rw [e]
  exact h

theorem fromEulerAngles_zero : fromEulerAngles CMath.real ⟨0, 0, 0⟩ = ⟨1, 0, 0, 0⟩ := by
  simp [fromEulerAngles, QQuaternion.fromAxisAndAngle, CMath.real, QQuaternion.mul_def]

theorem fromEulerAngles_yaw_two :
    fromEulerAngles CMath.real ⟨0, 2, 0⟩ = ⟨Real.cos 1, 0, Real.sin 1, 0⟩ := by
  have ha : (2 / (Real.pi / 180) / 2) * (Real.pi / 180) = (1 : ℝ) := by
    field_simp
    ring
  simp [fromEulerAngles, QQuaternion.fromAxisAndAngle, CMath.real, QQuaternion.mul_def, ha]

theorem log_identity : log CMath.real ⟨1, 0, 0, 0⟩ = ⟨0, 0, 0, 0⟩ := by
  simp [log, CMath.real, QQuaternion.length]

theorem log_yaw_two : log CMath.real ⟨Real.cos 1, 0, Real.sin 1, 0⟩ = ⟨0, 0, 1, 0⟩ := by
  have hs := sin_one_bounds
  have hn : Real.sqrt (0 * 0 + Real.sin 1 * Real.sin 1 + 0 * 0) = Real.sin 1 := by
    rw [mul_zero, add_zero, zero_add, Real.sqrt_mul_self hs.1.le]
  have hl : Real.sqrt (0 * 0 + Real.sin 1 * Real.sin 1 + 0 * 0 + Real.cos 1 * Real.cos 1) = 1 := by
    have : 0 * 0 + Real.sin 1 * Real.sin 1 + 0 * 0 + Real.cos 1 * Real.cos 1 = (1 : ℝ) := by
      have := Real.sin_sq_add_cos_sq 1
      nlinarith
    rw [this, Real.sqrt_one]
  have hne : Real.sin 1 ≠ 0 := hs.1.ne'
  simp only [log, CMath.real, QQuaternion.length, hn, hl, if_neg hne, arg_cos_sin_one,
    Real.log_one]
  ext <;> simp [hne]

theorem exp_quarter : exp CMath.real ⟨0, 0, -(1 / 4), 0⟩ = ⟨Real.cos (1 / 4), 0, 0, 0⟩ := by
  have hn : Real.sqrt (0 * 0 + -(1 / 4) * -(1 / 4) + 0 * 0) = (1 / 4 : ℝ) := by
    have : (0 * 0 + -(1 / 4) * -(1 / 4) + 0 * 0 : ℝ) = (1 / 4) * (1 / 4) := by ring
    rw [this, Real.sqrt_mul_self (by norm_num)]
  have hs0 : 0 < Real.sin (1 / 4) :=
    Real.sin_pos_of_pos_of_lt_pi (by norm_num) (by linarith [Real.pi_gt_three])
  have hs1 : Real.sin (1 / 4) < 1 / 4 := Real.sin_lt (by norm_num)
  have ht : truncToInt (Real.exp 0 * (-(1 / 4) * Real.sin (1 / 4)) / (1 / 4)) = 0 := by
    apply truncToInt_of_abs_lt_one
    rw [Real.exp_zero, abs_lt]
    constructor <;> [skip; skip] <;> · field_simp; nlinarith
  have ht0 : truncToInt (Real.exp 0 * (0 * Real.sin (1 / 4)) / (1 / 4)) = 0 :=
    truncToInt_of_abs_lt_one _ (by simp)
  simp only [exp, CMath.real, hn, ht, ht0]
  simp

theorem inverted_identity : (⟨1, 0, 0, 0⟩ : QQuaternion ℝ).inverted = ⟨1, 0, 0, 0⟩ := by
  simp [QQuaternion.inverted]


theorem exp_unit_i : exp CMath.real ⟨0, 1, 0, 0⟩ = ⟨Real.cos 1, 0, 0, 0⟩ := by
  have hs := sin_one_bounds
  have ht : truncToInt (Real.sin 1) = 0 :=
    truncToInt_of_abs_lt_one _ (abs_lt.mpr ⟨by linarith, hs.2⟩)
  have ht0 : truncToInt (0 : ℝ) = 0 := truncToInt_of_abs_lt_one _ (by simp)
  simp [exp, CMath.real, ht, ht0]

theorem log_cos_sin_one :
    log CMath.real ⟨Real.cos 1, Real.sin 1, 0, 0⟩ = ⟨0, 1, 0, 0⟩ := by
  have hs := sin_one_bounds
  have hn : Real.sqrt (Real.sin 1 * Real.sin 1 + 0 * 0 + 0 * 0) = Real.sin 1 := by
    rw [mul_zero, add_zero, add_zero, Real.sqrt_mul_self hs.1.le]
  have hl : Real.sqrt (Real.sin 1 * Real.sin 1 + 0 * 0 + 0 * 0 + Real.cos 1 * Real.cos 1)
      = 1 := by
    have : Real.sin 1 * Real.sin 1 + 0 * 0 + 0 * 0 + Real.cos 1 * Real.cos 1 = 1 := by
      have := Real.sin_sq_add_cos_sq 1
      nlinarith
    rw [this, Real.sqrt_one]
  have hne : Real.sin 1 ≠ 0 := hs.1.ne'
  simp only [log, CMath.real, QQuaternion.length, hn, hl, if_neg hne, arg_cos_sin_one,
    Real.log_one]
  ext <;> simp [hne]

/-! ## The quaternion functions -/

/-- C6 at a failing input. For `q = (0; 1, 0, 0)`, whose imaginary norm is `1`, the
program's `exp` returns `(cos 1; 0, 0, 0)`: the imaginary parts pass through the `int`
locals `i`, `j`, `k` and `sin 1` is truncated to `0`. The standard exponential is
`(cos 1; sin 1, 0, 0)`. -/
theorem exp_truncates_imaginary_part :
    CMath.real.sqrt ((1 : ℝ) ^ 2 + 0 ^ 2 + 0 ^ 2) ≠ 0 ∧
    exp CMath.real ⟨0, 1, 0, 0⟩ = ⟨Real.cos 1, 0, 0, 0⟩ ∧
    expSpec CMath.real ⟨0, 1, 0, 0⟩ = ⟨Real.cos 1, Real.sin 1, 0, 0⟩ ∧
    exp CMath.real ⟨0, 1, 0, 0⟩ ≠ expSpec CMath.real ⟨0, 1, 0, 0⟩ := by
  have hspec : expSpec CMath.real ⟨0, 1, 0, 0⟩ = ⟨Real.cos 1, Real.sin 1, 0, 0⟩ := by
    simp [expSpec, CMath.real]
  refine ⟨by simp [CMath.real], exp_unit_i, hspec, ?_⟩
  rw [exp_unit_i, hspec]
  intro h
  have := congrArg QQuaternion.x h
  exact sin_one_bounds.1.ne' this.symm

/-- C7 at a failing input. The unit quaternion `Q = (cos 1; sin 1, 0, 0)` is not on the
branch cut and `log Q = (0; 1, 0, 0)`, but the program's `exp (log Q)` is
`(cos 1; 0, 0, 0)`, which is not `Q`. -/
theorem exp_log_loses_imaginary_part :
    QQuaternion.length CMath.real ⟨Real.cos 1, Real.sin 1, 0, 0⟩ = 1 ∧
    Real.sin 1 ≠ 0 ∧
    log CMath.real ⟨Real.cos 1, Real.sin 1, 0, 0⟩ = ⟨0, 1, 0, 0⟩ ∧
    exp CMath.real (log CMath.real ⟨Real.cos 1, Real.sin 1, 0, 0⟩) = ⟨Real.cos 1, 0, 0, 0⟩ ∧
    exp CMath.real (log CMath.real ⟨Real.cos 1, Real.sin 1, 0, 0⟩)
      ≠ ⟨Real.cos 1, Real.sin 1, 0, 0⟩ := by
  have hlen : QQuaternion.length CMath.real ⟨Real.cos 1, Real.sin 1, 0, 0⟩ = 1 := by
    have : Real.sin 1 * Real.sin 1 + 0 * 0 + 0 * 0 + Real.cos 1 * Real.cos 1 = 1 := by
      have := Real.sin_sq_add_cos_sq 1
      nlinarith
    simp only [QQuaternion.length, CMath.real, this, Real.sqrt_one]
  refine ⟨hlen, sin_one_bounds.1.ne', log_cos_sin_one, ?_, ?_⟩
  · rw [log_cos_sin_one, exp_unit_i]
  · rw [log_cos_sin_one, exp_unit_i]
    intro h
    have := congrArg QQuaternion.x h
    exact sin_one_bounds.1.ne' this.symm

/-! ## The rotation spline -/

/-- C8 at a failing input. Three rotations `(0,0,0), (0,0,0), (0,2,0)`. In the segment
`i = 0 = N - 3` the right-hand auxiliary quaternion of the code is `Q_2`, the quaternion
of the last waypoint, and in the segment `i = 1` the left-hand one is `Q_1`, whereas
the auxiliary quaternion `S_1` of the interior waypoint `1`, computed with the program's
own `exp` and `log`, is `(cos(1/4); 0, 0, 0)` and differs from both. -/
theorem squad_auxiliary_off_by_one :
    si1 CMath.real [⟨0, 0, 0⟩, ⟨0, 0, 0⟩, ⟨0, 2, 0⟩] 0 = some ⟨Real.cos 1, 0, Real.sin 1, 0⟩ ∧
    si0 CMath.real [⟨0, 0, 0⟩, ⟨0, 0, 0⟩, ⟨0, 2, 0⟩] 1 = some ⟨1, 0, 0, 0⟩ ∧
    auxQuaternionSpec CMath.real [⟨0, 0, 0⟩, ⟨0, 0, 0⟩, ⟨0, 2, 0⟩] 1
      = ⟨Real.cos (1 / 4), 0, 0, 0⟩ ∧
    si1 CMath.real [⟨0, 0, 0⟩, ⟨0, 0, 0⟩, ⟨0, 2, 0⟩] 0
      ≠ some (auxQuaternionSpec CMath.real [⟨0, 0, 0⟩, ⟨0, 0, 0⟩, ⟨0, 2, 0⟩] 1) ∧
    si0 CMath.real [⟨0, 0, 0⟩, ⟨0, 0, 0⟩, ⟨0, 2, 0⟩] 1
      ≠ some (auxQuaternionSpec CMath.real [⟨0, 0, 0⟩, ⟨0, 0, 0⟩, ⟨0, 2, 0⟩] 1) := by
  have h1 : si1 CMath.real [⟨0, 0, 0⟩, ⟨0, 0, 0⟩, ⟨0, 2, 0⟩] 0
      = some ⟨Real.cos 1, 0, Real.sin 1, 0⟩ := by
    simp [si1, QList.at, fromEulerAngles_yaw_two]
  have h0 : si0 CMath.real [⟨0, 0, 0⟩, ⟨0, 0, 0⟩, ⟨0, 2, 0⟩] 1 = some ⟨1, 0, 0, 0⟩ := by
    simp [si0, QList.at, fromEulerAngles_zero]
  have h2 : auxQuaternionSpec CMath.real [⟨0, 0, 0⟩, ⟨0, 0, 0⟩, ⟨0, 2, 0⟩] 1
      = ⟨Real.cos (1 / 4), 0, 0, 0⟩ := by
    have e : QQuaternion.divide (-((⟨0, 0, 1, 0⟩ : QQuaternion ℝ) + ⟨0, 0, 0, 0⟩)) 4
        = ⟨0, 0, -(1 / 4), 0⟩ := by
      simp [QQuaternion.divide, QQuaternion.add_def, QQuaternion.neg_def]
      ring
    have m1 : (⟨1, 0, 0, 0⟩ : QQuaternion ℝ) * ⟨Real.cos 1, 0, Real.sin 1, 0⟩
        = ⟨Real.cos 1, 0, Real.sin 1, 0⟩ := by
      simp [QQuaternion.mul_def]
    have m2 : (⟨1, 0, 0, 0⟩ : QQuaternion ℝ) * ⟨1, 0, 0, 0⟩ = ⟨1, 0, 0, 0⟩ := by
      simp [QQuaternion.mul_def]
    have m3 : (⟨1, 0, 0, 0⟩ : QQuaternion ℝ) * ⟨Real.cos (1 / 4), 0, 0, 0⟩
        = ⟨Real.cos (1 / 4), 0, 0, 0⟩ := by
      simp [QQuaternion.mul_def]
    have g0 : ([⟨0, 0, 0⟩, ⟨0, 0, 0⟩, ⟨0, 2, 0⟩] : List (QVector3D ℝ)).getD (1 - 1) default
        = ⟨0, 0, 0⟩ := rfl
    have g1 : ([⟨0, 0, 0⟩, ⟨0, 0, 0⟩, ⟨0, 2, 0⟩] : List (QVector3D ℝ)).getD 1 default
        = ⟨0, 0, 0⟩ := rfl
    have g2 : ([⟨0, 0, 0⟩, ⟨0, 0, 0⟩, ⟨0, 2, 0⟩] : List (QVector3D ℝ)).getD (1 + 1) default
        = ⟨0, 2, 0⟩ := rfl
    unfold auxQuaternionSpec
    simp only [g0, g1, g2]
    rw [if_neg (by simp), fromEulerAngles_zero, fromEulerAngles_yaw_two, inverted_identity,
      m1, m2, log_yaw_two, log_identity, e, exp_quarter, m3]
  refine ⟨h1, h0, h2, ?_, ?_⟩
  · rw [h1, h2]
    intro h
    have := congrArg (fun o => o.map QQuaternion.y) h
    simp at this
    exact sin_one_bounds.1.ne' this
  · rw [h0, h2]
    intro h
    have hc := congrArg (fun o => o.map QQuaternion.scalar) h
    simp only [Option.map_some', Option.some.injEq] at hc
    have hiff := Real.cos_eq_one_iff_of_lt_of_lt (x := 1 / 4)
      (by linarith [Real.pi_gt_three]) (by linarith [Real.pi_gt_three])
    have := hiff.mp hc.symm
    norm_num at this

/-! ## The binary32 counter of `blend` -/

theorem Binary32.excess_le (fuel : ℕ) : ∀ (n k : ℕ), n < 2 ^ (24 + k) →
    Binary32.excess fuel n ≤ k := by
  induction fuel with
  | zero =>
    intro n k _
    simp [Binary32.excess]
  | succ fuel ih =>
    intro n k hn
    unfold Binary32.excess
    split_ifs with h
    · exact Nat.zero_le k
    · have hk : 1 ≤ k := by
        by_contra hk
        have : k = 0 := by omega
        subst this
        exact h hn
      have h2 : n / 2 < 2 ^ (24 + (k - 1)) := by
        have e : 2 ^ (24 + k) = 2 * 2 ^ (24 + (k - 1)) := by
          rw [← pow_succ']
          congr 1
          omega
        rw [e] at hn
        omega
      have := ih (n / 2) (k - 1) h2
      omega

theorem Binary32.excess_eq (fuel : ℕ) : ∀ (n e : ℕ), e ≤ fuel → 1 ≤ e → 2 ^ (23 + e) ≤ n →
    n < 2 ^ (24 + e) → Binary32.excess fuel n = e := by
  induction fuel with
  | zero =>
    intro n e he h1 _ _
    omega
  | succ fuel ih =>
    intro n e he h1 hlo hhi
    have h24 : ¬ n < 2 ^ 24 := by
      have : 2 ^ 24 ≤ 2 ^ (23 + e) := Nat.pow_le_pow_right (by norm_num) (by omega)
      omega
    unfold Binary32.excess
    rw [if_neg h24]
    have elo : 2 ^ (23 + e) = 2 * 2 ^ (23 + (e - 1)) := by
      rw [← pow_succ']
      congr 1
      omega
    have ehi : 2 ^ (24 + e) = 2 * 2 ^ (24 + (e - 1)) := by
      rw [← pow_succ']
      congr 1
      omega
    rw [elo] at hlo
    rw [ehi] at hhi
    by_cases he1 : e = 1
    · subst he1
      have h2 : n / 2 < 2 ^ 24 := by
        simp at hhi
        omega
      have : Binary32.excess fuel (n / 2) = 0 := by
        cases fuel with
        | zero => rfl
        | succ f =>
          unfold Binary32.excess
          rw [if_pos h2]
      rw [this]
    · have := ih (n / 2) (e - 1) (by omega) (by omega) (by omega) (by omega)
      rw [this]
      omega

/-- The rounded value is one of the two neighbours of `x` with 24 significant digits and
is within half a unit in the last place of `x`. -/
theorem Binary32.round_bounds (x : ℕ) :
    x / 2 ^ Binary32.excess 64 x * 2 ^ Binary32.excess 64 x ≤ Binary32.round x ∧
    Binary32.round x ≤ (x / 2 ^ Binary32.excess 64 x + 1) * 2 ^ Binary32.excess 64 x ∧
    2 * x ≤ 2 * Binary32.round x + 2 ^ Binary32.excess 64 x ∧
    2 * Binary32.round x ≤ 2 * x + 2 ^ Binary32.excess 64 x := by
  have hx := Nat.div_add_mod x (2 ^ Binary32.excess 64 x)
  have hq : 0 < 2 ^ Binary32.excess 64 x := by positivity
  have hr := Nat.mod_lt x hq
  have e1 : (x / 2 ^ Binary32.excess 64 x + 1) * 2 ^ Binary32.excess 64 x
      = x / 2 ^ Binary32.excess 64 x * 2 ^ Binary32.excess 64 x + 2 ^ Binary32.excess 64 x := by
    ring
  have e2 : 2 ^ Binary32.excess 64 x * (x / 2 ^ Binary32.excess 64 x)
      = x / 2 ^ Binary32.excess 64 x * 2 ^ Binary32.excess 64 x := by ring
  rw [e2] at hx
  unfold Binary32.round
  dsimp only
  rw [e1]
  generalize x / 2 ^ Binary32.excess 64 x * 2 ^ Binary32.excess 64 x = p at *
  generalize 2 ^ Binary32.excess 64 x = q at *
  generalize x % q = r at *
  split_ifs <;> omega

/-- Below `2^18` the rounding moves a value by at most `2^-7`, half a unit in the last
place, and does not pass `2^18`. -/
theorem Binary32.round_of_lt (x : ℕ) (hx : x < 2 ^ 48) :
    x ≤ Binary32.round x + 2 ^ 23 ∧ Binary32.round x ≤ x + 2 ^ 23 ∧
    Binary32.round x ≤ 2 ^ 48 := by
  obtain ⟨_, h2, h3, h4⟩ := Binary32.round_bounds x
  have he : Binary32.excess 64 x ≤ 24 := Binary32.excess_le 64 x 24 hx
  have hq : 2 ^ Binary32.excess 64 x ≤ 2 ^ 24 := Nat.pow_le_pow_right (by norm_num) he
  refine ⟨by omega, by omega, ?_⟩
  have hsplit : 2 ^ 48 = 2 ^ (48 - Binary32.excess 64 x) * 2 ^ Binary32.excess 64 x := by
    rw [← pow_add]
    congr 1
    omega
  have hb : x / 2 ^ Binary32.excess 64 x < 2 ^ (48 - Binary32.excess 64 x) := by
    rw [Nat.div_lt_iff_lt_mul (by positivity)]
    rw [← hsplit]
    exact hx
  calc Binary32.round x ≤ (x / 2 ^ Binary32.excess 64 x + 1) * 2 ^ Binary32.excess 64 x := h2
    _ ≤ 2 ^ (48 - Binary32.excess 64 x) * 2 ^ Binary32.excess 64 x :=
        Nat.mul_le_mul_right _ hb
    _ = 2 ^ 48 := hsplit.symm

/-- From `2^18` to `2^18 + 0.01f` every value rounds to `2^18`. -/
theorem Binary32.round_of_ge (x : ℕ) (hlo : 2 ^ 48 ≤ x) (hhi : x ≤ 2 ^ 48 + 10737418) :
    Binary32.round x = 2 ^ 48 := by
  have he : Binary32.excess 64 x = 25 :=
    Binary32.excess_eq 64 x 25 (by norm_num) (by norm_num) (by norm_num; omega)
      (by norm_num; omega)
  unfold Binary32.round
  rw [he]
  norm_num at hlo hhi ⊢
  have h1 : x / 33554432 = 8388608 := by omega
  have h2 : x % 33554432 = x - 281474976710656 := by omega
  rw [h1, h2]
  rw [if_pos (by omega)]

/-- Below `2^18` the addition of `0.01f` advances the counter. -/
theorem Binary32.add_hundredth_gt (u : ℕ) (hu : u < 2 ^ 48) :
    u < Binary32.add u Binary32.hundredth := by
  unfold Binary32.add Binary32.hundredth
  rw [Nat.add_comm]
  by_cases h : u + 10737418 < 2 ^ 48
  · have := (Binary32.round_of_lt _ h).1
    norm_num at this ⊢
    omega
  · rw [Binary32.round_of_ge _ (by omega) (by omega)]
    exact hu

/-- The counter does not pass `2^18`. -/
theorem Binary32.add_hundredth_le (u : ℕ) (hu : u ≤ 2 ^ 48) :
    Binary32.add u Binary32.hundredth ≤ 2 ^ 48 := by
  unfold Binary32.add Binary32.hundredth
  rw [Nat.add_comm]
  by_cases h : u + 10737418 < 2 ^ 48
  · exact (Binary32.round_of_lt _ h).2.2
  · rw [Binary32.round_of_ge _ (by omega) (by omega)]

/-- One addition of `0.01f` advances the counter by no more than `0.01f + 2^-7`. -/
theorem Binary32.add_hundredth_le_add (u : ℕ) (hu : u ≤ 2 ^ 48) :
    Binary32.add u Binary32.hundredth ≤ u + 10737418 + 2 ^ 23 := by
  unfold Binary32.add Binary32.hundredth
  rw [Nat.add_comm]
  by_cases h : u + 10737418 < 2 ^ 48
  · exact (Binary32.round_of_lt _ h).2.1
  · rw [Binary32.round_of_ge _ (by omega) (by omega)]
    omega

/-- At `2^18` the addition of `0.01f` leaves the counter where it is. -/
theorem Binary32.add_hundredth_stall :
    Binary32.add (2 ^ 48) Binary32.hundredth = 2 ^ 48 := by
  unfold Binary32.add Binary32.hundredth
  rw [Nat.add_comm]
  exact Binary32.round_of_ge _ (by omega) (by omega)

theorem loopCounter_le (k : ℕ) : loopCounter k ≤ 2 ^ 48 := by
  induction k with
  | zero => simp [loopCounter]
  | succ k ih => exact Binary32.add_hundredth_le _ ih

theorem loopCounter_le_succ (k : ℕ) : loopCounter k ≤ loopCounter (k + 1) := by
  rcases Nat.lt_or_ge (loopCounter k) (2 ^ 48) with h | h
  · exact (Binary32.add_hundredth_gt _ h).le
  · have e : loopCounter k = 2 ^ 48 := le_antisymm (loopCounter_le k) h
    show loopCounter k ≤ Binary32.add (loopCounter k) Binary32.hundredth
    rw [e, Binary32.add_hundredth_stall]

theorem loopCounter_mono : Monotone loopCounter :=
  monotone_nat_of_le_succ loopCounter_le_succ

theorem loopCounter_lt_succ (k : ℕ) (h : loopCounter k < 2 ^ 48) :
    loopCounter k < loopCounter (k + 1) :=
  Binary32.add_hundredth_gt _ h

theorem loopCounter_succ_le (k : ℕ) :
    loopCounter (k + 1) ≤ loopCounter k + 10737418 + 2 ^ 23 :=
  Binary32.add_hundredth_le_add _ (loopCounter_le k)

theorem loopCounter_lt_of_lt (k m : ℕ) (hkm : k < m) (h : loopCounter (m - 1) < 2 ^ 48) :
    loopCounter k < loopCounter m := by
  have h1 : loopCounter k ≤ loopCounter (m - 1) := loopCounter_mono (by omega)
  have h2 := loopCounter_lt_succ (m - 1) h
  have e : m - 1 + 1 = m := by omega
  rw [e] at h2
  omega

theorem le_loopCounter (k : ℕ) (h : ∀ j, j < k → loopCounter j < 2 ^ 48) :
    k ≤ loopCounter k := by
  induction k with
  | zero => exact Nat.zero_le _
  | succ k ih =>
    have h1 := ih (fun j hj => h j (by omega))
    have h2 := loopCounter_lt_succ k (h k (by omega))
    omega

theorem loopCounter_add (a b : ℕ) :
    loopCounter (a + b)
      = (fun u => Binary32.add u Binary32.hundredth)^[b] (loopCounter a) := by
  induction b with
  | zero => rfl
  | succ b ih =>
    rw [Function.iterate_succ_apply', ← ih]
    rfl

theorem loopCounter_one : loopCounter 1 = 10737418 := by decide

set_option maxRecDepth 100000 in
theorem loopCounter_50 : loopCounter 50 = 536870688 := by decide

set_option maxRecDepth 100000 in
theorem loopCounter_100 : loopCounter 100 = 1073741120 := by
  rw [loopCounter_add 50 50, loopCounter_50]
  decide

set_option maxRecDepth 100000 in
theorem loopCounter_101 : loopCounter 101 = 1084478592 := by
  rw [loopCounter_add 100 1, loopCounter_100]
  decide

theorem Binary32.toField_zero : (Binary32.toField 0 : K) = 0 := by
  simp [Binary32.toField]

theorem Binary32.toField_nonneg (u : ℕ) : (0 : K) ≤ Binary32.toField u := by
  unfold Binary32.toField
  positivity

theorem Binary32.toField_le (a b : ℕ) (h : a ≤ b) :
    (Binary32.toField a : K) ≤ Binary32.toField b := by
  unfold Binary32.toField
  have : (a : K) ≤ (b : K) := by exact_mod_cast h
  exact div_le_div_of_nonneg_right this (by positivity)

theorem Binary32.toField_lt (a b : ℕ) (h : a < b) :
    (Binary32.toField a : K) < Binary32.toField b := by
  unfold Binary32.toField
  have : (a : K) < (b : K) := by exact_mod_cast h
  exact div_lt_div_of_pos_right this (by positivity)

/-- The test `u < size - 1` of the loop on a counter given in units of `2^-30`. -/
theorem Binary32.toField_lt_iff (u N : ℕ) :
    (Binary32.toField u : K) < (((N : ℤ) - 1 : ℤ) : K) ↔ u + 2 ^ 30 < N * 2 ^ 30 := by
  unfold Binary32.toField
  rw [div_lt_iff₀ (by positivity)]
  push_cast
  constructor
  · intro h
    have h2 : ((u + 2 ^ 30 : ℕ) : K) < ((N * 2 ^ 30 : ℕ) : K) := by
      push_cast
      linarith
    exact_mod_cast h2
  · intro h
    have h2 : ((u + 2 ^ 30 : ℕ) : K) < ((N * 2 ^ 30 : ℕ) : K) := by exact_mod_cast h
    push_cast at h2
    linarith

theorem Binary32.toField_lt_natCast_iff (u N : ℕ) :
    (Binary32.toField u : K) < (N : K) - 1 ↔ u + 2 ^ 30 < N * 2 ^ 30 := by
  rw [← Binary32.toField_lt_iff (K := K)]
  push_cast
  rfl

theorem tableSizeFrom_spec (N fuel : ℕ) : ∀ k : ℕ,
    k ≤ tableSizeFrom N fuel k (loopCounter k) ∧
    (∀ j, k ≤ j → j < tableSizeFrom N fuel k (loopCounter k) →
      loopCounter j + 2 ^ 30 < N * 2 ^ 30) ∧
    (tableSizeFrom N fuel k (loopCounter k) < k + fuel →
      N * 2 ^ 30 ≤ loopCounter (tableSizeFrom N fuel k (loopCounter k)) + 2 ^ 30) := by
  induction fuel with
  | zero =>
    intro k
    have e : tableSizeFrom N 0 k (loopCounter k) = k := rfl
    rw [e]
    exact ⟨le_rfl, fun j hj hjk => absurd hjk (by omega), fun h => absurd h (by omega)⟩
  | succ fuel ih =>
    intro k
    by_cases h : 2 ^ 30 + loopCounter k < 2 ^ 30 * N
    · have e : tableSizeFrom N (fuel + 1) k (loopCounter k)
          = tableSizeFrom N fuel (k + 1) (loopCounter (k + 1)) := by
        show (if 2 ^ 30 + loopCounter k < 2 ^ 30 * N then
          tableSizeFrom N fuel (k + 1) (Binary32.add (loopCounter k) Binary32.hundredth)
          else k) = _
        rw [if_pos h]
        rfl
      rw [e]
      obtain ⟨h1, h2, h3⟩ := ih (k + 1)
      refine ⟨by omega, ?_, fun hr => h3 (by omega)⟩
      intro j hj hjr
      rcases Nat.eq_or_lt_of_le hj with hjk | hjk
      · rw [← hjk]
        omega
      · exact h2 j hjk hjr
    · have e : tableSizeFrom N (fuel + 1) k (loopCounter k) = k := by
        show (if 2 ^ 30 + loopCounter k < 2 ^ 30 * N then
          tableSizeFrom N fuel (k + 1) (Binary32.add (loopCounter k) Binary32.hundredth)
          else k) = _
        rw [if_neg h]
      rw [e]
      exact ⟨le_rfl, fun j hj hjk => absurd hjk (by omega), fun _ => by omega⟩

/-- The number of entries for at most 262145 waypoints: the counter of that index is not
below `N - 1`, and the counter of every index before it is. -/
theorem tableSize_spec (N : ℕ) (hmax : N ≤ 262145) :
    N * 2 ^ 30 ≤ loopCounter (tableSize N) + 2 ^ 30 ∧
    ∀ k, k < tableSize N → loopCounter k + 2 ^ 30 < N * 2 ^ 30 := by
  obtain ⟨-, h2, h3⟩ := tableSizeFrom_spec N (2 ^ 30 * N) 0
  have e : tableSizeFrom N (2 ^ 30 * N) 0 (loopCounter 0) = tableSize N := rfl
  rw [e] at h2 h3
  refine ⟨?_, fun k hk => h2 k (Nat.zero_le k) hk⟩
  by_cases hr : tableSize N < 0 + 2 ^ 30 * N
  · exact h3 hr
  · rcases Nat.eq_zero_or_pos N with h0 | h0
    · rw [h0]
      omega
    · exfalso
      have hb : ∀ j, j < N * 2 ^ 30 - 2 ^ 30 → loopCounter j < 2 ^ 48 := by
        intro j hj
        have := h2 j (Nat.zero_le j) (by omega)
        omega
      have h4 := le_loopCounter _ hb
      have h5 := h2 (N * 2 ^ 30 - 2 ^ 30) (Nat.zero_le _) (by omega)
      omega

theorem lt_tableSize (N k : ℕ) (hmax : N ≤ 262145)
    (hk : loopCounter k + 2 ^ 30 < N * 2 ^ 30) : k < tableSize N := by
  by_contra hc
  have h1 := (tableSize_spec N hmax).1
  have h2 : loopCounter (tableSize N) ≤ loopCounter k := loopCounter_mono (by omega)
  omega

theorem tableSize_eq (N n m : ℕ) (hmax : N ≤ 262145) (hm : m = n + 1)
    (hlo : loopCounter n + 2 ^ 30 < N * 2 ^ 30)
    (hhi : N * 2 ^ 30 ≤ loopCounter m + 2 ^ 30) : tableSize N = m := by
  have h1 := lt_tableSize N n hmax hlo
  have h2 := (tableSize_spec N hmax).2 m
  by_contra hc
  have := h2 (by omega)
  omega

theorem tableSize_pos (N : ℕ) (hN : 2 ≤ N) (hmax : N ≤ 262145) : 0 < tableSize N :=
  lt_of_le_of_lt (Nat.zero_le _) (lt_tableSize N 0 hmax (by simp [loopCounter]; omega))

/-- The counters of the entries of the table are below `2^18`. -/
theorem loopCounter_lt_of_lt_tableSize (N k : ℕ) (hmax : N ≤ 262145) (hk : k < tableSize N) :
    loopCounter k < 2 ^ 48 := by
  have := (tableSize_spec N hmax).2 k hk
  omega

/-- The counter of the last entry is above `N - 2`. -/
theorem loopCounter_last (N : ℕ) (hN : 2 ≤ N) (hmax : N ≤ 262145) :
    N * 2 ^ 30 < loopCounter (tableSize N - 1) + 2 * 2 ^ 30 ∧
    loopCounter (tableSize N - 1) + 2 ^ 30 < N * 2 ^ 30 := by
  have hpos := tableSize_pos N hN hmax
  obtain ⟨h1, h2⟩ := tableSize_spec N hmax
  have h3 := loopCounter_succ_le (tableSize N - 1)
  have e : tableSize N - 1 + 1 = tableSize N := by omega
  rw [e] at h3
  exact ⟨by omega, h2 _ (by omega)⟩

/-- Two waypoints give a table of 101 entries. -/
theorem tableSize_two : tableSize 2 = 101 :=
  tableSize_eq 2 100 101 (by norm_num) rfl (by rw [loopCounter_100]; norm_num)
    (by rw [loopCounter_101]; norm_num)

/-! ## The arc-length table -/

theorem interpolatePosition_some_of_le (M : CMath K) (ps rs : List (QVector3D K)) (hne : ps ≠ [])
    (hlen : ps.length ≤ rs.length) (t : K) (d : Bool) :
    ∃ v, interpolatePosition M ps rs t d = some v := by
  by_cases h0 : t ≤ 0
  · exact ⟨_, (boundary_guards ps hne t _).1 h0⟩
  · by_cases h1 : (ps.length : K) - 1 ≤ t
    · exact ⟨_, (boundary_guards ps hne t _).2 h1⟩
    · exact ⟨_, interpolatePosition_interior_spec_of_le M ps rs t d hlen (not_le.mp h0) (not_le.mp h1)⟩

theorem interpolatePosition_some (M : CMath K) (ps rs : List (QVector3D K)) (hne : ps ≠ [])
    (hlen : rs.length = ps.length) (t : K) (d : Bool) :
    ∃ v, interpolatePosition M ps rs t d = some v :=
  interpolatePosition_some_of_le M ps rs hne hlen.ge t d

theorem speed_of_some (M : CMath K) (ps rs : List (QVector3D K)) (t : K) (v : QVector3D K)
    (h : interpolatePosition M ps rs t true = some v) : speed M ps rs t = v.length M := by
  simp [speed, h]

theorem foldlM_add_some {α : Type} (f : K → α → Option K) (g : α → K)
    (hf : ∀ s c, f s c = some (s + g c)) (cs : List α) (s0 : K) :
    cs.foldlM f s0 = some (s0 + (cs.map g).sum) := by
  induction cs generalizing s0 with
  | nil => simp
  | cons c cs ih =>
    rw [List.foldlM_cons, hf]
    simp only [Option.some_bind, Option.bind_eq_bind]
    rw [ih, List.map_cons, List.sum_cons, add_assoc]

theorem gaussianQuadrature_eq_of_le (M : CMath K) (ps rs : List (QVector3D K)) (hne : ps ≠ [])
    (hlen : ps.length ≤ rs.length) (a b : K) :
    gaussianQuadrature M ps rs a b = some (GL5 M ps rs a b) := by
  unfold gaussianQuadrature GL5
  rw [foldlM_add_some _ (fun c => c.2 * speed M ps rs ((b - a) / 2 * c.1 + (a + b) / 2))]
  · simp only [Option.some_bind, Option.bind_eq_bind, Option.pure_def, zero_add]
    rw [mul_comm]
  · intro s c
    obtain ⟨v, hv⟩ := interpolatePosition_some_of_le M ps rs hne hlen
      (((b - a) / 2 * c.1) + ((b + a) / 2)) true
    have hsp : speed M ps rs ((b - a) / 2 * c.1 + (a + b) / 2) = v.length M := by
      rw [add_comm a b]
      exact speed_of_some M ps rs _ v hv
    rw [hv, hsp]
    rfl

theorem gaussianQuadrature_eq (M : CMath K) (ps rs : List (QVector3D K)) (hne : ps ≠ [])
    (hlen : rs.length = ps.length) (a b : K) :
    gaussianQuadrature M ps rs a b = some (GL5 M ps rs a b) :=
  gaussianQuadrature_eq_of_le M ps rs hne hlen.ge a b

theorem blendLoop_eq_of_le (M : CMath K) (ps rs : List (QVector3D K)) (hne : ps ≠ [])
    (hlen : ps.length ≤ rs.length) (hmax : ps.length ≤ 262145) (d : ℕ) :
    ∀ (m : ℕ) (table : List (K × K)), m + d = tableSize ps.length →
      blendLoop M ps rs (arcLengthSpec M ps rs m) (loopCounter m) table
        = some (table ++ (List.range' m d).map
            (fun k => (arcLengthSpec M ps rs k, Binary32.toField (loopCounter k)))) := by
  obtain ⟨hspec1, hspec2⟩ := tableSize_spec ps.length hmax
  induction d with
  | zero =>
    intro m table hm
    rw [blendLoop, if_neg]
    · simp
    · rw [Binary32.toField_lt_iff]
      have e : m = tableSize ps.length := by omega
      rw [e]
      omega
  | succ d ih =>
    intro m table hm
    have hk := hspec2 m (by omega)
    have hlt : (Binary32.toField (loopCounter m) : K) < (((ps.length : ℤ) - 1 : ℤ) : K) :=
      (Binary32.toField_lt_iff _ _).mpr hk
    have hadd : loopCounter m < Binary32.add (loopCounter m) Binary32.hundredth :=
      Binary32.add_hundredth_gt _ (by omega)
    have hs : arcLengthSpec M ps rs m + GL5 M ps rs (Binary32.toField (loopCounter m))
          (Binary32.toField (Binary32.add (loopCounter m) Binary32.hundredth))
        = arcLengthSpec M ps rs (m + 1) := by
      unfold arcLengthSpec
      rw [Finset.sum_range_succ]
      rfl
    have hu : Binary32.add (loopCounter m) Binary32.hundredth = loopCounter (m + 1) := rfl
    rw [blendLoop, if_pos hlt, if_pos hadd, gaussianQuadrature_eq_of_le M ps rs hne hlen]
    simp only
    rw [hs, hu, ih (m + 1) _ (by omega)]
    simp [List.range'_succ]

/-- With more than 262145 waypoints the loop of `blend` does not end: its counter stays
at or below `2^18 = 262144`, where the addition of `0.01f` no longer changes it. -/
theorem blendLoop_eq_none (M : CMath K) (ps rs : List (QVector3D K))
    (hN : 262146 ≤ ps.length) (d : ℕ) :
    ∀ (u : ℕ) (s : K) (table : List (K × K)), u ≤ 2 ^ 48 → ps.length * 2 ^ 30 - u ≤ d →
      blendLoop M ps rs s u table = none := by
  induction d with
  | zero =>
    intro u s table hu hd
    omega
  | succ d ih =>
    intro u s table hu hd
    have hlt : (Binary32.toField u : K) < (((ps.length : ℤ) - 1 : ℤ) : K) :=
      (Binary32.toField_lt_iff _ _).mpr (by omega)
    rw [blendLoop, if_pos hlt]
    by_cases hadd : u < Binary32.add u Binary32.hundredth
    · rw [if_pos hadd]
      cases gaussianQuadrature M ps rs (Binary32.toField u)
          (Binary32.toField (Binary32.add u Binary32.hundredth)) with
      | none => rfl
      | some g =>
        exact ih _ _ _ (Binary32.add_hundredth_le u hu) (by omega)
    · rw [if_neg hadd]

theorem blend_eq_of_le (M : CMath K) (w : FractalWidget K) (hne : w.positionWaypoints ≠ [])
    (hlen : w.positionWaypoints.length ≤ w.rotationWaypoints.length)
    (hmax : w.positionWaypoints.length ≤ 262145) :
    blend M w = some { w with
      s2uTable := tableSpec M w.positionWaypoints w.rotationWaypoints } := by
  have h := blendLoop_eq_of_le M w.positionWaypoints w.rotationWaypoints hne hlen hmax
    (tableSize w.positionWaypoints.length) 0 [] (by simp)
  have h0 : arcLengthSpec M w.positionWaypoints w.rotationWaypoints 0 = 0 := by
    simp [arcLengthSpec]
  have hc : loopCounter 0 = 0 := rfl
  rw [h0, hc] at h
  unfold blend
  rw [h]
  simp [tableSpec, List.range_eq_range']

theorem blend_eq (M : CMath K) (w : FractalWidget K) (hne : w.positionWaypoints ≠ [])
    (hlen : w.rotationWaypoints.length = w.positionWaypoints.length)
    (hmax : w.positionWaypoints.length ≤ 262145) :
    blend M w = some { w with
      s2uTable := tableSpec M w.positionWaypoints w.rotationWaypoints } :=
  blend_eq_of_le M w hne hlen.ge hmax

/-- With more than 262145 waypoints `blend()` does not return. -/
theorem blend_eq_none (M : CMath K) (w : FractalWidget K)
    (hN : 262146 ≤ w.positionWaypoints.length) : blend M w = none := by
  unfold blend
  rw [blendLoop_eq_none M w.positionWaypoints w.rotationWaypoints hN _ 0 0 []
    (Nat.zero_le _) le_rfl]
  rfl

/-- A call of `blend()` that returns was made with at most 262145 waypoints. -/
theorem blend_some_le (M : CMath K) (w w2 : FractalWidget K) (h : blend M w = some w2) :
    w.positionWaypoints.length ≤ 262145 := by
  by_contra hc
  rw [blend_eq_none M w (by omega)] at h
  exact Option.noConfusion h

theorem tableSpec_getElem? (M : CMath K) (ps rs : List (QVector3D K)) (k : ℕ)
    (hk : k < tableSize ps.length) :
    (tableSpec M ps rs)[k]?
      = some (arcLengthSpec M ps rs k, Binary32.toField (loopCounter k)) := by
  simp [tableSpec, List.getElem?_map, List.getElem?_range hk]

theorem tableSpec_length (M : CMath K) (ps rs : List (QVector3D K)) :
    (tableSpec M ps rs).length = tableSize ps.length := by
  simp [tableSpec]

/-- C9, amended. Construction of the arc-length table. For `2 ≤ N ≤ 262145` waypoints
`blend()` returns, and replaces whatever `s2uTable` held by the table of `n` entries
whose entry `k` is `(s_k, u_k)`: `u_0 = 0` and `u_{k+1}` is the binary32 sum of `u_k` and
`0.01f`, `n` is the first index with `u_n ≥ N - 1` (every `u_k` with `k < n` is below
`N - 1`) and `s_k = Σ_{j<k} GL5(u_j, u_{j+1})`. Entry `0` is `(0, 0)` and the last entry is
`(s_{n-1}, u_{n-1})`, whose sum omits the final step. The sums `s_k` and the quadrature
are exact. -/
theorem blend_builds_table (M : CMath K) (w : FractalWidget K)
    (hN : 2 ≤ w.positionWaypoints.length) (hmax : w.positionWaypoints.length ≤ 262145)
    (hlen : w.rotationWaypoints.length = w.positionWaypoints.length) :
    blend M w = some { w with
      s2uTable := tableSpec M w.positionWaypoints w.rotationWaypoints } ∧
    (tableSpec M w.positionWaypoints w.rotationWaypoints).length
      = tableSize w.positionWaypoints.length ∧
    (∀ k : ℕ, k < tableSize w.positionWaypoints.length →
      (Binary32.toField (loopCounter k) : K) < (w.positionWaypoints.length : K) - 1) ∧
    (w.positionWaypoints.length : K) - 1
      ≤ Binary32.toField (loopCounter (tableSize w.positionWaypoints.length)) ∧
    (∀ k : ℕ, k < tableSize w.positionWaypoints.length →
      (tableSpec M w.positionWaypoints w.rotationWaypoints)[k]?
        = some (arcLengthSpec M w.positionWaypoints w.rotationWaypoints k,
            Binary32.toField (loopCounter k))) ∧
    (tableSpec M w.positionWaypoints w.rotationWaypoints)[0]? = some (0, 0) ∧
    (tableSpec M w.positionWaypoints w.rotationWaypoints).getLast?
      = some (arcLengthSpec M w.positionWaypoints w.rotationWaypoints
          (tableSize w.positionWaypoints.length - 1),
        Binary32.toField (loopCounter (tableSize w.positionWaypoints.length - 1))) := by
  have hne : w.positionWaypoints ≠ [] := by
    intro h
    simp [h] at hN
  have hpos := tableSize_pos _ hN hmax
  obtain ⟨hs1, hs2⟩ := tableSize_spec _ hmax
  refine ⟨blend_eq M w hne hlen hmax, tableSpec_length _ _ _,
    fun k hk => (Binary32.toField_lt_natCast_iff _ _).mpr (hs2 k hk), ?_,
    fun k hk => tableSpec_getElem? M _ _ k hk, ?_, ?_⟩
  · rw [← not_lt, Binary32.toField_lt_natCast_iff]
    omega
  · rw [tableSpec_getElem? M _ _ 0 hpos]
    simp [arcLengthSpec, loopCounter, Binary32.toField_zero]
  · rw [List.getLast?_eq_getElem?, tableSpec_length,
      tableSpec_getElem? M _ _ _ (by omega)]

/-- Witness of the amended C9: two waypoints one unit apart over the reals; `blend()`
returns the table of the specification, whose first entry is `(0, 0)`. -/
theorem blend_builds_table_witness :
    blend CMath.real
        (FractalWidget.withWaypoints [⟨0, 0, 0⟩, ⟨1, 0, 0⟩] [⟨0, 0, 0⟩, ⟨0, 0, 0⟩])
      = some { FractalWidget.withWaypoints [⟨0, 0, 0⟩, ⟨1, 0, 0⟩] [⟨0, 0, 0⟩, ⟨0, 0, 0⟩] with
          s2uTable := tableSpec CMath.real [⟨0, 0, 0⟩, ⟨1, 0, 0⟩] [⟨0, 0, 0⟩, ⟨0, 0, 0⟩] } ∧
    (tableSpec CMath.real [⟨0, 0, 0⟩, ⟨1, 0, 0⟩] [⟨0, 0, 0⟩, ⟨0, 0, 0⟩]).length
      = tableSize 2 ∧
    (tableSpec CMath.real [⟨0, 0, 0⟩, ⟨1, 0, 0⟩] [⟨0, 0, 0⟩, ⟨0, 0, 0⟩])[0]? = some (0, 0) :=
  ⟨(blend_builds_table CMath.real
      (FractalWidget.withWaypoints [⟨0, 0, 0⟩, ⟨1, 0, 0⟩] [⟨0, 0, 0⟩, ⟨0, 0, 0⟩])
      (by simp [FractalWidget.withWaypoints]) (by simp [FractalWidget.withWaypoints])
      (by simp [FractalWidget.withWaypoints])).1,
   (blend_builds_table CMath.real
      (FractalWidget.withWaypoints [⟨0, 0, 0⟩, ⟨1, 0, 0⟩] [⟨0, 0, 0⟩, ⟨0, 0, 0⟩])
      (by simp [FractalWidget.withWaypoints]) (by simp [FractalWidget.withWaypoints])
      (by simp [FractalWidget.withWaypoints])).2.1,
   (blend_builds_table CMath.real
      (FractalWidget.withWaypoints [⟨0, 0, 0⟩, ⟨1, 0, 0⟩] [⟨0, 0, 0⟩, ⟨0, 0, 0⟩])
      (by simp [FractalWidget.withWaypoints]) (by simp [FractalWidget.withWaypoints])
      (by simp [FractalWidget.withWaypoints])).2.2.2.2.2.1⟩

/-- C9 fails as stated. Two waypoints one unit apart: the table that `blend()` returns
has 101 entries and not `100 * (2 - 1)`, because the binary32 counter is still below 1
after a hundred additions of `0.01f`; entry 1 has the parameter `10737418 / 2^30`, which is
not `0.01`, and the last entry has the parameter `16777205 / 2^24`, which is not
`2 - 1 - 0.01`. And with 262146 waypoints `blend()` produces no table: its counter stays at
`2^18 = 262144`, below `size - 1`, and the loop does not end. -/
theorem blend_table_has_101_entries :
    (∃ w2, blend CMath.real
        (FractalWidget.withWaypoints [⟨0, 0, 0⟩, ⟨1, 0, 0⟩] [⟨0, 0, 0⟩, ⟨0, 0, 0⟩]) = some w2 ∧
      w2.s2uTable.length = 101 ∧ w2.s2uTable.length ≠ 100 * (2 - 1) ∧
      (∃ e : ℝ × ℝ, w2.s2uTable[1]? = some e ∧ e.2 = 10737418 / 2 ^ 30 ∧ e.2 ≠ 1 * 0.01) ∧
      ∃ last : ℝ × ℝ, w2.s2uTable.getLast? = some last ∧ last.2 = 16777205 / 2 ^ 24 ∧
        last.2 ≠ 2 - 1 - 0.01) ∧
    blend CMath.real (FractalWidget.withWaypoints
        (List.replicate 262146 ⟨0, 0, 0⟩) (List.replicate 262146 ⟨0, 0, 0⟩)) = none := by
  refine ⟨?_, blend_eq_none CMath.real _ (le_of_eq (List.length_replicate _ _).symm)⟩
  have hlen : (tableSpec CMath.real [⟨0, 0, 0⟩, ⟨1, 0, 0⟩] [⟨0, 0, 0⟩, ⟨0, 0, 0⟩]).length
      = 101 := by
    rw [tableSpec_length]
    exact tableSize_two
  have h1 : (tableSpec CMath.real [⟨0, 0, 0⟩, ⟨1, 0, 0⟩] [⟨0, 0, 0⟩, ⟨0, 0, 0⟩])[1]?
      = some (arcLengthSpec CMath.real [⟨0, 0, 0⟩, ⟨1, 0, 0⟩] [⟨0, 0, 0⟩, ⟨0, 0, 0⟩] 1,
          Binary32.toField (loopCounter 1)) :=
    tableSpec_getElem? _ _ _ 1 (lt_of_lt_of_eq (by norm_num) tableSize_two.symm)
  have h100 : (tableSpec CMath.real [⟨0, 0, 0⟩, ⟨1, 0, 0⟩] [⟨0, 0, 0⟩, ⟨0, 0, 0⟩]).getLast?
      = some (arcLengthSpec CMath.real [⟨0, 0, 0⟩, ⟨1, 0, 0⟩] [⟨0, 0, 0⟩, ⟨0, 0, 0⟩] 100,
          Binary32.toField (loopCounter 100)) := by
    rw [List.getLast?_eq_getElem?, hlen]
    exact tableSpec_getElem? _ _ _ 100 (lt_of_lt_of_eq (by norm_num) tableSize_two.symm)
  refine ⟨_, blend_eq CMath.real _ (by simp [FractalWidget.withWaypoints])
    (by simp [FractalWidget.withWaypoints]) (by simp [FractalWidget.withWaypoints]), ?_⟩
  simp only [FractalWidget.withWaypoints]
  rw [hlen, h1, h100, loopCounter_one, loopCounter_100]
  refine ⟨rfl, by norm_num, ⟨_, rfl, ?_, ?_⟩, ⟨_, rfl, ?_, ?_⟩⟩ <;>
    norm_num [Binary32.toField]

theorem speed_nonneg (M : CMath K) (hsqrt : ∀ x, 0 ≤ M.sqrt x) (ps rs : List (QVector3D K))
    (t : K) : 0 ≤ speed M ps rs t := by
  unfold speed
  split
  · exact hsqrt _
  · exact le_rfl

theorem GL5_nonneg (M : CMath K) (hsqrt : ∀ x, 0 ≤ M.sqrt x) (ps rs : List (QVector3D K))
    (a b : K) (hab : a ≤ b) : 0 ≤ GL5 M ps rs a b := by
  unfold GL5
  apply mul_nonneg
  · linarith
  · apply List.sum_nonneg
    intro x hx
    simp only [coefficients, List.map_cons, List.map_nil, List.mem_cons, List.mem_singleton,
      List.not_mem_nil, or_false] at hx
    rcases hx with h | h | h | h | h <;> rw [h] <;>
      exact mul_nonneg (by norm_num) (speed_nonneg M hsqrt ps rs _)

theorem arcLengthSpec_mono (M : CMath K) (hsqrt : ∀ x, 0 ≤ M.sqrt x)
    (ps rs : List (QVector3D K)) (k m : ℕ) (hkm : k ≤ m) :
    arcLengthSpec M ps rs k ≤ arcLengthSpec M ps rs m := by
  unfold arcLengthSpec
  apply Finset.sum_le_sum_of_subset_of_nonneg
  · exact Finset.range_mono hkm
  · intro j _ _
    exact GL5_nonneg M hsqrt _ _ _ _ (Binary32.toField_le _ _ (loopCounter_le_succ j))

/-- C10, amended. For `2 ≤ N ≤ 262145` waypoints `blend()` returns, and the table it
builds is strictly increasing in `u` and non-decreasing in `s`: for all `k < m`,
`table[k].s ≤ table[m].s` and `table[k].u < table[m].u` (the square root of the math
library being non-negative). -/
theorem blend_table_monotone (M : CMath K) (hsqrt : ∀ x, 0 ≤ M.sqrt x) (w : FractalWidget K)
    (hN : 2 ≤ w.positionWaypoints.length) (hmax : w.positionWaypoints.length ≤ 262145)
    (hlen : w.rotationWaypoints.length = w.positionWaypoints.length) :
    ∃ w2, blend M w = some w2 ∧
      ∀ (k m : ℕ) (_hkm : k < m) (hm : m < w2.s2uTable.length),
        (w2.s2uTable[k]).1 ≤ (w2.s2uTable[m]).1 ∧ (w2.s2uTable[k]).2 < (w2.s2uTable[m]).2 := by
  have hne : w.positionWaypoints ≠ [] := by
    intro h
    simp [h] at hN
  refine ⟨_, blend_eq M w hne hlen hmax, ?_⟩
  intro k m hkm hm
  have hm2 : m < tableSize w.positionWaypoints.length := by
    have := hm
    simp only [tableSpec_length] at this
    exact this
  simp only [tableSpec, List.getElem_map, List.getElem_range]
  refine ⟨arcLengthSpec_mono M hsqrt _ _ k m hkm.le, ?_⟩
  apply Binary32.toField_lt
  exact loopCounter_lt_of_lt k m hkm
    (loopCounter_lt_of_lt_tableSize _ _ hmax (by omega))

/-- Witness of the amended C10: two waypoints one unit apart over the reals. -/
theorem blend_table_monotone_witness :
    ∃ w2, blend CMath.real (FractalWidget.withWaypoints [⟨0, 0, 0⟩, ⟨1, 0, 0⟩]
        [⟨0, 0, 0⟩, ⟨0, 0, 0⟩]) = some w2 ∧
      ∀ (k m : ℕ) (_hkm : k < m) (hm : m < w2.s2uTable.length),
        (w2.s2uTable[k]).1 ≤ (w2.s2uTable[m]).1 ∧ (w2.s2uTable[k]).2 < (w2.s2uTable[m]).2 :=
  blend_table_monotone CMath.real Real.sqrt_nonneg
    (FractalWidget.withWaypoints [⟨0, 0, 0⟩, ⟨1, 0, 0⟩] [⟨0, 0, 0⟩, ⟨0, 0, 0⟩])
    (by simp [FractalWidget.withWaypoints]) (by simp [FractalWidget.withWaypoints])
    (by simp [FractalWidget.withWaypoints])

theorem speed_four_equal (t : ℝ) (h1 : 1 < t) (h2 : t < 2) :
    speed CMath.real [⟨0, 0, 0⟩, ⟨0, 0, 0⟩, ⟨0, 0, 0⟩, ⟨0, 0, 0⟩]
      [⟨0, 0, 0⟩, ⟨0, 0, 0⟩, ⟨0, 0, 0⟩, ⟨0, 0, 0⟩] t = 0 := by
  have hfl : ⌊t⌋ = 1 := by
    rw [Int.floor_eq_iff]
    constructor <;> norm_num <;> linarith
  have h := interpolatePosition_interior_spec CMath.real
    [⟨0, 0, 0⟩, ⟨0, 0, 0⟩, ⟨0, 0, 0⟩, ⟨0, 0, 0⟩] [⟨0, 0, 0⟩, ⟨0, 0, 0⟩, ⟨0, 0, 0⟩, ⟨0, 0, 0⟩]
    t true (by simp) (by linarith) (by norm_num; linarith)
  rw [speed_of_some _ _ _ _ _ h, hfl]
  simp [catmullRomDerivSpec, controlPointBefore, controlPointAfter, QVector3D.length, CMath.real]

/-- C10 fails as stated. Four identical waypoints `(0,0,0)` with rotation `(0,0,0)`: on the
inner segment all four control points coincide, the derivative vanishes, and the entries
`100` and `101` of the table carry the same arc length. And with 262146 waypoints
`blend()` returns no table: its binary32 counter reaches `2^18 = 262144`, where the
addition of `0.01f` leaves it, below `size - 1 = 262145`. -/
theorem blend_table_repeats_arc_length :
    (∃ w2, blend CMath.real (FractalWidget.withWaypoints
        [⟨0, 0, 0⟩, ⟨0, 0, 0⟩, ⟨0, 0, 0⟩, ⟨0, 0, 0⟩]
        [⟨0, 0, 0⟩, ⟨0, 0, 0⟩, ⟨0, 0, 0⟩, ⟨0, 0, 0⟩]) = some w2 ∧
      ∃ a b, w2.s2uTable[100]? = some a ∧ w2.s2uTable[101]? = some b ∧ ¬ (a.1 < b.1)) ∧
    blend CMath.real (FractalWidget.withWaypoints
        (List.replicate 262146 ⟨0, 0, 0⟩) (List.replicate 262146 ⟨0, 0, 0⟩)) = none ∧
    Binary32.add (2 ^ 48) Binary32.hundredth = 2 ^ 48 ∧
    (Binary32.toField (2 ^ 48) : ℝ) = 262144 := by
  refine ⟨⟨_, blend_eq CMath.real _ (by simp [FractalWidget.withWaypoints])
    (by simp [FractalWidget.withWaypoints]) (by simp [FractalWidget.withWaypoints]), ?_⟩,
    blend_eq_none CMath.real _ (le_of_eq (List.length_replicate _ _).symm),
    Binary32.add_hundredth_stall, by norm_num [Binary32.toField]⟩
  have h101 : 101 < tableSize 4 := by
    apply lt_tableSize 4 101 (by norm_num)
    rw [loopCounter_101]
    norm_num
  have e100 := tableSpec_getElem? CMath.real [⟨0, 0, 0⟩, ⟨0, 0, 0⟩, ⟨0, 0, 0⟩, ⟨0, 0, 0⟩]
    [⟨0, 0, 0⟩, ⟨0, 0, 0⟩, ⟨0, 0, 0⟩, ⟨0, 0, 0⟩] 100 (lt_trans (by norm_num) h101)
  have e101 := tableSpec_getElem? CMath.real [⟨0, 0, 0⟩, ⟨0, 0, 0⟩, ⟨0, 0, 0⟩, ⟨0, 0, 0⟩]
    [⟨0, 0, 0⟩, ⟨0, 0, 0⟩, ⟨0, 0, 0⟩, ⟨0, 0, 0⟩] 101 h101
  simp only [FractalWidget.withWaypoints]
  refine ⟨_, _, e100, e101, ?_⟩
  simp only [FractalWidget.withWaypoints, not_lt]
  apply le_of_eq
  unfold arcLengthSpec
  rw [Finset.sum_range_succ]
  have hz : GL5 CMath.real [⟨0, 0, 0⟩, ⟨0, 0, 0⟩, ⟨0, 0, 0⟩, ⟨0, 0, 0⟩]
      [⟨0, 0, 0⟩, ⟨0, 0, 0⟩, ⟨0, 0, 0⟩, ⟨0, 0, 0⟩] (Binary32.toField (loopCounter 100))
      (Binary32.toField (loopCounter (100 + 1))) = 0 := by
    have e : loopCounter (100 + 1) = 1084478592 := loopCounter_101
    rw [e, loopCounter_100]
    unfold GL5 Binary32.toField
    simp only [coefficients, List.map_cons, List.map_nil, List.sum_cons, List.sum_nil]
    rw [speed_four_equal _ (by norm_num) (by norm_num),
      speed_four_equal _ (by norm_num) (by norm_num),
      speed_four_equal _ (by norm_num) (by norm_num),
      speed_four_equal _ (by norm_num) (by norm_num),
      speed_four_equal _ (by norm_num) (by norm_num)]
    simp
  rw [hz, add_zero]

/-! ## The inverse arc-length lookup -/

/-- The search of `s2u` on a table of at least two entries whose first arc length is at
most `s`: the result `p` is at least `1`, at most the last index, every entry before `p`
has an arc length at most `s`, and entry `p` is greater than `s` unless `p` is the last
index. -/
theorem upper_bound_dropLast (table : List (K × K)) (s : K) (hn : 2 ≤ table.length)
    (h0 : (table[0]).1 ≤ s) :
    ∃ j : ℕ, ∃ hj : j + 1 < table.length,
      upper_bound table.dropLast s = j + 1 ∧
      (∀ i : ℕ, ∀ hi : i < j + 1, (table[i]).1 ≤ s) ∧
      (j + 1 = table.length - 1 ∨ s < (table[j + 1]).1) := by
  have hlen : table.dropLast.length = table.length - 1 := List.length_dropLast table
  have hle : upper_bound table.dropLast s ≤ table.length - 1 := by
    rw [← hlen]
    exact List.findIdx_le_length _
  have hbefore : ∀ i : ℕ, ∀ _hi : i < upper_bound table.dropLast s,
      ∀ hi3 : i < table.length, (table[i]).1 ≤ s := by
    intro i hi hi3
    have hi2 : i < table.dropLast.length := by omega
    have := List.not_of_lt_findIdx (p := fun e : K × K => decide (s < e.1)) hi
    rw [List.getElem_dropLast] at this
    simpa using this
  have hpos : 0 < upper_bound table.dropLast s := by
    rw [Nat.pos_iff_ne_zero]
    intro hz
    have h0d : 0 < table.dropLast.length := by omega
    have hlt : List.findIdx (fun e : K × K => decide (s < e.1)) table.dropLast
        < table.dropLast.length := by
      have : upper_bound table.dropLast s = List.findIdx
        (fun e : K × K => decide (s < e.1)) table.dropLast := rfl
      omega
    have := List.findIdx_getElem (w := hlt)
    have hz2 : List.findIdx (fun e : K × K => decide (s < e.1)) table.dropLast = 0 := hz
    simp only [hz2, List.getElem_dropLast, decide_eq_true_eq] at this
    exact absurd h0 (not_le.mpr this)
  obtain ⟨j, hj⟩ : ∃ j, upper_bound table.dropLast s = j + 1 := ⟨_, (Nat.succ_pred_eq_of_pos hpos).symm⟩
  refine ⟨j, by omega, hj, ?_, ?_⟩
  · intro i hi
    exact hbefore i (by omega) (by omega)
  · by_cases hlast : j + 1 = table.length - 1
    · exact Or.inl hlast
    · right
      have hlt : List.findIdx (fun e : K × K => decide (s < e.1)) table.dropLast
          < table.dropLast.length := by
        have : upper_bound table.dropLast s = List.findIdx
          (fun e : K × K => decide (s < e.1)) table.dropLast := rfl
        omega
      have := List.findIdx_getElem (w := hlt)
      have hz2 : List.findIdx (fun e : K × K => decide (s < e.1)) table.dropLast = j + 1 := hj
      simp only [hz2, List.getElem_dropLast, decide_eq_true_eq] at this
      exact this

/-- The value of `s2u` when the search returns `j + 1`. -/
theorem s2u_of_upper_bound (table : List (K × K)) (s : K) (j : ℕ) (hj : j + 1 < table.length)
    (hp : upper_bound table.dropLast s = j + 1) :
    s2u table s = some
      ((1 - (s - (table[j + 1]).1) / ((table[j]).1 - (table[j + 1]).1)) * (table[j + 1]).2
        + (s - (table[j + 1]).1) / ((table[j]).1 - (table[j + 1]).1) * (table[j]).2) := by
  unfold s2u
  simp only [hp]
  have e0 : QList.at table (((j + 1 : ℕ) : ℤ)) = some table[j + 1] := by
    rw [QList.at_natCast, List.getElem?_eq_getElem hj]
  have e1 : QList.at table (((j + 1 : ℕ) : ℤ) - 1) = some table[j] := by
    have : (((j + 1 : ℕ) : ℤ) - 1) = ((j : ℕ) : ℤ) := by push_cast; ring
    rw [this, QList.at_natCast, List.getElem?_eq_getElem (by omega)]
  simp only [e0, e1, Option.some_bind, Option.bind_eq_bind, Option.pure_def]

theorem lerp_swap (s s0 s1 u0 u1 : K) (h : s0 < s1) :
    (1 - (s - s1) / (s0 - s1)) * u1 + (s - s1) / (s0 - s1) * u0
      = u0 + (s - s0) / (s1 - s0) * (u1 - u0) := by
  have h1 : s0 - s1 ≠ 0 := (sub_neg.mpr h).ne
  have h2 : s1 - s0 ≠ 0 := (sub_pos.mpr h).ne'
  field_simp
  ring

/-- The lookup in a table with at least 2 entries that is strictly ascending in `s`, at
an `s` with `table[0].s ≤ s`: there is an index `j` such that `j + 1` is the first entry
among all but the last whose arc length is greater than `s`, and
`s2u(s) = u_j + (s - s_j)/(s_{j+1} - s_j) * (u_{j+1} - u_j)`; for `s_j ≤ s ≤ s_{j+1}` and
`u_j ≤ u_{j+1}` this value lies in `[u_j, u_{j+1}]`. -/
theorem s2u_interpolates (table : List (K × K)) (s : K) (hn : 2 ≤ table.length)
    (hsorted : table.Pairwise (fun a b => a.1 < b.1)) (h0 : (table[0]).1 ≤ s) :
    ∃ j : ℕ, ∃ hj : j + 1 < table.length,
      (∀ i : ℕ, ∀ hi : i < j + 1, (table[i]).1 ≤ s) ∧
      (j + 1 = table.length - 1 ∨ s < (table[j + 1]).1) ∧
      s2u table s = some ((table[j]).2
        + (s - (table[j]).1) / ((table[j + 1]).1 - (table[j]).1)
          * ((table[j + 1]).2 - (table[j]).2)) ∧
      ((table[j]).1 ≤ s → s ≤ (table[j + 1]).1 → (table[j]).2 ≤ (table[j + 1]).2 →
        (table[j]).2 ≤ (table[j]).2
          + (s - (table[j]).1) / ((table[j + 1]).1 - (table[j]).1)
            * ((table[j + 1]).2 - (table[j]).2) ∧
        (table[j]).2
          + (s - (table[j]).1) / ((table[j + 1]).1 - (table[j]).1)
            * ((table[j + 1]).2 - (table[j]).2) ≤ (table[j + 1]).2) := by
  obtain ⟨j, hj, hp, hbefore, hafter⟩ := upper_bound_dropLast table s hn h0
  have hlt : (table[j]).1 < (table[j + 1]).1 :=
    (List.pairwise_iff_getElem.mp hsorted) j (j + 1) (by omega) hj (by omega)
  refine ⟨j, hj, hbefore, hafter, ?_, ?_⟩
  · rw [s2u_of_upper_bound table s j hj hp, lerp_swap _ _ _ _ _ hlt]
  · intro h1 h2 hu
    have hd : 0 < (table[j + 1]).1 - (table[j]).1 := sub_pos.mpr hlt
    have ha0 : 0 ≤ (s - (table[j]).1) / ((table[j + 1]).1 - (table[j]).1) :=
      div_nonneg (sub_nonneg.mpr h1) hd.le
    have ha1 : (s - (table[j]).1) / ((table[j + 1]).1 - (table[j]).1) ≤ 1 := by
      rw [div_le_one hd]
      linarith
    have hdu : 0 ≤ (table[j + 1]).2 - (table[j]).2 := sub_nonneg.mpr hu
    constructor
    · have := mul_nonneg ha0 hdu
      linarith
    · have := mul_le_mul_of_nonneg_right ha1 hdu
      linarith

/-- C12. Table round trip: for a table with at least 2 entries that is strictly
ascending in `s` and every index `k`, the first and the last included,
`s2u(table[k].s) = table[k].u`. -/
theorem s2u_round_trip (table : List (K × K)) (hn : 2 ≤ table.length)
    (hsorted : table.Pairwise (fun a b => a.1 < b.1)) (k : ℕ) (hk : k < table.length) :
    s2u table (table[k]).1 = some (table[k]).2 := by
  have hs := List.pairwise_iff_getElem.mp hsorted
  have h0 : (table[0]).1 ≤ (table[k]).1 := by
    rcases Nat.eq_zero_or_pos k with h | h
    · subst h
      exact le_rfl
    · exact (hs 0 k (by omega) hk h).le
  obtain ⟨j, hj, hp, hbefore, hafter⟩ := upper_bound_dropLast table (table[k]).1 hn h0
  have hlt : (table[j]).1 < (table[j + 1]).1 := hs j (j + 1) (by omega) hj (by omega)
  rw [s2u_of_upper_bound table _ j hj hp]
  -- every entry after `k` is greater, so `j ≤ k`; the entry `j + 1` is greater unless last
  have hjk : j ≤ k := by
    by_contra hcon
    have h1 := hbefore (k + 1) (by omega)
    have h2 := hs k (k + 1) hk (by omega) (by omega)
    exact absurd h1 (not_le.mpr h2)
  rcases hafter with hlast | hgt
  · -- `j + 1` is the last index: `k` is `j` or `j + 1`
    have hk2 : k = j ∨ k = j + 1 := by omega
    rcases hk2 with h | h
    · subst h
      have hne : (table[k]).1 - (table[k + 1]).1 ≠ 0 := (sub_neg.mpr hlt).ne
      rw [div_self hne]
      simp
    · subst h
      simp
  · have hk2 : k = j := by
      by_contra hcon
      have hlt2 : j + 1 ≤ k := by omega
      rcases Nat.eq_or_lt_of_le hlt2 with h | h
      · subst h
        exact lt_irrefl _ hgt
      · have := hs (j + 1) k hj hk h
        exact lt_irrefl _ (hgt.trans this)
    subst hk2
    have hne : (table[k]).1 - (table[k + 1]).1 ≠ 0 := (sub_neg.mpr hlt).ne
    rw [div_self hne]
    simp

/-- Witness of C12: the last entry of the table `(0,0), (1,5), (3,7)` over the rationals. -/
theorem s2u_round_trip_witness :
    s2u [((0 : ℚ), (0 : ℚ)), (1, 5), (3, 7)] 3 = some 7 :=
  s2u_round_trip [((0 : ℚ), (0 : ℚ)), (1, 5), (3, 7)] (by simp) (by simp) 2 (by simp)

/-! ## The playback controller -/

theorem CameraStep.refl (w : World K) : CameraStep w w :=
  ⟨rfl, rfl, rfl, rfl, rfl, rfl, rfl, rfl, rfl, rfl, rfl, rfl, rfl, rfl, [], by simp, by simp⟩

theorem CameraStep.trans {w w2 w3 : World K} (h1 : CameraStep w w2) (h2 : CameraStep w2 w3) :
    CameraStep w w3 := by
  obtain ⟨c1, e1, hc1⟩ := h1.signals
  obtain ⟨c2, e2, hc2⟩ := h2.signals
  refine ⟨h2.animate.trans h1.animate, h2.preview.trans h1.preview,
    h2.keyframeBegin.trans h1.keyframeBegin, h2.keyframeCurrent.trans h1.keyframeCurrent,
    h2.positions.trans h1.positions, h2.rotations.trans h1.rotations, h2.table.trans h1.table,
    h2.resolution.trans h1.resolution, h2.targetFPS.trans h1.targetFPS,
    h2.targetDuration.trans h1.targetDuration, h2.lastDrawnFrame.trans h1.lastDrawnFrame,
    h2.keys.trans h1.keys, h2.tracking.trans h1.tracking, h2.saved.trans h1.saved,
    c1 ++ c2, ?_, ?_⟩
  · rw [e2, e1, List.append_assoc]
  · intro signal hs
    rcases List.mem_append.mp hs with h | h
    · exact hc1 signal h
    · exact hc2 signal h

theorem setCameraPosition_cameraStep (L : Lib K) (value : QVector3D K) (w : World K) :
    CameraStep w (setCameraPosition L value w) := by
  unfold setCameraPosition
  simp only
  split_ifs
  · exact ⟨rfl, rfl, rfl, rfl, rfl, rfl, rfl, rfl, rfl, rfl, rfl, rfl, rfl, rfl,
      [Signal.cameraPositionChaged _], rfl, by simp [Signal.isCamera]⟩
  · exact CameraStep.refl w

theorem setCameraRotation_cameraStep (L : Lib K) (value : QVector3D K) (w : World K) :
    CameraStep w (setCameraRotation L value w) := by
  unfold setCameraRotation
  simp only
  split_ifs
  · exact ⟨rfl, rfl, rfl, rfl, rfl, rfl, rfl, rfl, rfl, rfl, rfl, rfl, rfl, rfl,
      [Signal.cameraRotationChaged _], rfl, by simp [Signal.isCamera]⟩
  · exact CameraStep.refl w

theorem updateNavigation_cameraStep (L : Lib K) (cursor : ℤ × ℤ) (w : World K) :
    CameraStep w (updateNavigation L cursor w) := by
  unfold updateNavigation
  exact (setCameraPosition_cameraStep L _ w).trans (setCameraRotation_cameraStep L _ _)

theorem interpolateRotation_some (M : CMath K) (Q : QtMath K) (rs : List (QVector3D K))
    (hne : rs ≠ []) (t : K) : ∃ v, interpolateRotation M Q rs t = some v := by
  by_cases h0 : t ≤ 0
  · exact ⟨_, (boundary_guards rs hne t _).1 h0⟩
  · by_cases h1 : (rs.length : K) - 1 ≤ t
    · exact ⟨_, (boundary_guards rs hne t _).2 h1⟩
    · have h0 : 0 < t := not_le.mp h0
      have h1 : t < (rs.length : K) - 1 := not_le.mp h1
      have hf : 0 ≤ ⌊t⌋ := Int.floor_nonneg.mpr h0.le
      have hlt : ⌊t⌋ < (rs.length : ℤ) - 1 := by
        rw [Int.floor_lt]
        push_cast
        exact h1
      obtain ⟨n, hn⟩ : ∃ n : ℕ, ⌊t⌋ = (n : ℤ) := ⟨⌊t⌋.toNat, (Int.toNat_of_nonneg hf).symm⟩
      have hn1 : n + 1 < rs.length := by omega
      have a0 : QList.at rs (n : ℤ) = some (rs.getD n default) :=
        QList.at_of_lt rs n (by omega)
      have a1 : QList.at rs ((n : ℤ) + 1) = some (rs.getD (n + 1) default) := by
        have := QList.at_of_lt rs (n + 1) hn1
        simpa using this
      have hs0 : ∃ q, si0 M rs (n : ℤ) = some q := by
        unfold si0
        rw [a0, a1]
        by_cases hi : (n : ℤ) ≤ 1
        · simp [hi]
        · have am : QList.at rs ((n : ℤ) - 1) = some (rs.getD (n - 1) default) := by
            have hm : ((n : ℤ) - 1) = ((n - 1 : ℕ) : ℤ) := by omega
            rw [hm]
            exact QList.at_of_lt rs (n - 1) (by omega)
          simp [hi, am]
      have hs1 : ∃ q, si1 M rs (n : ℤ) = some q := by
        unfold si1
        rw [a0, a1]
        by_cases hi : (n : ℤ) ≥ (rs.length : ℤ) - 3
        · simp [hi, List.getLast?_eq_getLast rs hne]
        · have ap : QList.at rs ((n : ℤ) + 2) = some (rs.getD (n + 2) default) := by
            have hm : ((n : ℤ) + 2) = ((n + 2 : ℕ) : ℤ) := by omega
            rw [hm]
            exact QList.at_of_lt rs (n + 2) (by omega)
          simp [hi, ap]
      obtain ⟨q0, hq0⟩ := hs0
      obtain ⟨q1, hq1⟩ := hs1
      unfold interpolateRotation
      rw [if_neg (not_le.mpr h0), if_neg (by push_cast; exact not_le.mpr h1)]
      simp only [hn, a0, a1, hq0, hq1]
      simp

theorem s2u_some (table : List (K × K)) (s : K) (hn : 2 ≤ table.length)
    (h0 : (table[0]).1 ≤ s) : ∃ u, s2u table s = some u := by
  obtain ⟨j, hj, hp, -, -⟩ := upper_bound_dropLast table s hn h0
  exact ⟨_, s2u_of_upper_bound table s j hj hp⟩

theorem arcLengthSpec_nonneg (M : CMath K) (hsqrt : ∀ x, 0 ≤ M.sqrt x)
    (ps rs : List (QVector3D K)) (k : ℕ) : 0 ≤ arcLengthSpec M ps rs k := by
  have := arcLengthSpec_mono M hsqrt ps rs 0 k (Nat.zero_le k)
  simpa [arcLengthSpec] using this

theorem CameraStep.sessionFrame {w w2 : World K} (h : CameraStep w w2) : SessionFrame w w2 :=
  ⟨h.keyframeBegin, h.positions, h.rotations, h.table, h.targetFPS, h.targetDuration,
    h.tracking⟩

theorem SessionFrame.same (w : World K) : SessionFrame w w :=
  ⟨rfl, rfl, rfl, rfl, rfl, rfl, rfl⟩

theorem SessionFrame.chain {w w2 w3 : World K} (h1 : SessionFrame w w2)
    (h2 : SessionFrame w2 w3) : SessionFrame w w3 :=
  ⟨h2.keyframeBegin.trans h1.keyframeBegin, h2.positions.trans h1.positions,
    h2.rotations.trans h1.rotations, h2.table.trans h1.table,
    h2.targetFPS.trans h1.targetFPS, h2.targetDuration.trans h1.targetDuration,
    h2.tracking.trans h1.tracking⟩

theorem elapsed_congr {w w2 : World K} (h : SessionFrame w w2)
    (hc : w2.fractalKeyframeCurrent = w.fractalKeyframeCurrent) : elapsed w2 = elapsed w := by
  unfold elapsed
  rw [h.keyframeBegin, h.targetFPS, hc]

/-- The end of the session when the two sessions are not active together. -/
theorem finishSession_spec (w : World K)
    (hnot : ¬ (w.animateKeyframesActive = true ∧ w.previewKeyframesActive = true)) :
    (finishSession w).animateKeyframesActive = false ∧
    (finishSession w).previewKeyframesActive = false ∧
    SessionFrame w (finishSession w) ∧
    (finishSession w).fractalKeyframeCurrent = w.fractalKeyframeCurrent ∧
    (finishSession w).outputLastDrawnFrame = w.outputLastDrawnFrame ∧
    (finishSession w).savedFrames = w.savedFrames ∧
    (finishSession w).emitted = w.emitted ++
      (if w.animateKeyframesActive then [Signal.animateKeyframesFinished]
       else if w.previewKeyframesActive then [Signal.previewKeyframesFinished] else []) := by
  unfold finishSession
  cases ha : w.animateKeyframesActive <;> cases hp : w.previewKeyframesActive
  · simp [ha, hp, World.emit, SessionFrame.same]
  · simp [ha, hp, World.emit]
    exact ⟨rfl, rfl, rfl, rfl, rfl, rfl, rfl⟩
  · simp [ha, hp, World.emit]
    exact ⟨rfl, rfl, rfl, rfl, rfl, rfl, rfl⟩
  · exact absurd ⟨ha, hp⟩ hnot

/-- What a step of the session returns, when it returns. -/
theorem updateSession_partial (L : Lib K) (w w2 : World K) (h : updateSession L w = some w2) :
    ∃ w1, CameraStep w w1 ∧
      w2 = (if elapsed w > w.outputTargetDuration * 1000 then finishSession w1
        else w1.emit (Signal.statusChanged
          (Status.animatingKeyframes (elapsed w / 1000) w.outputTargetDuration))) := by
  unfold updateSession at h
  simp only [Option.bind_eq_bind, Option.bind_eq_some, Option.pure_def] at h
  obtain ⟨s, -, u, -, p, -, r, -, h⟩ := h
  have hstep : CameraStep w (setCameraRotation L r (setCameraPosition L p w)) :=
    (setCameraPosition_cameraStep L p w).trans (setCameraRotation_cameraStep L r _)
  refine ⟨_, hstep, ?_⟩
  rw [hstep.targetDuration] at h
  split_ifs at h with hgt
  · rw [if_pos hgt]
    exact (Option.some.inj h).symm
  · rw [if_neg hgt]
    exact (Option.some.inj h).symm

/-- A table for at least two waypoints has at least two entries: the counter is below 1
after one addition of `0.01f`. -/
theorem two_le_tableSize (N : ℕ) (hN : 2 ≤ N) (hmax : N ≤ 262145) : 2 ≤ tableSize N := by
  apply lt_tableSize N 1 hmax
  rw [loopCounter_one]
  omega

theorem tableSpec_head (M : CMath K) (ps rs : List (QVector3D K)) (hN : 2 ≤ ps.length)
    (hmax : ps.length ≤ 262145) :
    ∃ h : 0 < (tableSpec M ps rs).length, (tableSpec M ps rs)[0] = (0, 0) := by
  have hl := tableSpec_length M ps rs
  have hpos := tableSize_pos ps.length hN hmax
  refine ⟨by omega, ?_⟩
  have h := tableSpec_getElem? M ps rs 0 hpos
  rw [List.getElem?_eq_getElem (by omega)] at h
  have := Option.some.inj h
  rw [this]
  simp [arcLengthSpec, loopCounter, Binary32.toField_zero]

theorem tableSpec_getLast? (M : CMath K) (ps rs : List (QVector3D K)) (hN : 2 ≤ ps.length)
    (hmax : ps.length ≤ 262145) :
    (tableSpec M ps rs).getLast?
      = some (arcLengthSpec M ps rs (tableSize ps.length - 1),
          Binary32.toField (loopCounter (tableSize ps.length - 1))) := by
  have hpos := tableSize_pos ps.length hN hmax
  rw [List.getLast?_eq_getElem?, tableSpec_length, tableSpec_getElem? M _ _ _ (by omega)]

/-- The argument of `s2u` in a session over the table of `blend()`. -/
theorem arclengthArgument_eq (M : CMath K) (w : World K) (hN : 2 ≤ w.positionWaypoints.length)
    (hmax : w.positionWaypoints.length ≤ 262145)
    (htable : w.s2uTable = tableSpec M w.positionWaypoints w.rotationWaypoints) :
    arclengthArgument w = some (elapsed w *
      (arcLengthSpec M w.positionWaypoints w.rotationWaypoints
        (tableSize w.positionWaypoints.length - 1) / w.outputTargetDuration / 1000)) := by
  unfold arclengthArgument
  rw [htable, tableSpec_getLast? M _ _ hN hmax]
  rfl

theorem elapsed_nonneg (w : World K) (hcur : w.fractalKeyframeBegin ≤ w.fractalKeyframeCurrent)
    (hfps : 0 < w.outputTargetFPS) : 0 ≤ elapsed w := by
  unfold elapsed
  apply mul_nonneg
  · have : (0 : ℤ) ≤ w.fractalKeyframeCurrent - w.fractalKeyframeBegin := by omega
    exact_mod_cast this
  · exact div_nonneg (by norm_num) hfps.le

/-- A step of the session returns when the session did not begin after the current
keyframe and the targets are positive. -/
theorem updateSession_defined (L : Lib K) (hsqrt : ∀ x, 0 ≤ L.math.sqrt x) (w : World K)
    (hN : 2 ≤ w.positionWaypoints.length) (hmax : w.positionWaypoints.length ≤ 262145)
    (hle : w.positionWaypoints.length ≤ w.rotationWaypoints.length)
    (htable : w.s2uTable = tableSpec L.math w.positionWaypoints w.rotationWaypoints)
    (hcur : w.fractalKeyframeBegin ≤ w.fractalKeyframeCurrent)
    (hfps : 0 < w.outputTargetFPS) (hdur : 0 < w.outputTargetDuration) :
    ∃ w2, updateSession L w = some w2 := by
  have hs := arclengthArgument_eq L.math w hN hmax htable
  set s := elapsed w * (arcLengthSpec L.math w.positionWaypoints w.rotationWaypoints
    (tableSize w.positionWaypoints.length - 1) / w.outputTargetDuration / 1000) with hs_def
  have hs0 : 0 ≤ s := by
    apply mul_nonneg (elapsed_nonneg w hcur hfps)
    apply div_nonneg _ (by norm_num)
    exact div_nonneg (arcLengthSpec_nonneg L.math hsqrt _ _ _) hdur.le
  obtain ⟨hpos, hhead⟩ := tableSpec_head L.math w.positionWaypoints w.rotationWaypoints hN hmax
  have hlen2 : 2 ≤ w.s2uTable.length := by
    rw [htable, tableSpec_length]
    exact two_le_tableSize _ hN hmax
  obtain ⟨u, hu⟩ : ∃ u, s2u w.s2uTable s = some u := by
    apply s2u_some _ _ hlen2
    simp only [htable, hhead]
    exact hs0
  have hne : w.positionWaypoints ≠ [] := by
    intro h
    simp [h] at hN
  have hner : w.rotationWaypoints ≠ [] := by
    intro h
    rw [h, List.length_nil] at hle
    omega
  obtain ⟨p, hp⟩ := interpolatePosition_some_of_le L.math w.positionWaypoints
    w.rotationWaypoints hne hle u false
  obtain ⟨r, hr⟩ := interpolateRotation_some L.math L.quaternion w.rotationWaypoints hner u
  unfold updateSession
  rw [hs]
  simp only [Option.bind_eq_bind, Option.some_bind, hu, hp,
    (setCameraPosition_cameraStep L p w).rotations, hr, Option.pure_def]
  split_ifs <;> exact ⟨_, rfl⟩

theorem Invariant.of_same (L : Lib K) {w w2 : World K} (h : Invariant L w)
    (ha : w2.animateKeyframesActive = w.animateKeyframesActive)
    (hp : w2.previewKeyframesActive = w.previewKeyframesActive)
    (hps : w2.positionWaypoints = w.positionWaypoints)
    (hrs : w2.rotationWaypoints = w.rotationWaypoints)
    (ht : w2.s2uTable = w.s2uTable) : Invariant L w2 := by
  unfold Invariant at *
  rw [ha, hp, hps, hrs, ht]
  exact h

theorem Invariant.of_idle (L : Lib K) (w2 : World K)
    (ha : w2.animateKeyframesActive = false) (hp : w2.previewKeyframesActive = false)
    (hle : w2.positionWaypoints.length ≤ w2.rotationWaypoints.length) : Invariant L w2 := by
  unfold Invariant
  simp [ha, hp, hle]

theorem finishSession_frame (w : World K) :
    (finishSession w).animateKeyframesActive = false ∧
    (finishSession w).previewKeyframesActive = false ∧
    SessionFrame w (finishSession w) := by
  unfold finishSession
  cases ha : w.animateKeyframesActive <;> cases hp : w.previewKeyframesActive <;>
    simp [ha, hp, World.emit] <;> exact ⟨rfl, rfl, rfl, rfl, rfl, rfl, rfl⟩

theorem SessionFrame.emit {w w2 : World K} (h : SessionFrame w w2) (signal : Signal K) :
    SessionFrame w (w2.emit signal) :=
  ⟨h.keyframeBegin, h.positions, h.rotations, h.table, h.targetFPS, h.targetDuration,
    h.tracking⟩

theorem finishSession_spec_fields (w : World K) :
    (finishSession w).fractalKeyframeCurrent = w.fractalKeyframeCurrent ∧
    (finishSession w).outputLastDrawnFrame = w.outputLastDrawnFrame ∧
    (finishSession w).savedFrames = w.savedFrames := by
  unfold finishSession
  cases ha : w.animateKeyframesActive <;> cases hp : w.previewKeyframesActive <;>
    simp [ha, hp, World.emit]

/-- A call of `updatePhysics` keeps the session data, and either keeps the two flags or
clears both. -/
theorem updatePhysics_frame (L : Lib K) (cursor : ℤ × ℤ) (w w2 : World K)
    (h : updatePhysics L cursor w = some w2) :
    SessionFrame w w2 ∧ w2.fractalKeyframeCurrent = w.fractalKeyframeCurrent ∧
    w2.outputLastDrawnFrame = w.outputLastDrawnFrame ∧ w2.savedFrames = w.savedFrames ∧
    ((w2.animateKeyframesActive = w.animateKeyframesActive ∧
        w2.previewKeyframesActive = w.previewKeyframesActive) ∨
      (w2.animateKeyframesActive = false ∧ w2.previewKeyframesActive = false)) := by
  unfold updatePhysics at h
  split_ifs at h with ht ha
  · have hc := updateNavigation_cameraStep L cursor w
    rw [← Option.some.inj h]
    exact ⟨hc.sessionFrame, hc.keyframeCurrent, hc.lastDrawnFrame, hc.saved,
      Or.inl ⟨hc.animate, hc.preview⟩⟩
  · obtain ⟨w1, hc, rfl⟩ := updateSession_partial L w w2 h
    split_ifs
    · obtain ⟨h1, h2, h3⟩ := finishSession_frame w1
      have h4 := finishSession_spec_fields w1
      exact ⟨hc.sessionFrame.chain h3, h4.1.trans hc.keyframeCurrent,
        h4.2.1.trans hc.lastDrawnFrame, h4.2.2.trans hc.saved, Or.inr ⟨h1, h2⟩⟩
    · exact ⟨hc.sessionFrame.emit _, hc.keyframeCurrent, hc.lastDrawnFrame, hc.saved,
        Or.inl ⟨hc.animate, hc.preview⟩⟩
  · rw [← Option.some.inj h]
    exact ⟨SessionFrame.same w, rfl, rfl, rfl, Or.inl ⟨rfl, rfl⟩⟩

/-- What `paintGL` returns, when it returns: the state after `updatePhysics`, with the
keyframe advanced and, while animating, one more frame saved. -/
theorem paintGL_partial (L : Lib K) (cursor : ℤ × ℤ) (w w3 : World K)
    (h : paintGL L cursor w = some w3) :
    ∃ w2, updatePhysics L cursor w = some w2 ∧
      w3.animateKeyframesActive = w2.animateKeyframesActive ∧
      w3.previewKeyframesActive = w2.previewKeyframesActive ∧
      SessionFrame w2 w3 ∧
      w3.fractalKeyframeCurrent
        = Int.tmod (w2.fractalKeyframeCurrent + 1) (keyframePeriod L.math) ∧
      w3.emitted = w2.emitted ++ [Signal.fractalKeyframeChanged
        (Int.tmod (w2.fractalKeyframeCurrent + 1) (keyframePeriod L.math))] ∧
      (w2.animateKeyframesActive = true →
        w3.savedFrames = w2.savedFrames ++ [w2.outputLastDrawnFrame] ∧
        w3.outputLastDrawnFrame = w2.outputLastDrawnFrame + 1) ∧
      (w2.animateKeyframesActive = false →
        w3.savedFrames = w2.savedFrames ∧
        w3.outputLastDrawnFrame = w2.outputLastDrawnFrame) := by
  unfold paintGL at h
  simp only [Option.bind_eq_bind, Option.bind_eq_some, Option.pure_def] at h
  obtain ⟨w2, h2, h⟩ := h
  refine ⟨w2, h2, ?_⟩
  by_cases ha : w2.animateKeyframesActive = true
  · have ha2 : (updateVisuals L w2).animateKeyframesActive = true := ha
    rw [if_pos ha2] at h
    rw [← Option.some.inj h]
    exact ⟨rfl, rfl, ⟨rfl, rfl, rfl, rfl, rfl, rfl, rfl⟩, rfl, rfl,
      fun _ => ⟨rfl, rfl⟩, fun hf => absurd ha (by simp [hf])⟩
  · have ha2 : ¬ (updateVisuals L w2).animateKeyframesActive = true := ha
    rw [if_neg ha2] at h
    rw [← Option.some.inj h]
    exact ⟨rfl, rfl, ⟨rfl, rfl, rfl, rfl, rfl, rfl, rfl⟩, rfl, rfl,
      fun ht => absurd ht ha, fun _ => ⟨rfl, rfl⟩⟩

theorem idle_condition (w : World K) (ha : w.animateKeyframesActive = false)
    (hp : w.previewKeyframesActive = false) :
    (!w.animateKeyframesActive && !w.previewKeyframesActive) = true := by
  simp [ha, hp]

theorem active_condition (w : World K)
    (h : w.animateKeyframesActive = true ∨ w.previewKeyframesActive = true) :
    ¬ (!w.animateKeyframesActive && !w.previewKeyframesActive) = true := by
  rcases h with h | h <;> simp [h]

theorem active_of_not_idle (w : World K)
    (h : ¬ (w.animateKeyframesActive = false ∧ w.previewKeyframesActive = false)) :
    w.animateKeyframesActive = true ∨ w.previewKeyframesActive = true := by
  cases ha : w.animateKeyframesActive <;> cases hp : w.previewKeyframesActive <;> simp_all

theorem addWaypoint_invariant (L : Lib K) (position rotation : QVector3D K) (w : World K)
    (h : Invariant L w) : Invariant L (addWaypoint position rotation w) := by
  unfold addWaypoint
  by_cases hi : w.animateKeyframesActive = false ∧ w.previewKeyframesActive = false
  · rw [if_pos (idle_condition w hi.1 hi.2)]
    refine Invariant.of_idle L _ ?_ ?_ ?_
    · exact hi.1
    · exact hi.2
    · simp only [List.length_append, List.length_singleton]
      exact Nat.add_le_add_right h.2.1 1
  · rw [if_neg (active_condition w (active_of_not_idle w hi))]
    exact h

theorem clearWayPoints_invariant (L : Lib K) (w : World K) (h : Invariant L w) :
    Invariant L (clearWayPoints w) := by
  unfold clearWayPoints
  by_cases hi : w.animateKeyframesActive = false ∧ w.previewKeyframesActive = false
  · rw [if_pos (idle_condition w hi.1 hi.2)]
    refine Invariant.of_idle L _ ?_ ?_ ?_
    · exact hi.1
    · exact hi.2
    · exact le_refl 0
  · rw [if_neg (active_condition w (active_of_not_idle w hi))]
    exact h

/-- The effect of the Backspace key on the two lists while no session is active. -/
theorem removeLastWaypoint_idle (w : World K) (ha : w.animateKeyframesActive = false)
    (hp : w.previewKeyframesActive = false) :
    (removeLastWaypoint w).animateKeyframesActive = false ∧
    (removeLastWaypoint w).previewKeyframesActive = false ∧
    (removeLastWaypoint w).positionWaypoints = w.positionWaypoints.dropLast ∧
    (removeLastWaypoint w).rotationWaypoints
      = (if w.positionWaypoints.length ≤ 1 then w.rotationWaypoints
          else w.rotationWaypoints.dropLast) := by
  unfold removeLastWaypoint
  rw [if_pos (idle_condition w ha hp)]
  rcases hps : w.positionWaypoints with _ | ⟨a, _ | ⟨b, l⟩⟩
  · simp [hps, ha, hp]
  · simp [hps, ha, hp]
  · simp [hps, ha, hp]

theorem removeLastWaypoint_active (w : World K)
    (h : w.animateKeyframesActive = true ∨ w.previewKeyframesActive = true) :
    removeLastWaypoint w = w := by
  unfold removeLastWaypoint
  rw [if_neg (active_condition w h)]

theorem removeLastWaypoint_invariant (L : Lib K) (w : World K) (h : Invariant L w) :
    Invariant L (removeLastWaypoint w) := by
  by_cases hi : w.animateKeyframesActive = false ∧ w.previewKeyframesActive = false
  · obtain ⟨h1, h2, h3, h4⟩ := removeLastWaypoint_idle w hi.1 hi.2
    apply Invariant.of_idle L _ h1 h2
    rw [h3, h4]
    have hle := h.2.1
    split_ifs with hl
    · simp only [List.length_dropLast]
      omega
    · simp only [List.length_dropLast]
      omega
  · rw [removeLastWaypoint_active w (active_of_not_idle w hi)]
    exact h

/-- The effect of the Escape key. -/
theorem cancel_spec (w : World K)
    (hnot : ¬ (w.animateKeyframesActive = true ∧ w.previewKeyframesActive = true)) :
    (cancel w).animateKeyframesActive = false ∧
    (cancel w).previewKeyframesActive = false ∧
    (cancel w).positionWaypoints = w.positionWaypoints ∧
    (cancel w).rotationWaypoints = w.rotationWaypoints ∧
    (cancel w).s2uTable = w.s2uTable ∧
    (cancel w).emitted = w.emitted ++
      (if w.animateKeyframesActive then [Signal.animateKeyframesCancelled]
       else if w.previewKeyframesActive then [Signal.previewKeyframesCancelled] else []) := by
  unfold cancel
  cases ha : w.animateKeyframesActive <;> cases hp : w.previewKeyframesActive
  · simp [ha, hp, World.emit]
  · simp [ha, hp, World.emit]
  · simp [ha, hp, World.emit]
  · exact absurd ⟨ha, hp⟩ hnot

theorem cancel_invariant (L : Lib K) (w : World K) (h : Invariant L w) :
    Invariant L (cancel w) := by
  obtain ⟨h1, h2, h3, h4, -, -⟩ := cancel_spec w h.1
  apply Invariant.of_idle L _ h1 h2
  rw [h3, h4]
  exact h.2.1

/-- The start of a preview from the state `Idle` with at least two waypoints. -/
theorem previewKeyframes_start (L : Lib K) (w : World K)
    (ha : w.animateKeyframesActive = false) (hp : w.previewKeyframesActive = false)
    (hN : 2 ≤ w.positionWaypoints.length) (hmax : w.positionWaypoints.length ≤ 262145)
    (hle : w.positionWaypoints.length ≤ w.rotationWaypoints.length) :
    previewKeyframes L w = some { w with
      s2uTable := tableSpec L.math w.positionWaypoints w.rotationWaypoints
      fractalKeyframeBegin := w.fractalKeyframeCurrent
      previewKeyframesActive := true } := by
  have hne : w.positionWaypoints ≠ [] := by
    intro h
    simp [h] at hN
  unfold previewKeyframes
  rw [if_pos (idle_condition w ha hp), if_pos (by omega),
    blend_eq_of_le L.math w.toFractalWidget hne hle hmax]
  rfl

/-- The start of an animation from the state `Idle` with at least two waypoints. -/
theorem animateKeyframes_start (L : Lib K) (drawnFrames : List ℤ) (w : World K)
    (ha : w.animateKeyframesActive = false) (hp : w.previewKeyframesActive = false)
    (hN : 2 ≤ w.positionWaypoints.length) (hmax : w.positionWaypoints.length ≤ 262145)
    (hle : w.positionWaypoints.length ≤ w.rotationWaypoints.length) :
    animateKeyframes L drawnFrames w = some { w with
      s2uTable := tableSpec L.math w.positionWaypoints w.rotationWaypoints
      fractalKeyframeBegin := w.fractalKeyframeCurrent
      animateKeyframesActive := true
      outputLastDrawnFrame := drawnFrames.getLast?.getD 0 } := by
  have hne : w.positionWaypoints ≠ [] := by
    intro h
    simp [h] at hN
  unfold animateKeyframes
  rw [if_pos (idle_condition w ha hp), if_pos (by omega),
    blend_eq_of_le L.math w.toFractalWidget hne hle hmax]
  cases drawnFrames.getLast? <;> rfl

/-- From the state `Idle` with more than 262145 waypoints `previewKeyframes()` does not
return, because `blend()` does not. -/
theorem previewKeyframes_none (L : Lib K) (w : World K)
    (ha : w.animateKeyframesActive = false) (hp : w.previewKeyframesActive = false)
    (hN : 262146 ≤ w.positionWaypoints.length) : previewKeyframes L w = none := by
  unfold previewKeyframes
  rw [if_pos (idle_condition w ha hp), if_pos (by omega),
    blend_eq_none L.math w.toFractalWidget hN]
  rfl

/-- From the state `Idle` with more than 262145 waypoints `animateKeyframes()` does not
return, because `blend()` does not. -/
theorem animateKeyframes_none (L : Lib K) (drawnFrames : List ℤ) (w : World K)
    (ha : w.animateKeyframesActive = false) (hp : w.previewKeyframesActive = false)
    (hN : 262146 ≤ w.positionWaypoints.length) : animateKeyframes L drawnFrames w = none := by
  unfold animateKeyframes
  rw [if_pos (idle_condition w ha hp), if_pos (by omega),
    blend_eq_none L.math w.toFractalWidget hN]
  rfl

/-- A call of `previewKeyframes` with fewer than two waypoints, or during a session. -/
theorem previewKeyframes_noop (L : Lib K) (w : World K)
    (h : w.positionWaypoints.length ≤ 1 ∨ w.animateKeyframesActive = true
      ∨ w.previewKeyframesActive = true) :
    previewKeyframes L w = some w := by
  unfold previewKeyframes
  by_cases hi : w.animateKeyframesActive = false ∧ w.previewKeyframesActive = false
  · rw [if_pos (idle_condition w hi.1 hi.2)]
    rcases h with h | h | h
    · rw [if_neg (by omega)]
      rfl
    · rw [hi.1] at h
      exact absurd h (by simp)
    · rw [hi.2] at h
      exact absurd h (by simp)
  · rw [if_neg (active_condition w (active_of_not_idle w hi))]
    rfl

/-- A call of `animateKeyframes` with fewer than two waypoints from the state `Idle`:
nothing changes but `outputLastDrawnFrame`. -/
theorem animateKeyframes_few (L : Lib K) (drawnFrames : List ℤ) (w : World K)
    (ha : w.animateKeyframesActive = false) (hp : w.previewKeyframesActive = false)
    (h : w.positionWaypoints.length ≤ 1) :
    animateKeyframes L drawnFrames w
      = some { w with outputLastDrawnFrame := drawnFrames.getLast?.getD 0 } := by
  unfold animateKeyframes
  rw [if_pos (idle_condition w ha hp), if_neg (by omega)]
  cases drawnFrames.getLast? <;> rfl

theorem animateKeyframes_active (L : Lib K) (drawnFrames : List ℤ) (w : World K)
    (h : w.animateKeyframesActive = true ∨ w.previewKeyframesActive = true) :
    animateKeyframes L drawnFrames w = some w := by
  unfold animateKeyframes
  rw [if_neg (active_condition w h)]
  rfl

theorem previewKeyframes_invariant (L : Lib K) (w w2 : World K) (h : Invariant L w)
    (hs : previewKeyframes L w = some w2) : Invariant L w2 := by
  by_cases hact : w.positionWaypoints.length ≤ 1 ∨ w.animateKeyframesActive = true
      ∨ w.previewKeyframesActive = true
  · rw [previewKeyframes_noop L w hact] at hs
    rw [← Option.some.inj hs]
    exact h
  · push_neg at hact
    have ha : w.animateKeyframesActive = false := by simpa using hact.2.1
    have hp : w.previewKeyframesActive = false := by simpa using hact.2.2
    have hN : 2 ≤ w.positionWaypoints.length := by omega
    by_cases hmax : w.positionWaypoints.length ≤ 262145
    · rw [previewKeyframes_start L w ha hp hN hmax h.2.1] at hs
      rw [← Option.some.inj hs]
      refine ⟨?_, h.2.1, fun _ => ⟨⟨hN, hmax⟩, rfl⟩⟩
      simp [ha]
    · rw [previewKeyframes_none L w ha hp (by omega)] at hs
      exact Option.noConfusion hs

theorem animateKeyframes_invariant (L : Lib K) (drawnFrames : List ℤ) (w w2 : World K)
    (h : Invariant L w) (hs : animateKeyframes L drawnFrames w = some w2) :
    Invariant L w2 := by
  by_cases hact : w.animateKeyframesActive = true ∨ w.previewKeyframesActive = true
  · rw [animateKeyframes_active L drawnFrames w hact] at hs
    rw [← Option.some.inj hs]
    exact h
  · push_neg at hact
    have ha : w.animateKeyframesActive = false := by simpa using hact.1
    have hp : w.previewKeyframesActive = false := by simpa using hact.2
    by_cases hN : w.positionWaypoints.length ≤ 1
    · rw [animateKeyframes_few L drawnFrames w ha hp hN] at hs
      rw [← Option.some.inj hs]
      exact h.of_same L rfl rfl rfl rfl rfl
    · have hN2 : 2 ≤ w.positionWaypoints.length := by omega
      by_cases hmax : w.positionWaypoints.length ≤ 262145
      · rw [animateKeyframes_start L drawnFrames w ha hp hN2 hmax h.2.1] at hs
        rw [← Option.some.inj hs]
        refine ⟨?_, h.2.1, fun _ => ⟨⟨hN2, hmax⟩, rfl⟩⟩
        simp [hp]
      · rw [animateKeyframes_none L drawnFrames w ha hp (by omega)] at hs
        exact Option.noConfusion hs

theorem step_invariant (L : Lib K) (w w2 : World K) (e : Event K) (h : Invariant L w)
    (hs : step L w e = some w2) : Invariant L w2 := by
  cases e with
  | paintGL cursor =>
    obtain ⟨w1, h1, ha, hp, hf, -⟩ := paintGL_partial L cursor w w2 hs
    obtain ⟨hf1, -, -, -, hflags⟩ := updatePhysics_frame L cursor w w1 h1
    rcases hflags with ⟨ha1, hp1⟩ | ⟨ha1, hp1⟩
    · exact h.of_same L (ha.trans ha1) (hp.trans hp1) (hf.positions.trans hf1.positions)
        (hf.rotations.trans hf1.rotations) (hf.table.trans hf1.table)
    · apply Invariant.of_idle L w2 (ha.trans ha1) (hp.trans hp1)
      rw [hf.positions, hf.rotations, hf1.positions, hf1.rotations]
      exact h.2.1
  | keyPressEvent key =>
    have hs := Option.some.inj hs
    subst hs
    cases key
    case Space => exact addWaypoint_invariant L _ _ w h
    case Backspace => exact removeLastWaypoint_invariant L w h
    case Delete => exact clearWayPoints_invariant L w h
    case Escape => exact cancel_invariant L w h
    all_goals exact h.of_same L rfl rfl rfl rfl rfl
  | keyReleaseEvent key =>
    have hs := Option.some.inj hs
    subst hs
    cases key <;> exact h.of_same L rfl rfl rfl rfl rfl
  | mousePressEvent leftButton =>
    have hs := Option.some.inj hs
    subst hs
    cases leftButton <;> exact h.of_same L rfl rfl rfl rfl rfl
  | animateKeyframes drawnFrames => exact animateKeyframes_invariant L drawnFrames w w2 h hs
  | previewKeyframes => exact previewKeyframes_invariant L w w2 h hs
  | addWaypoint position rotation =>
    have hs := Option.some.inj hs
    subst hs
    exact addWaypoint_invariant L position rotation w h
  | clearWayPoints =>
    have hs := Option.some.inj hs
    subst hs
    exact clearWayPoints_invariant L w h
  | setCameraPosition value =>
    have hs := Option.some.inj hs
    subst hs
    have hc := setCameraPosition_cameraStep L value w
    exact h.of_same L hc.animate hc.preview hc.positions hc.rotations hc.table
  | setCameraRotation value =>
    have hs := Option.some.inj hs
    subst hs
    have hc := setCameraRotation_cameraStep L value w
    exact h.of_same L hc.animate hc.preview hc.positions hc.rotations hc.table
  | setFractalKeyframe value =>
    have hs := Option.some.inj hs
    subst hs
    exact h.of_same L rfl rfl rfl rfl rfl
  | setOutputResultion value =>
    have hs := Option.some.inj hs
    subst hs
    unfold setOutputResultion
    split_ifs <;> exact h.of_same L rfl rfl rfl rfl rfl
  | setOutputTargetFPS value =>
    have hs := Option.some.inj hs
    subst hs
    unfold setOutputTargetFPS
    split_ifs <;> exact h.of_same L rfl rfl rfl rfl rfl
  | setOutputTargetDuration value =>
    have hs := Option.some.inj hs
    subst hs
    unfold setOutputTargetDuration
    split_ifs <;> exact h.of_same L rfl rfl rfl rfl rfl

theorem World.initial_invariant (L : Lib K) : Invariant L (World.initial : World K) := by
  unfold Invariant World.initial FractalWidget.withWaypoints
  simp

/-- Every state the widget can be in satisfies the invariant. -/
theorem Reachable.invariant (L : Lib K) (w : World K) (h : Reachable L w) : Invariant L w := by
  induction h with
  | initial => exact World.initial_invariant L
  | step w w2 e _ hs ih => exact step_invariant L w w2 e ih hs

/-- A tick of a running session with mouse tracking off, as far as `updatePhysics` goes:
the camera moves, then the session ends with one `Finished` signal or goes on with one
progress status. -/
theorem updatePhysics_session (L : Lib K) (cursor : ℤ × ℤ) (w w2 : World K)
    (hnot : ¬ (w.animateKeyframesActive = true ∧ w.previewKeyframesActive = true))
    (hact : w.animateKeyframesActive = true ∨ w.previewKeyframesActive = true)
    (htrack : w.hasMouseTracking = false) (h : updatePhysics L cursor w = some w2) :
    SessionFrame w w2 ∧ w2.fractalKeyframeCurrent = w.fractalKeyframeCurrent ∧
    w2.outputLastDrawnFrame = w.outputLastDrawnFrame ∧ w2.savedFrames = w.savedFrames ∧
    ∃ camera : List (Signal K), (∀ signal ∈ camera, signal.isCamera = true) ∧
      (elapsed w > w.outputTargetDuration * 1000 →
        w2.animateKeyframesActive = false ∧ w2.previewKeyframesActive = false ∧
        w2.emitted = w.emitted ++ camera ++
          [if w.animateKeyframesActive then Signal.animateKeyframesFinished
            else Signal.previewKeyframesFinished]) ∧
      (¬ elapsed w > w.outputTargetDuration * 1000 →
        w2.animateKeyframesActive = w.animateKeyframesActive ∧
        w2.previewKeyframesActive = w.previewKeyframesActive ∧
        w2.emitted = w.emitted ++ camera ++
          [Signal.statusChanged
            (Status.animatingKeyframes (elapsed w / 1000) w.outputTargetDuration)]) := by
  obtain ⟨hf, hc, hl, hsv, -⟩ := updatePhysics_frame L cursor w w2 h
  refine ⟨hf, hc, hl, hsv, ?_⟩
  unfold updatePhysics at h
  rw [if_neg (by simp [htrack]), if_pos (by simpa using hact)] at h
  obtain ⟨w1, hstep, rfl⟩ := updateSession_partial L w w2 h
  obtain ⟨camera, he, hcam⟩ := hstep.signals
  refine ⟨camera, hcam, ?_, ?_⟩
  · intro hgt
    rw [if_pos hgt]
    have hnot1 : ¬ (w1.animateKeyframesActive = true ∧ w1.previewKeyframesActive = true) := by
      rw [hstep.animate, hstep.preview]
      exact hnot
    obtain ⟨h1, h2, -, -, -, -, h7⟩ := finishSession_spec w1 hnot1
    refine ⟨h1, h2, ?_⟩
    rw [h7, he, hstep.animate, hstep.preview]
    congr 1
    rcases hact with ha | hp
    · simp [ha]
    · have ha : w.animateKeyframesActive = false := by
        cases hb : w.animateKeyframesActive
        · rfl
        · exact absurd ⟨hb, hp⟩ hnot
      simp [ha, hp]
  · intro hle
    rw [if_neg hle]
    refine ⟨hstep.animate, hstep.preview, ?_⟩
    show w1.emitted ++ _ = _
    rw [he]

/-- A tick of a running session with mouse tracking off returns when the session did
not begin after the current keyframe and the targets are positive. -/
theorem updatePhysics_defined (L : Lib K) (hsqrt : ∀ x, 0 ≤ L.math.sqrt x) (cursor : ℤ × ℤ)
    (w : World K) (hinv : Invariant L w)
    (hact : w.animateKeyframesActive = true ∨ w.previewKeyframesActive = true)
    (htrack : w.hasMouseTracking = false)
    (hcur : w.fractalKeyframeBegin ≤ w.fractalKeyframeCurrent)
    (hfps : 0 < w.outputTargetFPS) (hdur : 0 < w.outputTargetDuration) :
    ∃ w2, updatePhysics L cursor w = some w2 := by
  unfold updatePhysics
  rw [if_neg (by simp [htrack]), if_pos (by simpa using hact)]
  obtain ⟨⟨hN, hmax⟩, htable⟩ := hinv.2.2 hact
  exact updateSession_defined L hsqrt w hN hmax hinv.2.1 htable hcur hfps hdur

/-- A tick that does not end the session. -/
theorem paintGL_continue (L : Lib K) (hsqrt : ∀ x, 0 ≤ L.math.sqrt x) (cursor : ℤ × ℤ)
    (w : World K) (hinv : Invariant L w)
    (hact : w.animateKeyframesActive = true ∨ w.previewKeyframesActive = true)
    (htrack : w.hasMouseTracking = false)
    (hcur : w.fractalKeyframeBegin ≤ w.fractalKeyframeCurrent)
    (hfps : 0 < w.outputTargetFPS) (hdur : 0 < w.outputTargetDuration)
    (hel : ¬ elapsed w > w.outputTargetDuration * 1000) :
    ∃ w3, paintGL L cursor w = some w3 ∧
      w3.animateKeyframesActive = w.animateKeyframesActive ∧
      w3.previewKeyframesActive = w.previewKeyframesActive ∧
      SessionFrame w w3 ∧
      w3.fractalKeyframeCurrent
        = Int.tmod (w.fractalKeyframeCurrent + 1) (keyframePeriod L.math) ∧
      (∃ new : List (Signal K), w3.emitted = w.emitted ++ new ∧
        ∀ signal ∈ new, signal.isFinished = false) ∧
      (w.animateKeyframesActive = true →
        w3.savedFrames = w.savedFrames ++ [w.outputLastDrawnFrame] ∧
        w3.outputLastDrawnFrame = w.outputLastDrawnFrame + 1) := by
  obtain ⟨w2, h2⟩ := updatePhysics_defined L hsqrt cursor w hinv hact htrack hcur hfps hdur
  obtain ⟨hf, hc, hl, hsv, camera, hcam, -, hgo⟩ :=
    updatePhysics_session L cursor w w2 hinv.1 hact htrack h2
  obtain ⟨ha2, hp2, he2⟩ := hgo hel
  have h3 : ∃ w3, paintGL L cursor w = some w3 := by
    unfold paintGL
    rw [h2]
    simp only [Option.bind_eq_bind, Option.some_bind, Option.pure_def]
    split_ifs <;> exact ⟨_, rfl⟩
  obtain ⟨w3, h3⟩ := h3
  obtain ⟨w2b, h2b, ha3, hp3, hf3, hc3, he3, hsave, -⟩ := paintGL_partial L cursor w w3 h3
  rw [h2] at h2b
  have := Option.some.inj h2b
  subst this
  refine ⟨w3, h3, ha3.trans ha2, hp3.trans hp2, hf.chain hf3, by rw [hc3, hc], ?_, ?_⟩
  · refine ⟨camera ++ [Signal.statusChanged
      (Status.animatingKeyframes (elapsed w / 1000) w.outputTargetDuration)] ++
      [Signal.fractalKeyframeChanged
        (Int.tmod (w2.fractalKeyframeCurrent + 1) (keyframePeriod L.math))], ?_, ?_⟩
    · rw [he3, he2]
      simp only [List.append_assoc]
    · intro signal hs
      simp only [List.mem_append, List.mem_singleton] at hs
      rcases hs with (hs | hs) | hs
      · have := hcam signal hs
        cases signal <;> simp_all [Signal.isCamera, Signal.isFinished]
      · rw [hs]
        rfl
      · rw [hs]
        rfl
  · intro ha
    have := hsave (ha2.trans ha)
    rw [hsv, hl] at this
    exact this

theorem Reachable.runTicks (L : Lib K) (cursors : List (ℤ × ℤ)) :
    ∀ (w w2 : World K), Reachable L w → runTicks L cursors w = some w2 → Reachable L w2 := by
  induction cursors with
  | nil =>
    intro w w2 hr h
    rw [← Option.some.inj h]
    exact hr
  | cons c cs ih =>
    intro w w2 hr h
    unfold FractalPioneer.runTicks at h
    simp only [Option.bind_eq_some] at h
    obtain ⟨w1, h1, h2⟩ := h
    exact ih w1 w2 (Reachable.step w w1 (Event.paintGL c) hr h1) h2

/-- Ticks that do not end the session: the flags and the session data stay, the keyframe
counts the ticks and no `Finished` signal is emitted. -/
theorem runTicks_continue (L : Lib K) (hsqrt : ∀ x, 0 ≤ L.math.sqrt x)
    (cursors : List (ℤ × ℤ)) :
    ∀ w : World K, Invariant L w →
      (w.animateKeyframesActive = true ∨ w.previewKeyframesActive = true) →
      w.hasMouseTracking = false →
      w.fractalKeyframeBegin ≤ w.fractalKeyframeCurrent →
      0 ≤ w.fractalKeyframeCurrent →
      w.fractalKeyframeCurrent + cursors.length < keyframePeriod L.math →
      0 < w.outputTargetFPS → 0 < w.outputTargetDuration →
      (∀ i : ℕ, i < cursors.length →
        ¬ ((w.fractalKeyframeCurrent - w.fractalKeyframeBegin + i : ℤ) : K)
            * (1000 / w.outputTargetFPS) > w.outputTargetDuration * 1000) →
      ∃ w2, runTicks L cursors w = some w2 ∧
        w2.animateKeyframesActive = w.animateKeyframesActive ∧
        w2.previewKeyframesActive = w.previewKeyframesActive ∧
        SessionFrame w w2 ∧
        w2.fractalKeyframeCurrent = w.fractalKeyframeCurrent + cursors.length ∧
        (∃ new : List (Signal K), w2.emitted = w.emitted ++ new ∧
          ∀ signal ∈ new, signal.isFinished = false) ∧
        Invariant L w2 := by
  induction cursors with
  | nil =>
    intro w hinv _ _ _ _ _ _ _ _
    exact ⟨w, rfl, rfl, rfl, SessionFrame.same w, by simp, ⟨[], by simp, by simp⟩, hinv⟩
  | cons c cs ih =>
    intro w hinv hact htrack hcur h0 hwrap hfps hdur hel
    simp only [List.length_cons, Nat.cast_add, Nat.cast_one] at hwrap
    have hel0 : ¬ elapsed w > w.outputTargetDuration * 1000 := by
      have := hel 0 (by simp)
      simpa [elapsed] using this
    obtain ⟨w1, h1, ha1, hp1, hf1, hc1, ⟨new1, he1, hn1⟩, -⟩ :=
      paintGL_continue L hsqrt c w hinv hact htrack hcur hfps hdur hel0
    have hinv1 : Invariant L w1 := step_invariant L w w1 (Event.paintGL c) hinv h1
    have hc1b : w1.fractalKeyframeCurrent = w.fractalKeyframeCurrent + 1 := by
      rw [hc1]
      exact Int.tmod_eq_of_lt (by omega) (by omega)
    obtain ⟨w2, h2, ha2, hp2, hf2, hc2, ⟨new2, he2, hn2⟩, hinv2⟩ :=
      ih w1 hinv1 (by rw [ha1, hp1]; exact hact) (hf1.tracking.trans htrack)
        (by rw [hf1.keyframeBegin, hc1b]; omega) (by rw [hc1b]; omega)
        (by rw [hc1b]; omega) (by rw [hf1.targetFPS]; exact hfps)
        (by rw [hf1.targetDuration]; exact hdur)
        (by
          intro i hi
          have := hel (i + 1) (by simp; omega)
          rw [hf1.keyframeBegin, hf1.targetFPS, hf1.targetDuration, hc1b]
          have e : (w.fractalKeyframeCurrent + 1 - w.fractalKeyframeBegin + (i : ℤ))
              = (w.fractalKeyframeCurrent - w.fractalKeyframeBegin + ((i + 1 : ℕ) : ℤ)) := by
            push_cast
            ring
          rw [e]
          exact this)
    refine ⟨w2, ?_, ha2.trans ha1, hp2.trans hp1, hf1.chain hf2, ?_, ⟨new1 ++ new2, ?_, ?_⟩,
      hinv2⟩
    · unfold runTicks
      rw [h1]
      exact h2
    · rw [hc2, hc1b]
      simp only [List.length_cons, Nat.cast_add, Nat.cast_one]
      ring
    · rw [he2, he1, List.append_assoc]
    · intro signal hs
      rcases List.mem_append.mp hs with h | h
      · exact hn1 signal h
      · exact hn2 signal h

theorem keyframePeriod_real : keyframePeriod CMath.real = 20943 := by
  unfold keyframePeriod truncToInt
  have h1 := Real.pi_gt_d6
  have h2 := Real.pi_lt_d6
  have hpos : (0 : ℝ) ≤ 2 * CMath.real.pi / 0.0003 := by
    have : (0 : ℝ) < CMath.real.pi := Real.pi_pos
    positivity
  rw [if_pos hpos, Int.floor_eq_iff]
  have hpi : CMath.real.pi = Real.pi := rfl
  rw [hpi]
  constructor
  · rw [le_div_iff₀ (by norm_num)]
    norm_num
    linarith
  · rw [div_lt_iff₀ (by norm_num)]
    norm_num
    linarith

theorem World.sample_eq :
    World.sample = { (World.initial : World ℝ) with
      positionWaypoints := [⟨0, 0, 0⟩, ⟨1, 0, 0⟩]
      rotationWaypoints := [⟨0, 0, 0⟩, ⟨0, 0, 0⟩]
      outputTargetFPS := 60
      outputTargetDuration := 2 } := by
  unfold World.sample setOutputTargetFPS setOutputTargetDuration
  rw [if_pos (by norm_num), if_pos (by norm_num)]
  rfl

theorem World.sample_max : World.sample.positionWaypoints.length ≤ 262145 := by
  rw [World.sample_eq]
  exact (by norm_num : (2 : ℕ) ≤ 262145)

theorem World.sample_reachable : Reachable Lib.sample World.sample := by
  unfold World.sample
  refine Reachable.step _ _ (Event.addWaypoint ⟨1, 0, 0⟩ ⟨0, 0, 0⟩) ?_ rfl
  refine Reachable.step _ _ (Event.addWaypoint ⟨0, 0, 0⟩ ⟨0, 0, 0⟩) ?_ rfl
  refine Reachable.step _ _ (Event.setOutputTargetDuration 2) ?_ rfl
  exact Reachable.step _ _ (Event.setOutputTargetFPS 60) Reachable.initial rfl

/-- The speed of the sample path inside its segment. -/
theorem speed_sample_pos_of (t : ℝ) (h0 : 0 < t) (h1 : t < 1) :
    0 < speed CMath.real [⟨0, 0, 0⟩, ⟨1, 0, 0⟩] [⟨0, 0, 0⟩, ⟨0, 0, 0⟩] t := by
  have h := interpolatePosition_interior_spec CMath.real [⟨0, 0, 0⟩, ⟨1, 0, 0⟩]
    [⟨0, 0, 0⟩, ⟨0, 0, 0⟩] t true (by simp) h0 (by simp; linarith)
  have hfl : ⌊t⌋ = 0 := by
    rw [Int.floor_eq_iff]
    exact ⟨by simpa using h0.le, by simpa using h1⟩
  rw [speed_of_some _ _ _ _ _ h]
  simp only [hfl, catmullRomDerivSpec, controlPointBefore, controlPointAfter,
    List.getD_cons_zero, List.getD_cons_succ, List.length_cons, List.length_nil,
    getLookDirectionFromRotation_zero, Int.toNat_zero, if_true, QVector3D.length]
  show 0 < Real.sqrt _
  apply Real.sqrt_pos.mpr
  simp
  have hx : 0 < 1 + 6 * t - 6 * t ^ 2 := by nlinarith
  nlinarith [mul_pos hx hx, sq_nonneg (2⁻¹ * (-1 + 4 * t - 3 * t ^ 2) - 2⁻¹ * (-(2 * t) + 3 * t ^ 2)),
    sq_nonneg (-1 + 4 * t - 3 * t ^ 2 + (-(2 * t) + 3 * t ^ 2))]

/-- The quadrature of the sample path over an interval inside its segment is positive. -/
theorem GL5_sample_pos (a b : ℝ) (h0 : 0 ≤ a) (hab : a < b) (h1 : b ≤ 1) :
    0 < GL5 CMath.real [⟨0, 0, 0⟩, ⟨1, 0, 0⟩] [⟨0, 0, 0⟩, ⟨0, 0, 0⟩] a b := by
  have hnn := speed_nonneg CMath.real Real.sqrt_nonneg [⟨0, 0, 0⟩, ⟨1, 0, 0⟩]
    [⟨0, 0, 0⟩, ⟨0, 0, 0⟩]
  unfold GL5
  simp only [coefficients, List.map_cons, List.map_nil, List.sum_cons, List.sum_nil]
  refine mul_pos (by linarith) (add_pos_of_pos_of_nonneg
    (mul_pos (by norm_num) (speed_sample_pos_of _ (by linarith) (by linarith)))
    (add_nonneg (mul_nonneg (by norm_num) (hnn _))
      (add_nonneg (mul_nonneg (by norm_num) (hnn _))
        (add_nonneg (mul_nonneg (by norm_num) (hnn _))
          (add_nonneg (mul_nonneg (by norm_num) (hnn _)) le_rfl)))))

/-- The first hundred steps of the counter stay below 1. -/
theorem loopCounter_lt_one (j : ℕ) (hj : j ≤ 100) : loopCounter j < 2 ^ 30 := by
  have h := loopCounter_mono hj
  rw [loopCounter_100] at h
  omega

/-- The quadrature of the sample path over one step of the table is positive. -/
theorem GL5_sample_step (j : ℕ) (hj : j < 100) :
    0 < GL5 CMath.real [⟨0, 0, 0⟩, ⟨1, 0, 0⟩] [⟨0, 0, 0⟩, ⟨0, 0, 0⟩]
      (Binary32.toField (loopCounter j)) (Binary32.toField (loopCounter (j + 1))) := by
  have h1 := loopCounter_lt_one j (by omega)
  have h2 := loopCounter_lt_one (j + 1) (by omega)
  refine GL5_sample_pos _ _ (Binary32.toField_nonneg _)
    (Binary32.toField_lt _ _ (loopCounter_lt_succ j (by omega))) ?_
  have h3 := Binary32.toField_le (K := ℝ) _ _ h2.le
  have e : (Binary32.toField (2 ^ 30) : ℝ) = 1 := by norm_num [Binary32.toField]
  rw [e] at h3
  exact h3

/-- The total arc length of the sample path is positive. -/
theorem arcLengthSpec_sample_pos (k : ℕ) (hk : 1 ≤ k) :
    0 < arcLengthSpec CMath.real [⟨0, 0, 0⟩, ⟨1, 0, 0⟩] [⟨0, 0, 0⟩, ⟨0, 0, 0⟩] k := by
  have hmono := arcLengthSpec_mono CMath.real Real.sqrt_nonneg [⟨0, 0, 0⟩, ⟨1, 0, 0⟩]
    [⟨0, 0, 0⟩, ⟨0, 0, 0⟩] 1 k hk
  refine lt_of_lt_of_le ?_ hmono
  unfold arcLengthSpec
  rw [Finset.sum_range_one]
  exact GL5_sample_step 0 (by norm_num)

/-! ## The transitions of the playback controller -/

/-- C14, amended. From a state the widget can be in that is Idle and has at least two
and at most 262145 waypoints, `previewKeyframes()` returns in the state Previewing and
`animateKeyframes()` in the state Animating. In both results `fractalKeyframeBegin` is
the current keyframe, the table is the one that `blend()` builds from the waypoints of
the call, and the two waypoint lists are the ones of the call. -/
theorem session_start (L : Lib K) (drawnFrames : List ℤ) (w : World K)
    (hreach : Reachable L w) (hidle : w.idle) (hN : 2 ≤ w.positionWaypoints.length)
    (hmax : w.positionWaypoints.length ≤ 262145) :
    ∃ wp wa blended, previewKeyframes L w = some wp ∧
      animateKeyframes L drawnFrames w = some wa ∧
      blend L.math w.toFractalWidget = some blended ∧
      wp.previewing ∧ wa.animating ∧
      wp.fractalKeyframeBegin = w.fractalKeyframeCurrent ∧
      wa.fractalKeyframeBegin = w.fractalKeyframeCurrent ∧
      wp.fractalKeyframeCurrent = w.fractalKeyframeCurrent ∧
      wa.fractalKeyframeCurrent = w.fractalKeyframeCurrent ∧
      wp.s2uTable = blended.s2uTable ∧ wa.s2uTable = blended.s2uTable ∧
      wp.positionWaypoints = w.positionWaypoints ∧
      wp.rotationWaypoints = w.rotationWaypoints ∧
      wa.positionWaypoints = w.positionWaypoints ∧
      wa.rotationWaypoints = w.rotationWaypoints := by
  have hle := (Reachable.invariant L w hreach).2.1
  have hne : w.positionWaypoints ≠ [] := by
    intro h
    rw [h, List.length_nil] at hN
    omega
  refine ⟨_, _, _, previewKeyframes_start L w hidle.1 hidle.2 hN hmax hle,
    animateKeyframes_start L drawnFrames w hidle.1 hidle.2 hN hmax hle,
    blend_eq_of_le L.math w.toFractalWidget hne hle hmax, ⟨hidle.1, rfl⟩, ⟨rfl, hidle.2⟩,
    rfl, rfl, rfl, rfl, rfl, rfl, rfl, rfl, rfl, rfl⟩

/-- Witness of the amended C14: the sample state, which has two waypoints, and a
directory with the frames `0.png` and `1.png`. -/
theorem session_start_witness :
    Reachable Lib.sample World.sample ∧ World.sample.idle ∧
    2 ≤ World.sample.positionWaypoints.length ∧
    World.sample.positionWaypoints.length ≤ 262145 ∧
    ∃ wp wa blended, previewKeyframes Lib.sample World.sample = some wp ∧
      animateKeyframes Lib.sample [1, 0] World.sample = some wa ∧
      blend Lib.sample.math World.sample.toFractalWidget = some blended ∧
      wp.previewing ∧ wa.animating ∧
      wp.fractalKeyframeBegin = World.sample.fractalKeyframeCurrent ∧
      wa.fractalKeyframeBegin = World.sample.fractalKeyframeCurrent ∧
      wp.fractalKeyframeCurrent = World.sample.fractalKeyframeCurrent ∧
      wa.fractalKeyframeCurrent = World.sample.fractalKeyframeCurrent ∧
      wp.s2uTable = blended.s2uTable ∧ wa.s2uTable = blended.s2uTable ∧
      wp.positionWaypoints = World.sample.positionWaypoints ∧
      wp.rotationWaypoints = World.sample.rotationWaypoints ∧
      wa.positionWaypoints = World.sample.positionWaypoints ∧
      wa.rotationWaypoints = World.sample.rotationWaypoints :=
  ⟨World.sample_reachable, by rw [World.sample_eq]; exact ⟨rfl, rfl⟩,
    by rw [World.sample_eq]; exact le_rfl,
    World.sample_max,
    session_start Lib.sample [1, 0] World.sample World.sample_reachable
      (by rw [World.sample_eq]; exact ⟨rfl, rfl⟩) (by rw [World.sample_eq]; exact le_rfl)
      World.sample_max⟩

theorem World.sample_fields :
    World.sample.idle ∧ World.sample.positionWaypoints.length = 2 ∧
    World.sample.outputTargetDuration = 2 ∧ World.sample.outputTargetFPS = 60 ∧
    World.sample.hasMouseTracking = false ∧ World.sample.fractalKeyframeCurrent = 0 ∧
    World.sample.emitted = [] ∧ World.sample.savedFrames = [] := by
  rw [World.sample_eq]
  exact ⟨⟨rfl, rfl⟩, rfl, rfl, rfl, rfl, rfl, rfl, rfl⟩

theorem addWaypoint_idle (position rotation : QVector3D K) (w : World K) (h : w.idle) :
    (addWaypoint position rotation w).idle ∧
    (addWaypoint position rotation w).positionWaypoints.length
      = w.positionWaypoints.length + 1 ∧
    (addWaypoint position rotation w).outputTargetDuration = w.outputTargetDuration ∧
    (addWaypoint position rotation w).outputTargetFPS = w.outputTargetFPS ∧
    (addWaypoint position rotation w).hasMouseTracking = w.hasMouseTracking ∧
    (addWaypoint position rotation w).fractalKeyframeCurrent = w.fractalKeyframeCurrent := by
  unfold addWaypoint
  rw [if_pos (idle_condition _ h.1 h.2)]
  refine ⟨h, ?_, rfl, rfl, rfl, rfl⟩
  show (w.positionWaypoints ++ [position]).length = _
  rw [List.length_append]
  rfl

/-- A state the widget can be in that is Idle, after `n` further recorded waypoints: it
is a state the widget can be in, is Idle, has `n` more waypoints and the same targets. -/
theorem addWaypoint_iterate (L : Lib K) (position rotation : QVector3D K) (w : World K)
    (hreach : Reachable L w) (hidle : w.idle) (n : ℕ) :
    Reachable L ((addWaypoint position rotation)^[n] w) ∧
    World.idle ((addWaypoint position rotation)^[n] w) ∧
    ((addWaypoint position rotation)^[n] w).positionWaypoints.length
      = w.positionWaypoints.length + n ∧
    ((addWaypoint position rotation)^[n] w).outputTargetDuration = w.outputTargetDuration ∧
    ((addWaypoint position rotation)^[n] w).outputTargetFPS = w.outputTargetFPS ∧
    ((addWaypoint position rotation)^[n] w).hasMouseTracking = w.hasMouseTracking ∧
    ((addWaypoint position rotation)^[n] w).fractalKeyframeCurrent
      = w.fractalKeyframeCurrent := by
  induction n with
  | zero => exact ⟨hreach, hidle, rfl, rfl, rfl, rfl, rfl⟩
  | succ n ih =>
    obtain ⟨h1, h2, h3, h4, h5, h6, h7⟩ := ih
    rw [Function.iterate_succ_apply']
    obtain ⟨g2, g3, g4, g5, g6, g7⟩ := addWaypoint_idle position rotation _ h2
    exact ⟨Reachable.step _ _ (Event.addWaypoint position rotation) h1 rfl, g2,
      g3.trans (by rw [h3, Nat.add_assoc]), g4.trans h4, g5.trans h5, g6.trans h6,
      g7.trans h7⟩

/-- The state with 262146 waypoints is a state the widget can be in; it is Idle and has
the targets of the sample state. -/
theorem World.crowded_spec :
    Reachable Lib.sample World.crowded ∧ World.crowded.idle ∧
    World.crowded.positionWaypoints.length = 262146 ∧
    World.crowded.outputTargetDuration = 2 ∧ World.crowded.outputTargetFPS = 60 ∧
    World.crowded.hasMouseTracking = false ∧ World.crowded.fractalKeyframeCurrent = 0 := by
  obtain ⟨f1, f2, f3, f4, f5, f6, -, -⟩ := World.sample_fields
  have h := addWaypoint_iterate Lib.sample ⟨0, 0, 0⟩ ⟨0, 0, 0⟩ World.sample
    World.sample_reachable f1 262144
  unfold World.crowded
  exact ⟨h.1, h.2.1, h.2.2.1.trans (by rw [f2]), h.2.2.2.1.trans f3, h.2.2.2.2.1.trans f4,
    h.2.2.2.2.2.1.trans f5, h.2.2.2.2.2.2.trans f6⟩

/-- C14 fails as stated. The state with 262146 recorded waypoints is a state the widget
can be in, is Idle and has more than two waypoints, and neither `previewKeyframes()` nor
`animateKeyframes()` returns from it: the binary32 counter of `blend()` reaches
`2^18 = 262144`, where the addition of `0.01f` leaves it, below `size - 1 = 262145`, and
the loop does not end. -/
theorem session_start_never_returns :
    Reachable Lib.sample World.crowded ∧ World.crowded.idle ∧
    World.crowded.positionWaypoints.length = 262146 ∧
    previewKeyframes Lib.sample World.crowded = none ∧
    animateKeyframes Lib.sample [] World.crowded = none ∧
    Binary32.add (2 ^ 48) Binary32.hundredth = 2 ^ 48 ∧
    (Binary32.toField (2 ^ 48) : ℝ) = 262144 :=
  ⟨World.crowded_spec.1, World.crowded_spec.2.1, World.crowded_spec.2.2.1,
    previewKeyframes_none Lib.sample World.crowded World.crowded_spec.2.1.1
      World.crowded_spec.2.1.2 (le_of_eq World.crowded_spec.2.2.1.symm),
    animateKeyframes_none Lib.sample [] World.crowded World.crowded_spec.2.1.1
      World.crowded_spec.2.1.2 (le_of_eq World.crowded_spec.2.2.1.symm),
    Binary32.add_hundredth_stall, by norm_num [Binary32.toField]⟩

/-- C15. From the state Idle with at most one waypoint, `previewKeyframes()` returns the
state it was called in, and `animateKeyframes()` returns a state that is Idle and has the
same emitted signals (no signal is emitted), the same table, the same
`fractalKeyframeBegin` and the same waypoints. -/
theorem session_not_started (L : Lib K) (drawnFrames : List ℤ) (w : World K)
    (hidle : w.idle) (hN : w.positionWaypoints.length ≤ 1) :
    previewKeyframes L w = some w ∧
    ∃ wa, animateKeyframes L drawnFrames w = some wa ∧ wa.idle ∧
      wa.emitted = w.emitted ∧ wa.s2uTable = w.s2uTable ∧
      wa.fractalKeyframeBegin = w.fractalKeyframeBegin ∧
      wa.positionWaypoints = w.positionWaypoints ∧
      wa.rotationWaypoints = w.rotationWaypoints :=
  ⟨previewKeyframes_noop L w (Or.inl hN), _,
    animateKeyframes_few L drawnFrames w hidle.1 hidle.2 hN, hidle, rfl, rfl, rfl, rfl, rfl⟩

/-- Witness of C15: the state after the construction and one recorded waypoint. -/
theorem session_not_started_witness :
    (addWaypoint ⟨1, 2, 3⟩ ⟨0, 0, 0⟩ (World.initial : World ℚ)).idle ∧
    (addWaypoint ⟨1, 2, 3⟩ ⟨0, 0, 0⟩ (World.initial : World ℚ)).positionWaypoints.length ≤ 1 ∧
    ∀ L : Lib ℚ,
      previewKeyframes L (addWaypoint ⟨1, 2, 3⟩ ⟨0, 0, 0⟩ World.initial)
        = some (addWaypoint ⟨1, 2, 3⟩ ⟨0, 0, 0⟩ World.initial) ∧
      ∃ wa, animateKeyframes L [] (addWaypoint ⟨1, 2, 3⟩ ⟨0, 0, 0⟩ World.initial) = some wa ∧
        wa.idle ∧
        wa.emitted = (addWaypoint ⟨1, 2, 3⟩ ⟨0, 0, 0⟩ (World.initial : World ℚ)).emitted ∧
        wa.s2uTable = (addWaypoint ⟨1, 2, 3⟩ ⟨0, 0, 0⟩ (World.initial : World ℚ)).s2uTable ∧
        wa.fractalKeyframeBegin
          = (addWaypoint ⟨1, 2, 3⟩ ⟨0, 0, 0⟩ (World.initial : World ℚ)).fractalKeyframeBegin ∧
        wa.positionWaypoints
          = (addWaypoint ⟨1, 2, 3⟩ ⟨0, 0, 0⟩ (World.initial : World ℚ)).positionWaypoints ∧
        wa.rotationWaypoints
          = (addWaypoint ⟨1, 2, 3⟩ ⟨0, 0, 0⟩ (World.initial : World ℚ)).rotationWaypoints :=
  ⟨⟨rfl, rfl⟩, by decide, fun L =>
    session_not_started L [] (addWaypoint ⟨1, 2, 3⟩ ⟨0, 0, 0⟩ World.initial) ⟨rfl, rfl⟩
      (by decide)⟩

/-- C18. In every state the widget can be in, which is Animating, Previewing or Idle,
the Escape key leads to the state Idle. From Animating it emits the one signal
`animateKeyframesCancelled`, from Previewing the one signal `previewKeyframesCancelled`,
whatever the keyframes of the session are, and from Idle it emits nothing. -/
theorem escape_cancels (L : Lib K) (w : World K) (hreach : Reachable L w) :
    (w.animating ∨ w.previewing ∨ w.idle) ∧
    (keyPressEvent Key.Escape w).idle ∧
    (w.animating → (keyPressEvent Key.Escape w).emitted
      = w.emitted ++ [Signal.animateKeyframesCancelled]) ∧
    (w.previewing → (keyPressEvent Key.Escape w).emitted
      = w.emitted ++ [Signal.previewKeyframesCancelled]) ∧
    (w.idle → (keyPressEvent Key.Escape w).emitted = w.emitted) := by
  have hnot := (Reachable.invariant L w hreach).1
  obtain ⟨h1, h2, -, -, -, h6⟩ := cancel_spec w hnot
  refine ⟨?_, ⟨h1, h2⟩, ?_, ?_, ?_⟩
  · unfold World.animating World.previewing World.idle
    cases ha : w.animateKeyframesActive <;> cases hp : w.previewKeyframesActive <;> simp
    exact hnot ⟨ha, hp⟩
  · intro h
    show (cancel w).emitted = _
    rw [h6, h.1]
    rfl
  · intro h
    show (cancel w).emitted = _
    rw [h6, h.1, h.2]
    rfl
  · intro h
    show (cancel w).emitted = _
    rw [h6, h.1, h.2]
    simp

/-- Witness of C18: the Escape key in the preview of the sample path. -/
theorem escape_cancels_witness :
    ∃ w, previewKeyframes Lib.sample World.sample = some w ∧ Reachable Lib.sample w ∧
      w.previewing ∧ (keyPressEvent Key.Escape w).idle ∧
      (keyPressEvent Key.Escape w).emitted = [Signal.previewKeyframesCancelled] := by
  have hidle : World.sample.idle := by rw [World.sample_eq]; exact ⟨rfl, rfl⟩
  have hN : 2 ≤ World.sample.positionWaypoints.length := by rw [World.sample_eq]; exact le_rfl
  have hle := (Reachable.invariant Lib.sample _ World.sample_reachable).2.1
  have hstart := previewKeyframes_start Lib.sample World.sample hidle.1 hidle.2 hN World.sample_max hle
  have hreach := Reachable.step _ _ Event.previewKeyframes World.sample_reachable hstart
  have hprev : World.previewing ({ World.sample with
      s2uTable := tableSpec Lib.sample.math World.sample.positionWaypoints
        World.sample.rotationWaypoints
      fractalKeyframeBegin := World.sample.fractalKeyframeCurrent
      previewKeyframesActive := true } : World ℝ) := ⟨hidle.1, rfl⟩
  have h := escape_cancels Lib.sample _ hreach
  refine ⟨_, hstart, hreach, hprev, h.2.1, ?_⟩
  rw [h.2.2.2.1 hprev]
  show World.sample.emitted ++ _ = _
  rw [World.sample_eq]
  rfl

/-- C20 at a failing input. After the construction, one recorded waypoint and the
Backspace key, the widget has no position waypoint and one rotation waypoint: the
second test of the Backspace case, line 612, asks again whether `positionWaypoints` is
empty, after the position was removed. -/
theorem backspace_keeps_rotation (L : Lib K) (position rotation : QVector3D K) :
    Reachable L (keyPressEvent Key.Backspace (addWaypoint position rotation World.initial)) ∧
    (addWaypoint position rotation (World.initial : World K)).positionWaypoints = [position] ∧
    (addWaypoint position rotation (World.initial : World K)).rotationWaypoints = [rotation] ∧
    (keyPressEvent Key.Backspace
      (addWaypoint position rotation (World.initial : World K))).positionWaypoints = [] ∧
    (keyPressEvent Key.Backspace
      (addWaypoint position rotation (World.initial : World K))).rotationWaypoints
        = [rotation] ∧
    (keyPressEvent Key.Backspace
      (addWaypoint position rotation (World.initial : World K))).positionWaypoints.length
      ≠ (keyPressEvent Key.Backspace
      (addWaypoint position rotation (World.initial : World K))).rotationWaypoints.length := by
  refine ⟨?_, rfl, rfl, rfl, rfl, ?_⟩
  · refine Reachable.step _ _ (Event.keyPressEvent Key.Backspace) ?_ rfl
    exact Reachable.step _ _ (Event.addWaypoint position rotation) Reachable.initial rfl
  · show ([] : List (QVector3D K)).length ≠ [rotation].length
    simp

/-! ## Sessions of two seconds at 60 frames per second -/

/-- The first 121 ticks of a session of 2 seconds at 60 frames per second do not end
it. -/
theorem session_ticks_continue (L : Lib K) (hsqrt : ∀ x, 0 ≤ L.math.sqrt x)
    (cursors : List (ℤ × ℤ)) (w : World K) (hinv : Invariant L w)
    (hact : w.animateKeyframesActive = true ∨ w.previewKeyframesActive = true)
    (htrack : w.hasMouseTracking = false)
    (hbegin : w.fractalKeyframeBegin = w.fractalKeyframeCurrent)
    (hcur : 0 ≤ w.fractalKeyframeCurrent)
    (hwrap : w.fractalKeyframeCurrent + cursors.length < keyframePeriod L.math)
    (hfps : w.outputTargetFPS = 60) (hdur : w.outputTargetDuration = 2)
    (hlen : cursors.length ≤ 121) :
    ∃ w2, runTicks L cursors w = some w2 ∧
      w2.animateKeyframesActive = w.animateKeyframesActive ∧
      w2.previewKeyframesActive = w.previewKeyframesActive ∧
      SessionFrame w w2 ∧
      w2.fractalKeyframeCurrent = w.fractalKeyframeCurrent + cursors.length ∧
      (∃ new : List (Signal K), w2.emitted = w.emitted ++ new ∧
        ∀ signal ∈ new, signal.isFinished = false) ∧
      Invariant L w2 := by
  refine runTicks_continue L hsqrt cursors w hinv hact htrack hbegin.le hcur hwrap
    (by rw [hfps]; norm_num) (by rw [hdur]; norm_num) ?_
  intro i hi
  rw [hbegin, hfps, hdur, sub_self, zero_add, Int.cast_natCast, not_lt]
  have h120 : (i : K) ≤ 120 := by
    have : i ≤ 120 := by omega
    exact_mod_cast this
  linarith

theorem runTicks_singleton (L : Lib K) (cursor : ℤ × ℤ) (w : World K) :
    runTicks L [cursor] w = paintGL L cursor w := by
  unfold runTicks
  cases paintGL L cursor w <;> rfl

/-- The first frame that an animation saves has the number of the last file of the
listing. -/
theorem first_saved_frame (L : Lib K) (hsqrt : ∀ x, 0 ≤ L.math.sqrt x)
    (drawnFrames : List ℤ) (cursor : ℤ × ℤ) (w : World K)
    (hle : w.positionWaypoints.length ≤ w.rotationWaypoints.length)
    (ha : w.animateKeyframesActive = false) (hp : w.previewKeyframesActive = false)
    (hN : 2 ≤ w.positionWaypoints.length) (hmax : w.positionWaypoints.length ≤ 262145)
    (htrack : w.hasMouseTracking = false)
    (hfps : 0 < w.outputTargetFPS) (hdur : 0 < w.outputTargetDuration) :
    ∃ w1 w2, animateKeyframes L drawnFrames w = some w1 ∧ paintGL L cursor w1 = some w2 ∧
      w2.animateKeyframesActive = true ∧
      w2.savedFrames = w.savedFrames ++ [drawnFrames.getLast?.getD 0] := by
  have hstart := animateKeyframes_start L drawnFrames w ha hp hN hmax hle
  have hinv : Invariant L ({ w with
      s2uTable := tableSpec L.math w.positionWaypoints w.rotationWaypoints
      fractalKeyframeBegin := w.fractalKeyframeCurrent
      animateKeyframesActive := true
      outputLastDrawnFrame := drawnFrames.getLast?.getD 0 } : World K) :=
    ⟨fun h => Bool.false_ne_true (hp.symm.trans h.2), hle, fun _ => ⟨⟨hN, hmax⟩, rfl⟩⟩
  obtain ⟨w3, h1, h2, -, -, -, -, h7⟩ := paintGL_continue L hsqrt cursor _ hinv (Or.inl rfl)
    htrack (le_refl w.fractalKeyframeCurrent) hfps hdur (by
      unfold elapsed
      show ¬ ((w.fractalKeyframeCurrent - w.fractalKeyframeCurrent : ℤ) : K)
        * (1000 / w.outputTargetFPS) > w.outputTargetDuration * 1000
      rw [sub_self, Int.cast_zero, zero_mul, not_lt]
      positivity)
  exact ⟨_, w3, hstart, h1, h2, (h7 rfl).1⟩

/-- C19 at a failing input. The output directory holds `0.png` .. `9.png`. Listed from
the newest to the oldest file, the order of `QDir::Time`, the first frame that
`animateKeyframes()` and one tick save is `0.png`; listed in the opposite order it is
`9.png`. In both cases it is a file of the directory, and not `10.png`. -/
theorem first_frame_overwrites :
    (∃ w1 w2, animateKeyframes Lib.sample [9, 8, 7, 6, 5, 4, 3, 2, 1, 0] World.sample = some w1 ∧
      paintGL Lib.sample (0, 0) w1 = some w2 ∧ w2.animating ∧ w2.savedFrames = [0]) ∧
    (∃ w1 w2, animateKeyframes Lib.sample [0, 1, 2, 3, 4, 5, 6, 7, 8, 9] World.sample = some w1 ∧
      paintGL Lib.sample (0, 0) w1 = some w2 ∧ w2.animating ∧ w2.savedFrames = [9]) := by
  obtain ⟨f1, f2, f3, f4, f5, -, -, f8⟩ := World.sample_fields
  have hle := (Reachable.invariant Lib.sample _ World.sample_reachable).2.1
  constructor
  · obtain ⟨w1, w2, h1, h2, h3, h4⟩ := first_saved_frame Lib.sample Real.sqrt_nonneg
      [9, 8, 7, 6, 5, 4, 3, 2, 1, 0] (0, 0) World.sample hle f1.1 f1.2 (by rw [f2])
      World.sample_max f5 (by rw [f4]; norm_num) (by rw [f3]; norm_num)
    have hr := Reachable.step _ _ (Event.paintGL (0, 0))
      (Reachable.step _ _ (Event.animateKeyframes [9, 8, 7, 6, 5, 4, 3, 2, 1, 0]) World.sample_reachable h1) h2
    have hnot := (Reachable.invariant Lib.sample _ hr).1
    refine ⟨w1, w2, h1, h2, ⟨h3, ?_⟩, ?_⟩
    · cases hp : w2.previewKeyframesActive
      · rfl
      · exact absurd ⟨h3, hp⟩ hnot
    · rw [h4, f8]
      rfl
  · obtain ⟨w1, w2, h1, h2, h3, h4⟩ := first_saved_frame Lib.sample Real.sqrt_nonneg
      [0, 1, 2, 3, 4, 5, 6, 7, 8, 9] (0, 0) World.sample hle f1.1 f1.2 (by rw [f2])
      World.sample_max f5 (by rw [f4]; norm_num) (by rw [f3]; norm_num)
    have hr := Reachable.step _ _ (Event.paintGL (0, 0))
      (Reachable.step _ _ (Event.animateKeyframes [0, 1, 2, 3, 4, 5, 6, 7, 8, 9]) World.sample_reachable h1) h2
    have hnot := (Reachable.invariant Lib.sample _ hr).1
    refine ⟨w1, w2, h1, h2, ⟨h3, ?_⟩, ?_⟩
    · cases hp : w2.previewKeyframesActive
      · rfl
      · exact absurd ⟨h3, hp⟩ hnot
    · rw [h4, f8]
      rfl

/-! ## The arc length that a tick asks for -/

/-- C13, amended. In every state the widget can be in during a session, with a positive
target FPS and a positive target duration, with `fractalKeyframeBegin` not above
`fractalKeyframeCurrent` and with `elapsed` not above `outputTargetDuration * 1000` (the
tick does not end the session), the arc length that the tick passes to `s2u` lies
between the arc lengths of the first and of the last entry of the table. -/
theorem arclength_argument_in_range (L : Lib K) (hsqrt : ∀ x, 0 ≤ L.math.sqrt x)
    (w : World K) (hreach : Reachable L w)
    (hact : w.animateKeyframesActive = true ∨ w.previewKeyframesActive = true)
    (hfps : 0 < w.outputTargetFPS) (hdur : 0 < w.outputTargetDuration)
    (hcur : w.fractalKeyframeBegin ≤ w.fractalKeyframeCurrent)
    (hel : elapsed w ≤ w.outputTargetDuration * 1000) :
    ∃ s first last, arclengthArgument w = some s ∧ w.s2uTable.head? = some first ∧
      w.s2uTable.getLast? = some last ∧ first.1 ≤ s ∧ s ≤ last.1 := by
  obtain ⟨-, -, hinv⟩ := Reachable.invariant L w hreach
  obtain ⟨⟨hN, hmax⟩, htable⟩ := hinv hact
  obtain ⟨hpos, hhead⟩ := tableSpec_head L.math w.positionWaypoints w.rotationWaypoints hN hmax
  have hlast := tableSpec_getLast? L.math w.positionWaypoints w.rotationWaypoints hN hmax
  have harc := arcLengthSpec_nonneg L.math hsqrt w.positionWaypoints w.rotationWaypoints
    (tableSize w.positionWaypoints.length - 1)
  have he := elapsed_nonneg w hcur hfps
  refine ⟨_, (0, 0), (arcLengthSpec L.math w.positionWaypoints w.rotationWaypoints
    (tableSize w.positionWaypoints.length - 1),
      Binary32.toField (loopCounter (tableSize w.positionWaypoints.length - 1))),
    arclengthArgument_eq L.math w hN hmax htable, ?_, ?_, ?_, ?_⟩
  · rw [htable, List.head?_eq_getElem?, List.getElem?_eq_getElem hpos, hhead]
  · rw [htable, hlast]
  · show (0 : K) ≤ _
    positivity
  · show _ ≤ arcLengthSpec L.math w.positionWaypoints w.rotationWaypoints
      (tableSize w.positionWaypoints.length - 1)
    rw [div_div, ← mul_div_assoc, div_le_iff₀ (by positivity)]
    rw [mul_comm]
    exact mul_le_mul_of_nonneg_left hel harc

/-- The preview of the sample path after `n` ticks, for `n` up to 121. -/
theorem sample_preview_ticks (n : ℕ) (hn : n ≤ 121) :
    ∃ w0 w1, previewKeyframes Lib.sample World.sample = some w0 ∧
      runTicks Lib.sample (List.replicate n (0, 0)) w0 = some w1 ∧
      Reachable Lib.sample w1 ∧ w1.previewing ∧ w1.hasMouseTracking = false ∧
      w1.outputTargetFPS = 60 ∧ w1.outputTargetDuration = 2 ∧
      w1.fractalKeyframeBegin = 0 ∧ w1.fractalKeyframeCurrent = n ∧
      w1.positionWaypoints = [⟨0, 0, 0⟩, ⟨1, 0, 0⟩] ∧
      w1.rotationWaypoints = [⟨0, 0, 0⟩, ⟨0, 0, 0⟩] := by
  obtain ⟨f1, f2, f3, f4, f5, f6, -, -⟩ := World.sample_fields
  have hle := (Reachable.invariant Lib.sample _ World.sample_reachable).2.1
  have hstart := previewKeyframes_start Lib.sample World.sample f1.1 f1.2 (by rw [f2]) World.sample_max hle
  have hreach0 := Reachable.step _ _ Event.previewKeyframes World.sample_reachable hstart
  have hinv0 := Reachable.invariant Lib.sample _ hreach0
  obtain ⟨w1, h1, h2, h3, h4, h5, -, -⟩ :=
    session_ticks_continue Lib.sample Real.sqrt_nonneg (List.replicate n (0, 0)) _
      hinv0 (Or.inr rfl) f5 rfl (by show (0 : ℤ) ≤ World.sample.fractalKeyframeCurrent; rw [f6])
      (by
        show World.sample.fractalKeyframeCurrent + _ < keyframePeriod CMath.real
        rw [f6, keyframePeriod_real, List.length_replicate]
        omega)
      f4 f3 (by simpa using hn)
  refine ⟨_, w1, hstart, h1, Reachable.runTicks Lib.sample _ _ w1 hreach0 h1,
    ⟨h2.trans f1.1, h3⟩, h4.tracking.trans f5, h4.targetFPS.trans f4,
    h4.targetDuration.trans f3, h4.keyframeBegin.trans f6, ?_, ?_, ?_⟩
  · rw [h5, List.length_replicate]
    show World.sample.fractalKeyframeCurrent + _ = _
    rw [f6, zero_add]
  · rw [h4.positions]
    show World.sample.positionWaypoints = _
    rw [World.sample_eq]
  · rw [h4.rotations]
    show World.sample.rotationWaypoints = _
    rw [World.sample_eq]

/-- Witness of C13: the tick number 61 of the preview of the sample path. -/
theorem arclength_argument_in_range_witness :
    ∃ w0 w, previewKeyframes Lib.sample World.sample = some w0 ∧
      runTicks Lib.sample (List.replicate 60 (0, 0)) w0 = some w ∧
      ∃ s first last, arclengthArgument w = some s ∧ w.s2uTable.head? = some first ∧
        w.s2uTable.getLast? = some last ∧ first.1 ≤ s ∧ s ≤ last.1 := by
  obtain ⟨w0, w, h1, h2, hreach, hprev, -, hfps, hdur, hbegin, hcur, -, -⟩ :=
    sample_preview_ticks 60 (by norm_num)
  exact ⟨w0, w, h1, h2, arclength_argument_in_range Lib.sample Real.sqrt_nonneg w hreach
    (Or.inr hprev.2) (by rw [hfps]; norm_num) (by rw [hdur]; norm_num)
    (by rw [hbegin, hcur]; norm_num)
    (by
      unfold elapsed
      rw [hbegin, hcur, hfps, hdur]
      norm_num)⟩

/-- C13 refuted as stated. The preview of the sample path, with the target of 60 frames
per second and the target duration of 2 seconds, is still running after 121 ticks, and
the arc length that the next tick, which ends the session, passes to `s2u` is above the
arc length of the last entry of the table. -/
theorem final_tick_above_table :
    ∃ w0 w s last, previewKeyframes Lib.sample World.sample = some w0 ∧
      runTicks Lib.sample (List.replicate 121 (0, 0)) w0 = some w ∧
      Reachable Lib.sample w ∧ w.previewing ∧ w.hasMouseTracking = false ∧
      0 < w.outputTargetFPS ∧ 0 < w.outputTargetDuration ∧
      arclengthArgument w = some s ∧ w.s2uTable.getLast? = some last ∧ last.1 < s := by
  obtain ⟨w0, w, h1, h2, hreach, hprev, htrack, hfps, hdur, hbegin, hcur, hps, hrs⟩ :=
    sample_preview_ticks 121 le_rfl
  obtain ⟨-, -, hinv⟩ := Reachable.invariant Lib.sample w hreach
  obtain ⟨⟨hN, hmax⟩, htable⟩ := hinv (Or.inr hprev.2)
  have harg := arclengthArgument_eq Lib.sample.math w hN hmax htable
  have hlast := tableSpec_getLast? Lib.sample.math w.positionWaypoints w.rotationWaypoints hN hmax
  refine ⟨w0, w, _, _, h1, h2, hreach, hprev, htrack, by rw [hfps]; norm_num,
    by rw [hdur]; norm_num, harg, by rw [htable, hlast], ?_⟩
  have hpos : 0 < arcLengthSpec Lib.sample.math w.positionWaypoints w.rotationWaypoints
      (tableSize w.positionWaypoints.length - 1) := by
    have hlen2 : w.positionWaypoints.length = 2 := by rw [hps]; rfl
    rw [hlen2, tableSize_two, hps, hrs]
    exact arcLengthSpec_sample_pos _ (by norm_num)
  show arcLengthSpec Lib.sample.math w.positionWaypoints w.rotationWaypoints
      (tableSize w.positionWaypoints.length - 1) < _
  unfold elapsed
  rw [hbegin, hcur, hfps, hdur]
  push_cast
  nlinarith

/-! ## Ticks with the current keyframe below the first one -/

theorem upper_bound_zero (l : List (K × K)) (s : K) (a : K × K) (h : s < a.1) :
    upper_bound (a :: l) s = 0 := by
  unfold upper_bound
  rw [List.findIdx_cons]
  simp [h]

/-- Below the first entry of the table `s2u` reads the entry before the first one. -/
theorem s2u_none_below (table : List (K × K)) (s : K) (hn : 2 ≤ table.length)
    (h : ∀ h0 : 0 < table.length, s < (table[0]).1) : s2u table s = none := by
  match table, hn, h with
  | a :: b :: rest, _, h =>
    have ha : s < a.1 := h (by simp)
    have hd : (a :: b :: rest).dropLast = a :: (b :: rest).dropLast := rfl
    unfold s2u
    rw [hd, upper_bound_zero _ s a ha]
    simp [QList.at]

/-- A tick of a session whose current keyframe is below the first one. -/
theorem updatePhysics_none (L : Lib K) (cursor : ℤ × ℤ) (w : World K)
    (hinv : Invariant L w)
    (hact : w.animateKeyframesActive = true ∨ w.previewKeyframesActive = true)
    (htrack : w.hasMouseTracking = false)
    (hcur : w.fractalKeyframeCurrent < w.fractalKeyframeBegin)
    (hfps : 0 < w.outputTargetFPS) (hdur : 0 < w.outputTargetDuration)
    (harc : 0 < arcLengthSpec L.math w.positionWaypoints w.rotationWaypoints
      (tableSize w.positionWaypoints.length - 1)) :
    updatePhysics L cursor w = none := by
  obtain ⟨⟨hN, hmax⟩, htable⟩ := hinv.2.2 hact
  obtain ⟨hpos, hhead⟩ := tableSpec_head L.math w.positionWaypoints w.rotationWaypoints hN hmax
  have hel : elapsed w < 0 := by
    unfold elapsed
    apply mul_neg_of_neg_of_pos
    · have : w.fractalKeyframeCurrent - w.fractalKeyframeBegin < 0 := by omega
      exact_mod_cast this
    · positivity
  have hs : elapsed w * (arcLengthSpec L.math w.positionWaypoints w.rotationWaypoints
      (tableSize w.positionWaypoints.length - 1) / w.outputTargetDuration / 1000) < 0 := by
    apply mul_neg_of_neg_of_pos hel
    positivity
  have hlen : 2 ≤ w.s2uTable.length := by
    rw [htable, tableSpec_length]
    exact two_le_tableSize _ hN hmax
  have hnone := s2u_none_below w.s2uTable _ hlen (fun h0 => by
    have : w.s2uTable[0] = (0, 0) := by
      simp only [htable]
      exact hhead
    rw [this]
    exact hs)
  unfold updatePhysics
  rw [htrack]
  rw [if_neg (by simp), if_pos (by
    rcases hact with h | h <;> simp [h])]
  unfold updateSession
  rw [arclengthArgument_eq L.math w hN hmax htable]
  simp only [Option.bind_eq_bind, Option.some_bind, hnone, Option.none_bind]

/-- C17 at a failing input. The keyframe counter starts again from zero after 20942. A
preview of the sample path that starts at the keyframe 20942 is, after its first tick,
in a state with `fractalKeyframeCurrent = 0` below `fractalKeyframeBegin = 20942`: the
widget is Previewing, `elapsed` is negative, so the session is not to end, and the arc
length passed to `s2u` is below the first entry of the table, where `i0 = i1--` steps
before the first entry. The tick reads outside the table and has no defined result. -/
theorem tick_after_keyframe_wrap :
    ∃ w0 w, previewKeyframes Lib.sample (setFractalKeyframe Lib.sample 20942 World.sample)
        = some w0 ∧
      paintGL Lib.sample (0, 0) w0 = some w ∧
      Reachable Lib.sample w ∧ w.previewing ∧ w.hasMouseTracking = false ∧
      w.fractalKeyframeBegin = 20942 ∧ w.fractalKeyframeCurrent = 0 ∧
      w.outputTargetFPS = 60 ∧ w.outputTargetDuration = 2 ∧
      ¬ elapsed w > w.outputTargetDuration * 1000 ∧
      (∃ s, arclengthArgument w = some s ∧ s2u w.s2uTable s = none) ∧
      ∀ cursor, updatePhysics Lib.sample cursor w = none ∧
        paintGL Lib.sample cursor w = none := by
  obtain ⟨f1, f2, f3, f4, f5, f6, -, -⟩ := World.sample_fields
  have hle := (Reachable.invariant Lib.sample _ World.sample_reachable).2.1
  have hN : 2 ≤ World.sample.positionWaypoints.length := by rw [f2]
  have hkey : (setFractalKeyframe Lib.sample 20942 World.sample).fractalKeyframeCurrent
      = 20942 := by
    show Int.tmod 20942 (keyframePeriod CMath.real) = 20942
    rw [keyframePeriod_real]
    decide
  have hreachA : Reachable Lib.sample (setFractalKeyframe Lib.sample 20942 World.sample) :=
    Reachable.step _ _ (Event.setFractalKeyframe 20942) World.sample_reachable rfl
  have hstart := previewKeyframes_start Lib.sample
    (setFractalKeyframe Lib.sample 20942 World.sample) f1.1 f1.2 hN World.sample_max hle
  have hreach0 := Reachable.step _ _ Event.previewKeyframes hreachA hstart
  have hinv0 := Reachable.invariant Lib.sample _ hreach0
  obtain ⟨w, h1, h2, h3, h4, h5, -, -⟩ := paintGL_continue Lib.sample Real.sqrt_nonneg (0, 0) _
    hinv0 (Or.inr rfl) f5 (le_refl _)
    (by show (0 : ℝ) < World.sample.outputTargetFPS; rw [f4]; norm_num)
    (by show (0 : ℝ) < World.sample.outputTargetDuration; rw [f3]; norm_num)
    (by
      unfold elapsed
      show ¬ (((setFractalKeyframe Lib.sample 20942 World.sample).fractalKeyframeCurrent
        - (setFractalKeyframe Lib.sample 20942 World.sample).fractalKeyframeCurrent : ℤ) : ℝ)
        * (1000 / World.sample.outputTargetFPS) > World.sample.outputTargetDuration * 1000
      rw [sub_self, f3, f4]
      norm_num)
  have hreach := Reachable.step _ _ (Event.paintGL (0, 0)) hreach0 h1
  have hinv := Reachable.invariant Lib.sample w hreach
  have hbegin : w.fractalKeyframeBegin = 20942 := h4.keyframeBegin.trans hkey
  have hcur : w.fractalKeyframeCurrent = 0 := by
    rw [h5]
    show Int.tmod
      ((setFractalKeyframe Lib.sample 20942 World.sample).fractalKeyframeCurrent + 1)
      (keyframePeriod CMath.real) = 0
    rw [hkey, keyframePeriod_real]
    decide
  have hfps : w.outputTargetFPS = 60 := h4.targetFPS.trans f4
  have hdur : w.outputTargetDuration = 2 := h4.targetDuration.trans f3
  have htrack : w.hasMouseTracking = false := h4.tracking.trans f5
  have hps : w.positionWaypoints = [⟨0, 0, 0⟩, ⟨1, 0, 0⟩] := by
    rw [h4.positions]
    show World.sample.positionWaypoints = _
    rw [World.sample_eq]
  have hrs : w.rotationWaypoints = [⟨0, 0, 0⟩, ⟨0, 0, 0⟩] := by
    rw [h4.rotations]
    show World.sample.rotationWaypoints = _
    rw [World.sample_eq]
  have harc : 0 < arcLengthSpec Lib.sample.math w.positionWaypoints w.rotationWaypoints
      (tableSize w.positionWaypoints.length - 1) := by
    have hlen2 : w.positionWaypoints.length = 2 := by rw [hps]; rfl
    rw [hlen2, tableSize_two, hps, hrs]
    exact arcLengthSpec_sample_pos _ (by norm_num)
  have hact : w.animateKeyframesActive = true ∨ w.previewKeyframesActive = true := Or.inr h3
  have hnone : ∀ cursor, updatePhysics Lib.sample cursor w = none := fun cursor =>
    updatePhysics_none Lib.sample cursor w hinv hact htrack (by rw [hbegin, hcur]; norm_num)
      (by rw [hfps]; norm_num) (by rw [hdur]; norm_num) harc
  have hel : elapsed w < 0 := by
    unfold elapsed
    rw [hbegin, hcur, hfps]
    norm_num
  obtain ⟨⟨hN2, hmax⟩, htable⟩ := hinv.2.2 hact
  obtain ⟨hpos, hhead⟩ := tableSpec_head Lib.sample.math w.positionWaypoints
    w.rotationWaypoints hN2 hmax
  refine ⟨_, w, hstart, h1, hreach, ⟨h2.trans f1.1, h3⟩, htrack, hbegin, hcur, hfps, hdur, ?_,
    ⟨_, arclengthArgument_eq Lib.sample.math w hN2 hmax htable, ?_⟩, fun cursor =>
      ⟨hnone cursor, ?_⟩⟩
  · rw [hdur]
    intro h
    have : (0 : ℝ) < elapsed w := lt_trans (by norm_num) h
    exact lt_asymm this hel
  · apply s2u_none_below
    · rw [htable, tableSpec_length]
      exact two_le_tableSize _ hN2 hmax
    · intro h0
      have : w.s2uTable[0] = (0, 0) := by
        simp only [htable]
        exact hhead
      rw [this]
      apply mul_neg_of_neg_of_pos hel
      rw [hdur]
      positivity
  · unfold paintGL
    rw [hnone cursor]
    rfl

/-! ## The waypoint store and the table during a session -/

/-- C21. In a state that is not Idle the calls `addWaypoint(p, r)`, the Backspace key and
`clearWayPoints()` return the state they were called in, so both waypoint lists are
left as they were. In the state Idle `addWaypoint(p, r)` appends `p` to the positions
and `r` to the rotations, and `clearWayPoints()` empties both lists. -/
theorem waypoint_store_mutation (p r : QVector3D K) (w : World K) :
    (¬ w.idle →
      addWaypoint p r w = w ∧ keyPressEvent Key.Backspace w = w ∧ clearWayPoints w = w) ∧
    (w.idle →
      (addWaypoint p r w).positionWaypoints = w.positionWaypoints ++ [p] ∧
      (addWaypoint p r w).rotationWaypoints = w.rotationWaypoints ++ [r] ∧
      (clearWayPoints w).positionWaypoints = [] ∧
      (clearWayPoints w).rotationWaypoints = []) := by
  constructor
  · intro h
    have hc := active_condition w (active_of_not_idle w h)
    refine ⟨?_, ?_, ?_⟩
    · unfold addWaypoint
      rw [if_neg hc]
    · show removeLastWaypoint w = w
      unfold removeLastWaypoint
      rw [if_neg hc]
    · unfold clearWayPoints
      rw [if_neg hc]
  · intro h
    have hc := idle_condition w h.1 h.2
    refine ⟨?_, ?_, ?_, ?_⟩
    · unfold addWaypoint
      rw [if_pos hc]
    · unfold addWaypoint
      rw [if_pos hc]
    · unfold clearWayPoints
      rw [if_pos hc]
    · unfold clearWayPoints
      rw [if_pos hc]

/-- Witness of C21: the preview of the sample path, and the sample state, which is
Idle. -/
theorem waypoint_store_mutation_witness :
    (∃ w, previewKeyframes Lib.sample World.sample = some w ∧ ¬ w.idle ∧
      addWaypoint ⟨2, 0, 0⟩ ⟨0, 0, 0⟩ w = w ∧ keyPressEvent Key.Backspace w = w ∧
      clearWayPoints w = w) ∧
    World.sample.idle ∧
    (addWaypoint ⟨2, 0, 0⟩ ⟨0, 0, 0⟩ World.sample).positionWaypoints
      = World.sample.positionWaypoints ++ [⟨2, 0, 0⟩] ∧
    (addWaypoint ⟨2, 0, 0⟩ ⟨0, 0, 0⟩ World.sample).rotationWaypoints
      = World.sample.rotationWaypoints ++ [⟨0, 0, 0⟩] ∧
    (clearWayPoints World.sample).positionWaypoints = [] ∧
    (clearWayPoints World.sample).rotationWaypoints = [] := by
  obtain ⟨f1, f2, -⟩ := World.sample_fields
  have hle := (Reachable.invariant Lib.sample _ World.sample_reachable).2.1
  have hstart := previewKeyframes_start Lib.sample World.sample f1.1 f1.2 (by rw [f2]) World.sample_max hle
  have hact : ¬ World.idle ({ World.sample with
      s2uTable := tableSpec Lib.sample.math World.sample.positionWaypoints
        World.sample.rotationWaypoints
      fractalKeyframeBegin := World.sample.fractalKeyframeCurrent
      previewKeyframesActive := true } : World ℝ) := fun h => Bool.noConfusion h.2
  exact ⟨⟨_, hstart, hact,
      (waypoint_store_mutation ⟨2, 0, 0⟩ ⟨0, 0, 0⟩ _).1 hact⟩, f1,
    (waypoint_store_mutation ⟨2, 0, 0⟩ ⟨0, 0, 0⟩ World.sample).2 f1⟩

theorem paintGL_table (L : Lib K) (cursor : ℤ × ℤ) (w w3 : World K)
    (h : paintGL L cursor w = some w3) : w3.s2uTable = w.s2uTable := by
  obtain ⟨w2, h2, -, -, hf, -⟩ := paintGL_partial L cursor w w3 h
  exact hf.table.trans (updatePhysics_frame L cursor w w2 h2).1.table

theorem removeLastWaypoint_table (w : World K) :
    (removeLastWaypoint w).s2uTable = w.s2uTable := by
  unfold removeLastWaypoint
  dsimp only
  split_ifs <;> rfl

theorem cancel_table (w : World K) : (cancel w).s2uTable = w.s2uTable :=
  by
  unfold cancel
  cases ha : w.animateKeyframesActive <;> cases hp : w.previewKeyframesActive <;>
    simp [ha, hp, World.emit]

theorem keyPressEvent_table (key : Key) (w : World K) :
    (keyPressEvent key w).s2uTable = w.s2uTable := by
  cases key
  case Space =>
    show (addWaypoint _ _ w).s2uTable = _
    unfold addWaypoint
    split <;> rfl
  case Backspace => exact removeLastWaypoint_table w
  case Delete =>
    show (clearWayPoints w).s2uTable = _
    unfold clearWayPoints
    split <;> rfl
  case Escape => exact cancel_table w
  all_goals rfl

theorem keyReleaseEvent_table (key : Key) (w : World K) :
    (keyReleaseEvent key w).s2uTable = w.s2uTable := by
  cases key <;> rfl

/-- What a call of `previewKeyframes` does to the table. -/
theorem previewKeyframes_table (L : Lib K) (w w2 : World K)
    (h : previewKeyframes L w = some w2) :
    w2.s2uTable = w.s2uTable ∨
    (w.idle ∧ w2.previewing ∧
      blendLoop L.math w.positionWaypoints w.rotationWaypoints 0 0 [] = some w2.s2uTable) := by
  unfold previewKeyframes at h
  split at h
  · rename_i hc
    have hi : w.idle := by
      unfold World.idle
      cases ha : w.animateKeyframesActive <;> cases hp : w.previewKeyframesActive <;>
        simp [ha, hp] at hc ⊢
    split at h
    · right
      unfold blend at h
      cases hb : blendLoop L.math w.positionWaypoints w.rotationWaypoints 0 0 [] with
      | none => simp [hb] at h
      | some table =>
        simp only [hb, Option.map_some', Option.bind_eq_bind, Option.some_bind,
          Option.pure_def, Option.some.injEq] at h
        subst h
        exact ⟨hi, ⟨hi.1, rfl⟩, rfl⟩
    · left
      simp only [Option.pure_def, Option.some.injEq] at h
      rw [← h]
  · left
    simp only [Option.pure_def, Option.some.injEq] at h
    rw [← h]

/-- What a call of `animateKeyframes` does to the table. -/
theorem animateKeyframes_table (L : Lib K) (drawnFrames : List ℤ) (w w2 : World K)
    (h : animateKeyframes L drawnFrames w = some w2) :
    w2.s2uTable = w.s2uTable ∨
    (w.idle ∧ w2.animating ∧
      blendLoop L.math w.positionWaypoints w.rotationWaypoints 0 0 [] = some w2.s2uTable) := by
  unfold animateKeyframes at h
  split at h
  · rename_i hc
    have hi : w.idle := by
      unfold World.idle
      cases ha : w.animateKeyframesActive <;> cases hp : w.previewKeyframesActive <;>
        simp [ha, hp] at hc ⊢
    by_cases hN : w.positionWaypoints.length > 1
    · right
      rw [if_pos hN] at h
      unfold blend at h
      cases hb : blendLoop L.math w.positionWaypoints w.rotationWaypoints 0 0 [] with
      | none => simp [hb] at h
      | some table =>
        cases hd : drawnFrames.getLast? <;>
          simp only [hb, hd, Option.map_some', Option.bind_eq_bind, Option.some_bind,
            Option.pure_def, Option.some.injEq] at h <;>
          subst h <;>
          exact ⟨hi, ⟨rfl, hi.2⟩, rfl⟩
    · left
      rw [if_neg hN] at h
      cases hd : drawnFrames.getLast? <;>
        simp only [hd, Option.bind_eq_bind, Option.some_bind,
          Option.pure_def, Option.some.injEq] at h <;>
        subst h <;> rfl
  · left
    simp only [Option.pure_def, Option.some.injEq] at h
    rw [← h]

/-- What a call does to the table. -/
theorem step_table (L : Lib K) (w w2 : World K) (e : Event K)
    (hstep : step L w e = some w2) :
    w2.s2uTable = w.s2uTable ∨
    (w.idle ∧ (w2.previewing ∨ w2.animating) ∧
      blendLoop L.math w.positionWaypoints w.rotationWaypoints 0 0 [] = some w2.s2uTable) := by
  cases e with
  | paintGL cursor => exact Or.inl (paintGL_table L cursor w w2 hstep)
  | keyPressEvent key =>
    rw [← Option.some.inj hstep]
    exact Or.inl (keyPressEvent_table key w)
  | keyReleaseEvent key =>
    rw [← Option.some.inj hstep]
    exact Or.inl (keyReleaseEvent_table key w)
  | mousePressEvent leftButton =>
    rw [← Option.some.inj hstep]
    left
    unfold mousePressEvent
    split <;> rfl
  | animateKeyframes drawnFrames =>
    rcases animateKeyframes_table L drawnFrames w w2 hstep with h | ⟨h1, h2, h3⟩
    · exact Or.inl h
    · exact Or.inr ⟨h1, Or.inr h2, h3⟩
  | previewKeyframes =>
    rcases previewKeyframes_table L w w2 hstep with h | ⟨h1, h2, h3⟩
    · exact Or.inl h
    · exact Or.inr ⟨h1, Or.inl h2, h3⟩
  | addWaypoint position rotation =>
    rw [← Option.some.inj hstep]
    left
    unfold addWaypoint
    split <;> rfl
  | clearWayPoints =>
    rw [← Option.some.inj hstep]
    left
    unfold clearWayPoints
    split <;> rfl
  | setCameraPosition value =>
    rw [← Option.some.inj hstep]
    exact Or.inl (setCameraPosition_cameraStep L value w).table
  | setCameraRotation value =>
    rw [← Option.some.inj hstep]
    exact Or.inl (setCameraRotation_cameraStep L value w).table
  | setFractalKeyframe value =>
    rw [← Option.some.inj hstep]
    exact Or.inl rfl
  | setOutputResultion value =>
    rw [← Option.some.inj hstep]
    left
    unfold setOutputResultion
    split <;> rfl
  | setOutputTargetFPS value =>
    rw [← Option.some.inj hstep]
    left
    unfold setOutputTargetFPS
    split <;> rfl
  | setOutputTargetDuration value =>
    rw [← Option.some.inj hstep]
    left
    unfold setOutputTargetDuration
    split <;> rfl

/-- C22. Whatever call the widget receives in a state that is not Idle (a tick, a key,
a mouse button, `addWaypoint`, `clearWayPoints`, `previewKeyframes`, `animateKeyframes`
or a setter), `s2uTable` is the same after the call. A call changes `s2uTable` only when
it is `previewKeyframes` or `animateKeyframes` leading from Idle to Previewing or
Animating, and the new table is then the one that the loop of `blend()` builds from the
empty table and `s = 0`, `u = 0`. -/
theorem table_is_session_snapshot (L : Lib K) (w w2 : World K) (e : Event K)
    (hstep : step L w e = some w2) :
    (¬ w.idle → w2.s2uTable = w.s2uTable) ∧
    (w2.s2uTable ≠ w.s2uTable →
      w.idle ∧ (w2.previewing ∨ w2.animating) ∧
      (e = Event.previewKeyframes ∨ ∃ drawnFrames, e = Event.animateKeyframes drawnFrames) ∧
      blendLoop L.math w.positionWaypoints w.rotationWaypoints 0 0 [] = some w2.s2uTable) := by
  have h := step_table L w w2 e hstep
  constructor
  · intro hni
    rcases h with h | ⟨h1, -, -⟩
    · exact h
    · exact absurd h1 hni
  · intro hne
    rcases h with h | ⟨h1, h2, h3⟩
    · exact absurd h hne
    · refine ⟨h1, h2, ?_, h3⟩
      cases e with
      | previewKeyframes => exact Or.inl rfl
      | animateKeyframes drawnFrames => exact Or.inr ⟨drawnFrames, rfl⟩
      | paintGL cursor => exact absurd (paintGL_table L cursor w w2 hstep) hne
      | keyPressEvent key =>
        rw [← Option.some.inj hstep] at hne
        exact absurd (keyPressEvent_table key w) hne
      | keyReleaseEvent key =>
        rw [← Option.some.inj hstep] at hne
        exact absurd (keyReleaseEvent_table key w) hne
      | mousePressEvent leftButton =>
        rw [← Option.some.inj hstep] at hne
        exfalso
        apply hne
        unfold mousePressEvent
        split <;> rfl
      | addWaypoint position rotation =>
        rw [← Option.some.inj hstep] at hne
        exfalso
        apply hne
        unfold addWaypoint
        split <;> rfl
      | clearWayPoints =>
        rw [← Option.some.inj hstep] at hne
        exfalso
        apply hne
        unfold clearWayPoints
        split <;> rfl
      | setCameraPosition value =>
        rw [← Option.some.inj hstep] at hne
        exact absurd (setCameraPosition_cameraStep L value w).table hne
      | setCameraRotation value =>
        rw [← Option.some.inj hstep] at hne
        exact absurd (setCameraRotation_cameraStep L value w).table hne
      | setFractalKeyframe value =>
        rw [← Option.some.inj hstep] at hne
        exact absurd rfl hne
      | setOutputResultion value =>
        rw [← Option.some.inj hstep] at hne
        exfalso
        apply hne
        unfold setOutputResultion
        split <;> rfl
      | setOutputTargetFPS value =>
        rw [← Option.some.inj hstep] at hne
        exfalso
        apply hne
        unfold setOutputTargetFPS
        split <;> rfl
      | setOutputTargetDuration value =>
        rw [← Option.some.inj hstep] at hne
        exfalso
        apply hne
        unfold setOutputTargetDuration
        split <;> rfl

/-- Witness of C22: the first tick of the preview of the sample path. -/
theorem table_is_session_snapshot_witness :
    ∃ w w2, previewKeyframes Lib.sample World.sample = some w ∧
      step Lib.sample w (Event.paintGL (0, 0)) = some w2 ∧ ¬ w.idle ∧
      w2.s2uTable = w.s2uTable := by
  obtain ⟨w0, w1, h1, h2, -⟩ := sample_preview_ticks 1 (by norm_num)
  have hs : step Lib.sample w0 (Event.paintGL (0, 0)) = some w1 := by
    show paintGL Lib.sample (0, 0) w0 = some w1
    rw [← runTicks_singleton]
    exact h2
  obtain ⟨f1, f2, -⟩ := World.sample_fields
  have hle := (Reachable.invariant Lib.sample _ World.sample_reachable).2.1
  have hstart := previewKeyframes_start Lib.sample World.sample f1.1 f1.2 (by rw [f2]) World.sample_max hle
  have hni : ¬ w0.idle := by
    rw [hstart] at h1
    rw [← Option.some.inj h1]
    exact fun h => Bool.noConfusion h.2
  exact ⟨w0, w1, h1, hs, hni, (table_is_session_snapshot Lib.sample w0 w1 _ hs).1 hni⟩

/-! ## The configuration setters -/

/-- C23, amended. `setOutputTargetFPS(v)` and `setOutputTargetDuration(v)` with `v < 0`
leave the stored value as it was and emit an error status, and with `0 <= v`, the value
zero included, they store `v` and emit nothing. `setOutputResultion(size)` stores a
`size` with two positive components and emits nothing; with a component that is not
positive it leaves the stored value as it was and emits an error status. -/
theorem setters_reject_negative (v : K) (size : K × K) (w : World K) :
    (v < 0 →
      (setOutputTargetFPS v w).outputTargetFPS = w.outputTargetFPS ∧
      (setOutputTargetFPS v w).emitted = w.emitted ++ [Signal.statusChanged
        (Status.error "Cannot set output target FPS to a negative value")] ∧
      (setOutputTargetDuration v w).outputTargetDuration = w.outputTargetDuration ∧
      (setOutputTargetDuration v w).emitted = w.emitted ++ [Signal.statusChanged
        (Status.error "Cannot set output target duration to a negative value")]) ∧
    (0 ≤ v →
      (setOutputTargetFPS v w).outputTargetFPS = v ∧
      (setOutputTargetFPS v w).emitted = w.emitted ∧
      (setOutputTargetDuration v w).outputTargetDuration = v ∧
      (setOutputTargetDuration v w).emitted = w.emitted) ∧
    (¬ (0 < size.1 ∧ 0 < size.2) →
      (setOutputResultion size w).outputResolution = w.outputResolution ∧
      (setOutputResultion size w).emitted = w.emitted ++ [Signal.statusChanged
        (Status.error "Cannot set output resolution to a negative value")]) ∧
    (0 < size.1 ∧ 0 < size.2 →
      (setOutputResultion size w).outputResolution = size ∧
      (setOutputResultion size w).emitted = w.emitted) := by
  refine ⟨?_, ?_, ?_, ?_⟩
  · intro h
    unfold setOutputTargetFPS setOutputTargetDuration
    rw [if_neg (not_le.mpr h), if_neg (not_le.mpr h)]
    exact ⟨rfl, rfl, rfl, rfl⟩
  · intro h
    unfold setOutputTargetFPS setOutputTargetDuration
    rw [if_pos h, if_pos h]
    exact ⟨rfl, rfl, rfl, rfl⟩
  · intro h
    unfold setOutputResultion
    rw [if_neg h]
    exact ⟨rfl, rfl⟩
  · intro h
    unfold setOutputResultion
    rw [if_pos h]
    exact ⟨rfl, rfl⟩

/-- Witness of C23: the values `-1` and `30` and the sizes `(0, 1080)` and
`(1920, 1080)` in the sample state. -/
theorem setters_reject_negative_witness :
    ((setOutputTargetFPS (-1) World.sample).outputTargetFPS = World.sample.outputTargetFPS ∧
      (setOutputTargetFPS (-1) World.sample).emitted = World.sample.emitted ++
        [Signal.statusChanged
          (Status.error "Cannot set output target FPS to a negative value")] ∧
      (setOutputTargetDuration (-1) World.sample).outputTargetDuration
        = World.sample.outputTargetDuration ∧
      (setOutputTargetDuration (-1) World.sample).emitted = World.sample.emitted ++
        [Signal.statusChanged
          (Status.error "Cannot set output target duration to a negative value")]) ∧
    ((setOutputTargetFPS 30 World.sample).outputTargetFPS = 30 ∧
      (setOutputTargetFPS 30 World.sample).emitted = World.sample.emitted ∧
      (setOutputTargetDuration 30 World.sample).outputTargetDuration = 30 ∧
      (setOutputTargetDuration 30 World.sample).emitted = World.sample.emitted) ∧
    ((setOutputResultion (0, 1080) World.sample).outputResolution
        = World.sample.outputResolution ∧
      (setOutputResultion (0, 1080) World.sample).emitted = World.sample.emitted ++
        [Signal.statusChanged
          (Status.error "Cannot set output resolution to a negative value")]) ∧
    ((setOutputResultion (1920, 1080) World.sample).outputResolution = (1920, 1080) ∧
      (setOutputResultion (1920, 1080) World.sample).emitted = World.sample.emitted) :=
  ⟨(setters_reject_negative (-1) (0, 0) World.sample).1 (by norm_num),
    (setters_reject_negative 30 (0, 0) World.sample).2.1 (by norm_num),
    (setters_reject_negative 0 (0, 1080) World.sample).2.2.1 (by norm_num),
    (setters_reject_negative 0 (1920, 1080) World.sample).2.2.2 (by norm_num)⟩

/-- C23 refuted as stated. In the sample state, whose target is 60 frames per second and
whose target duration is 2 seconds, `setOutputTargetFPS(0)` and
`setOutputTargetDuration(0)` store the value zero and emit nothing. -/
theorem setters_store_zero :
    World.sample.outputTargetFPS = 60 ∧ World.sample.outputTargetDuration = 2 ∧
    (setOutputTargetFPS 0 World.sample).outputTargetFPS = 0 ∧
    (setOutputTargetFPS 0 World.sample).emitted = World.sample.emitted ∧
    (setOutputTargetDuration 0 World.sample).outputTargetDuration = 0 ∧
    (setOutputTargetDuration 0 World.sample).emitted = World.sample.emitted := by
  obtain ⟨-, -, f3, f4, -⟩ := World.sample_fields
  refine ⟨f4, f3, ?_, ?_, ?_, ?_⟩
  · unfold setOutputTargetFPS
    rw [if_pos (le_refl (0 : ℝ))]
  · unfold setOutputTargetFPS
    rw [if_pos (le_refl (0 : ℝ))]
  · unfold setOutputTargetDuration
    rw [if_pos (le_refl (0 : ℝ))]
  · unfold setOutputTargetDuration
    rw [if_pos (le_refl (0 : ℝ))]

/-! ## The branch of `exp` and `log` for a zero imaginary norm -/

theorem checkedDiv_of_ne (a b : K) (h : b ≠ 0) : checkedDiv a b = some (a / b) := by
  unfold checkedDiv
  rw [if_neg h]

/-- No division of `exp` has a zero divisor. -/
theorem expChecked_eq (M : CMath K) (q : QQuaternion K) : expChecked M q = some (exp M q) := by
  unfold expChecked exp
  dsimp only
  split_ifs with h
  · rfl
  · simp only [checkedDiv_of_ne _ _ h, Option.bind_eq_bind, Option.some_bind, Option.pure_def]

/-- No division of `log` has a zero divisor. -/
theorem logChecked_eq (M : CMath K) (q : QQuaternion K) : logChecked M q = some (log M q) := by
  unfold logChecked log
  dsimp only
  split_ifs with h
  · rfl
  · simp only [checkedDiv_of_ne _ _ h, Option.bind_eq_bind, Option.some_bind, Option.pure_def]

/-- C26. For a math library with `cos 0 = 1` and `sqrt (v * v) = |v|`, and every
quaternion `q = (w; 0, 0, 0)`: `exp(q) = (e^w; 0, 0, 0)` and, for `w != 0`,
`log(q) = (ln |w|; 0, 0, 0)`. In both functions, for every quaternion, each division that
is performed has a divisor that is not zero. -/
theorem zero_imaginary_norm_branch (M : CMath K) (hcos : M.cos 0 = 1)
    (hsqrt : ∀ v : K, M.sqrt (v * v) = |v|) (w : K) :
    exp M ⟨w, 0, 0, 0⟩ = ⟨M.exp w, 0, 0, 0⟩ ∧
    (w ≠ 0 → log M ⟨w, 0, 0, 0⟩ = ⟨M.log |w|, 0, 0, 0⟩) ∧
    ∀ q : QQuaternion K, expChecked M q = some (exp M q) ∧ logChecked M q = some (log M q) := by
  have h0 : M.sqrt 0 = 0 := by
    have := hsqrt 0
    rwa [mul_zero, abs_zero] at this
  refine ⟨?_, ?_, fun q => ⟨expChecked_eq M q, logChecked_eq M q⟩⟩
  · unfold exp
    simp [h0, hcos]
  · intro _
    unfold log QQuaternion.length
    simp [h0, hsqrt]

/-- Witness of C26: the real math library and the quaternion `(-3; 0, 0, 0)`. -/
theorem zero_imaginary_norm_branch_witness :
    CMath.real.cos 0 = 1 ∧ (∀ v : ℝ, CMath.real.sqrt (v * v) = |v|) ∧
    exp CMath.real ⟨-3, 0, 0, 0⟩ = ⟨Real.exp (-3), 0, 0, 0⟩ ∧
    log CMath.real ⟨-3, 0, 0, 0⟩ = ⟨Real.log 3, 0, 0, 0⟩ := by
  have h := zero_imaginary_norm_branch CMath.real Real.cos_zero Real.sqrt_mul_self_eq_abs (-3)
  refine ⟨Real.cos_zero, Real.sqrt_mul_self_eq_abs, h.1, ?_⟩
  have h2 := h.2.1 (by norm_num)
  rw [h2]
  have : |(-3 : ℝ)| = 3 := by norm_num
  show (⟨Real.log |(-3 : ℝ)|, 0, 0, 0⟩ : QQuaternion ℝ) = _
  rw [this]

/-! ## The indices of the waypoints that the splines read -/

/-- C27. For position and rotation lists of the same length `N >= 2` and every `t` with
`0 < t < N - 1`, `interpolatePosition(t, _)` and `interpolateRotation(t)` return a value,
which they do only when every waypoint they read exists; with `i = floor(t)` the indices
`i` and `i + 1` lie in `[0, N-1]`, so does `i - 1` wherever a boundary test selects it
(`i != 0` for the position, `i > 1` for the rotation) and so does `i + 2`
(`i != N - 2` for the position, `i < N - 3` for the rotation). -/
theorem spline_reads_in_range (M : CMath K) (Q : QtMath K) (ps rs : List (QVector3D K))
    (t : K) (d : Bool) (hN : 2 ≤ ps.length) (hlen : rs.length = ps.length)
    (h0 : 0 < t) (h1 : t < (ps.length : K) - 1) :
    (∃ v, interpolatePosition M ps rs t d = some v) ∧
    (∃ r, interpolateRotation M Q rs t = some r) ∧
    0 ≤ ⌊t⌋ ∧ ⌊t⌋ + 1 ≤ (ps.length : ℤ) - 1 ∧
    (⌊t⌋ ≠ 0 → 0 ≤ ⌊t⌋ - 1) ∧
    (⌊t⌋ ≠ (ps.length : ℤ) - 2 → ⌊t⌋ + 2 ≤ (ps.length : ℤ) - 1) ∧
    (¬ ⌊t⌋ ≤ 1 → 0 ≤ ⌊t⌋ - 1) ∧
    (¬ ⌊t⌋ ≥ (rs.length : ℤ) - 3 → ⌊t⌋ + 2 ≤ (rs.length : ℤ) - 1) := by
  have hne : ps ≠ [] := by
    intro h
    rw [h, List.length_nil] at hN
    omega
  have hner : rs ≠ [] := by
    intro h
    rw [h, List.length_nil] at hlen
    omega
  have hf0 : 0 ≤ ⌊t⌋ := Int.floor_nonneg.mpr h0.le
  have hf1 : ⌊t⌋ + 1 ≤ (ps.length : ℤ) - 1 := by
    have : ⌊t⌋ < (ps.length : ℤ) - 1 := by
      rw [Int.floor_lt]
      push_cast
      exact h1
    omega
  refine ⟨interpolatePosition_some M ps rs hne hlen t d,
    interpolateRotation_some M Q rs hner t, hf0, hf1, ?_, ?_, ?_, ?_⟩
  · intro h
    omega
  · intro h
    omega
  · intro h
    omega
  · intro h
    omega

/-- Witness of C27: the two waypoints of the sample path at `t = 1/2`. -/
theorem spline_reads_in_range_witness :
    (∃ v, interpolatePosition CMath.real [⟨0, 0, 0⟩, ⟨1, 0, 0⟩] [⟨0, 0, 0⟩, ⟨0, 0, 0⟩]
      (1 / 2) false = some v) ∧
    (∃ r, interpolateRotation CMath.real Lib.sample.quaternion [⟨0, 0, 0⟩, ⟨0, 0, 0⟩]
      (1 / 2) = some r) :=
  have h := spline_reads_in_range CMath.real Lib.sample.quaternion
    [⟨0, 0, 0⟩, ⟨1, 0, 0⟩] [⟨0, 0, 0⟩, ⟨0, 0, 0⟩] (1 / 2) false (by simp) (by simp)
    (by norm_num) (by norm_num)
  ⟨h.1, h.2.1⟩

/-! ## The handlers of the fractal shift -/

/-- C30 at a failing input. The calls `setValue(-2.08)`, `setValue(-1.42)`,
`setValue(-1.93)` of lines 537-539 on the three spin boxes of the fractal shift, whose
values are zero before: the handler of `fractalShiftY` passes `(0, -1.42, 0)`, and not
`(-2.08, -1.42, 0)`, and the handler of `fractalShiftZ` passes `(-1.93, -1.42, -1.93)`,
and not `(-2.08, -1.42, -1.93)`: both read `fractalShiftZ` for the component `x`. The
three handlers of the fractal rotation replace their own component only. -/
theorem shift_handlers_read_wrong_box :
    fractalShiftXChanged (⟨-2.08, 0, 0, 0, 0, 0⟩ : SpinBoxes ℚ) (-2.08) = ⟨-2.08, 0, 0⟩ ∧
    fractalShiftYChanged (⟨-2.08, -1.42, 0, 0, 0, 0⟩ : SpinBoxes ℚ) (-1.42)
      = ⟨0, -1.42, 0⟩ ∧
    fractalShiftYChanged (⟨-2.08, -1.42, 0, 0, 0, 0⟩ : SpinBoxes ℚ) (-1.42)
      ≠ ⟨-2.08, -1.42, 0⟩ ∧
    fractalShiftZChanged (⟨-2.08, -1.42, -1.93, 0, 0, 0⟩ : SpinBoxes ℚ) (-1.93)
      = ⟨-1.93, -1.42, -1.93⟩ ∧
    fractalShiftZChanged (⟨-2.08, -1.42, -1.93, 0, 0, 0⟩ : SpinBoxes ℚ) (-1.93)
      ≠ ⟨-2.08, -1.42, -1.93⟩ ∧
    ∀ (ui : SpinBoxes ℚ) (v : ℚ),
      fractalRotationXChanged ui v = ⟨v, ui.fractalRotationY, ui.fractalRotationZ⟩ ∧
      fractalRotationYChanged ui v = ⟨ui.fractalRotationX, v, ui.fractalRotationZ⟩ ∧
      fractalRotationZChanged ui v = ⟨ui.fractalRotationX, ui.fractalRotationY, v⟩ := by
  refine ⟨rfl, rfl, ?_, rfl, ?_, fun ui v => ⟨rfl, rfl, rfl⟩⟩
  · intro h
    have := congrArg QVector3D.x h
    simp [fractalShiftYChanged] at this
    norm_num at this
  · intro h
    have := congrArg QVector3D.x h
    simp [fractalShiftZChanged] at this
    norm_num at this

/-! ## The look direction and the rotation matrix of the camera -/

theorem fromAxisAndAngle_real (axis : QVector3D ℝ) (θ : ℝ) :
    QQuaternion.fromAxisAndAngle CMath.real axis (θ / (CMath.real.pi / 180))
      = ⟨Real.cos (θ / 2), axis.x * Real.sin (θ / 2), axis.y * Real.sin (θ / 2),
          axis.z * Real.sin (θ / 2)⟩ := by
  have hpi : Real.pi ≠ 0 := Real.pi_ne_zero
  have ha : (θ / (Real.pi / 180) / 2) * (Real.pi / 180) = θ / 2 := by
    field_simp
    ring
  show (⟨Real.cos (θ / (Real.pi / 180) / 2 * (Real.pi / 180)),
    axis.x * Real.sin (θ / (Real.pi / 180) / 2 * (Real.pi / 180)),
    axis.y * Real.sin (θ / (Real.pi / 180) / 2 * (Real.pi / 180)),
    axis.z * Real.sin (θ / (Real.pi / 180) / 2 * (Real.pi / 180))⟩ : QQuaternion ℝ) = _
  rw [ha]

theorem fromAxisAndAngle_real_zero (axis : QVector3D ℝ) :
    QQuaternion.fromAxisAndAngle CMath.real axis (0 / (CMath.real.pi / 180)) = ⟨1, 0, 0, 0⟩ := by
  rw [fromAxisAndAngle_real]
  simp

theorem sin_cos_pi_div_four :
    Real.sin (Real.pi / 2 / 2) * Real.cos (Real.pi / 2 / 2) = 1 / 2 ∧
    Real.sin (Real.pi / 2 / 2) * Real.sin (Real.pi / 2 / 2) = 1 / 2 := by
  have e : Real.pi / 2 / 2 = Real.pi / 4 := by ring
  rw [e, Real.sin_pi_div_four, Real.cos_pi_div_four]
  have h2 : Real.sqrt 2 * Real.sqrt 2 = 2 := Real.mul_self_sqrt (by norm_num)
  constructor <;> nlinarith

/-- The look direction of the rotation `(pi/2, 0, 0)`. -/
theorem getLookDirectionFromRotation_pitch :
    getLookDirectionFromRotation CMath.real ⟨Real.pi / 2, 0, 0⟩ = ⟨1, 0, 0⟩ := by
  obtain ⟨hsc, hss⟩ := sin_cos_pi_div_four
  unfold getLookDirectionFromRotation toRotationMatrix
  dsimp only
  rw [fromAxisAndAngle_real, fromAxisAndAngle_real_zero, fromAxisAndAngle_real_zero]
  simp only [QQuaternion.mul_def, QQuaternion.toRotationMatrix]
  ext <;> simp
  · linarith [hsc]
  · linarith [hss]

/-- The third column of the matrix of the quaternion that `setCameraRotation` and
`interpolateRotation` build from the rotation `(pi/2, 0, 0)`. -/
theorem fromEulerAngles_pitch_column :
    ((fromEulerAngles CMath.real ⟨Real.pi / 2, 0, 0⟩).toRotationMatrix 0 2 = 0 ∧
     (fromEulerAngles CMath.real ⟨Real.pi / 2, 0, 0⟩).toRotationMatrix 1 2 = -1 ∧
     (fromEulerAngles CMath.real ⟨Real.pi / 2, 0, 0⟩).toRotationMatrix 2 2 = 0) := by
  obtain ⟨hsc, hss⟩ := sin_cos_pi_div_four
  unfold fromEulerAngles
  dsimp only
  simp only [fromAxisAndAngle_real, QQuaternion.mul_def, QQuaternion.toRotationMatrix]
  refine ⟨?_, ?_, ?_⟩ <;> simp
  · linarith [hsc]
  · linarith [hss]

theorem fmod_pitch : fmod (Real.pi / 2) (2 * Real.pi) = Real.pi / 2 ∧
    fmod (0 : ℝ) (2 * Real.pi) = 0 := by
  have hpi : Real.pi ≠ 0 := Real.pi_ne_zero
  have e : Real.pi / 2 / (2 * Real.pi) = 1 / 4 := by
    field_simp
    ring
  unfold fmod
  rw [e, zero_div, truncToInt_of_abs_lt_one (1 / 4 : ℝ) (by rw [abs_of_pos] <;> norm_num),
    truncToInt_of_abs_lt_one (0 : ℝ) (by simp)]
  simp

/-- The rotation and the matrix that `setCameraRotation` stores for a new rotation that
the rounding to four decimals and `fmod` leave as it is. -/
theorem setCameraRotation_of_ne (L : Lib K) (value : QVector3D K) (w : World K)
    (hx : fmod (L.string.toFloat4 value.x) (2 * L.math.pi) = value.x)
    (hy : fmod (L.string.toFloat4 value.y) (2 * L.math.pi) = value.y)
    (hz : fmod (L.string.toFloat4 value.z) (2 * L.math.pi) = value.z)
    (hne : w.cameraRotation ≠ value) :
    (setCameraRotation L value w).cameraRotation = value ∧
    (setCameraRotation L value w).cameraRotationMatrix
      = (fromEulerAngles L.math value).toRotationMatrix := by
  have hne2 : w.cameraRotation ≠ (⟨value.x, value.y, value.z⟩ : QVector3D K) := hne
  unfold setCameraRotation
  dsimp only
  rw [hx, hy, hz, if_pos hne2]
  exact ⟨rfl, rfl⟩

/-- The rotation and the matrix that `setCameraRotation` stores for `(pi/2, 0, 0)`. -/
theorem setCameraRotation_pitch :
    (setCameraRotation Lib.sample ⟨Real.pi / 2, 0, 0⟩ World.sample).cameraRotation
      = ⟨Real.pi / 2, 0, 0⟩ ∧
    (setCameraRotation Lib.sample ⟨Real.pi / 2, 0, 0⟩ World.sample).cameraRotationMatrix
      = (fromEulerAngles CMath.real ⟨Real.pi / 2, 0, 0⟩).toRotationMatrix := by
  obtain ⟨h1, h2⟩ := fmod_pitch
  have hne : World.sample.cameraRotation ≠ (⟨Real.pi / 2, 0, 0⟩ : QVector3D ℝ) := by
    rw [World.sample_eq]
    intro h
    have hx := congrArg QVector3D.x h
    have hpos := Real.pi_pos
    have h0 : (0 : ℝ) = Real.pi / 2 := hx
    linarith
  exact setCameraRotation_of_ne Lib.sample ⟨Real.pi / 2, 0, 0⟩ World.sample h1 h2 h2 hne

/-- C24 at a failing input. For the rotation `r = (pi/2, 0, 0)`, a pitch of a quarter
turn, `getLookDirectionFromRotation(r)` is `(1, 0, 0)`, while the third column of the
matrix that `setCameraRotation(r)` stores in `cameraRotationMatrix`, which is the matrix
of the quaternion that `interpolateRotation` builds from `r`, is `(0, -1, 0)`. For every
`r`, `getLookDirectionFromRotation(r)` is the third column of that matrix for the
rotation `(r.y, r.x, r.z)`: `toRotationMatrix` turns about the axis Y by `r.x()` and
about the axis X by `r.y()`. -/
theorem look_direction_swaps_yaw_and_pitch :
    getLookDirectionFromRotation CMath.real ⟨Real.pi / 2, 0, 0⟩ = ⟨1, 0, 0⟩ ∧
    (setCameraRotation Lib.sample ⟨Real.pi / 2, 0, 0⟩ World.sample).cameraRotation
      = ⟨Real.pi / 2, 0, 0⟩ ∧
    (setCameraRotation Lib.sample ⟨Real.pi / 2, 0, 0⟩ World.sample).cameraRotationMatrix
      = (fromEulerAngles CMath.real ⟨Real.pi / 2, 0, 0⟩).toRotationMatrix ∧
    (⟨(fromEulerAngles CMath.real ⟨Real.pi / 2, 0, 0⟩).toRotationMatrix 0 2,
      (fromEulerAngles CMath.real ⟨Real.pi / 2, 0, 0⟩).toRotationMatrix 1 2,
      (fromEulerAngles CMath.real ⟨Real.pi / 2, 0, 0⟩).toRotationMatrix 2 2⟩ : QVector3D ℝ)
      = ⟨0, -1, 0⟩ ∧
    ∀ r : QVector3D ℝ, getLookDirectionFromRotation CMath.real r
      = ⟨(fromEulerAngles CMath.real ⟨r.y, r.x, r.z⟩).toRotationMatrix 0 2,
         (fromEulerAngles CMath.real ⟨r.y, r.x, r.z⟩).toRotationMatrix 1 2,
         (fromEulerAngles CMath.real ⟨r.y, r.x, r.z⟩).toRotationMatrix 2 2⟩ := by
  obtain ⟨c0, c1, c2⟩ := fromEulerAngles_pitch_column
  refine ⟨getLookDirectionFromRotation_pitch, setCameraRotation_pitch.1,
    setCameraRotation_pitch.2, ?_, fun r => rfl⟩
  rw [c0, c1, c2]

/-! ## The derivative mode of `interpolatePosition` -/

theorem cubic_hasDerivAt (p0 p1 p2 p3 n t : ℝ) :
    HasDerivAt (fun s : ℝ => p0 + p1 * (s - n) + p2 * (s - n) ^ 2 + p3 * (s - n) ^ 3)
      (p1 + 2 * p2 * (t - n) + 3 * p3 * (t - n) ^ 2) t := by
  have hh : HasDerivAt (fun s : ℝ => s - n) 1 t := (hasDerivAt_id t).sub_const n
  have h := (((hasDerivAt_const t p0).add (hh.const_mul p1)).add
    ((hh.pow 2).const_mul p2)).add ((hh.pow 3).const_mul p3)
  convert h using 1
  simp
  ring

/-- One coordinate of the cubic of a segment, with the coordinates `a`, `b`, `c`, `d` of
its four control points, has the coordinate of the derivative cubic as its derivative. -/
theorem catmullRom_coordinate_hasDerivAt (a b c d n t : ℝ) :
    HasDerivAt (fun s : ℝ => (0.5 : ℝ) * ((-(s - n) + 2 * (s - n) ^ 2 - (s - n) ^ 3) * a
        + (2 - 5 * (s - n) ^ 2 + 3 * (s - n) ^ 3) * b
        + ((s - n) + 4 * (s - n) ^ 2 - 3 * (s - n) ^ 3) * c
        + (-(s - n) ^ 2 + (s - n) ^ 3) * d))
      ((0.5 : ℝ) * ((-1 + 4 * (t - n) - 3 * (t - n) ^ 2) * a
        + (-10 * (t - n) + 9 * (t - n) ^ 2) * b
        + (1 + 8 * (t - n) - 9 * (t - n) ^ 2) * c
        + (-2 * (t - n) + 3 * (t - n) ^ 2) * d)) t := by
  have h := cubic_hasDerivAt b (0.5 * (c - a)) (0.5 * (2 * a - 5 * b + 4 * c - d))
    (0.5 * (-a + 3 * b - 3 * c + d)) n t
  convert h using 1
  · funext s
    ring
  · ring

theorem catmullRomSpec_hasDerivAt (M : CMath ℝ) (ps rs : List (QVector3D ℝ)) (i : ℕ)
    (n t : ℝ) :
    HasDerivAt (fun s => (catmullRomSpec M ps rs i (s - n)).x)
      (catmullRomDerivSpec M ps rs i (t - n)).x t ∧
    HasDerivAt (fun s => (catmullRomSpec M ps rs i (s - n)).y)
      (catmullRomDerivSpec M ps rs i (t - n)).y t ∧
    HasDerivAt (fun s => (catmullRomSpec M ps rs i (s - n)).z)
      (catmullRomDerivSpec M ps rs i (t - n)).z t := by
  refine ⟨?_, ?_, ?_⟩
  · have h := catmullRom_coordinate_hasDerivAt (controlPointBefore M ps rs i).x
      (ps.getD i default).x (ps.getD (i + 1) default).x (controlPointAfter M ps rs i).x n t
    simpa only [catmullRomSpec, catmullRomDerivSpec, QVector3D.smul_x, QVector3D.add_x] using h
  · have h := catmullRom_coordinate_hasDerivAt (controlPointBefore M ps rs i).y
      (ps.getD i default).y (ps.getD (i + 1) default).y (controlPointAfter M ps rs i).y n t
    simpa only [catmullRomSpec, catmullRomDerivSpec, QVector3D.smul_y, QVector3D.add_y] using h
  · have h := catmullRom_coordinate_hasDerivAt (controlPointBefore M ps rs i).z
      (ps.getD i default).z (ps.getD (i + 1) default).z (controlPointAfter M ps rs i).z n t
    simpa only [catmullRomSpec, catmullRomDerivSpec, QVector3D.smul_z, QVector3D.add_z] using h

/-- C25. Over the real numbers, for position and rotation lists of the same length
`N >= 2` and every `t` in `(0, N-1)` that is not an integer: `interpolatePosition(s, false)`
returns a point `curve s` for every `s`, `interpolatePosition(t, true)` returns a vector
`v`, `v` is the derivative cubic of the segment `floor(t)` (the control points of the
segment applied to the basis `[0, 1, 2h, 3h^2]`) at `h = t - floor(t)`, and every
coordinate of `v` is the derivative at `t` of that coordinate of `curve`. -/
theorem derivative_mode_is_derivative (M : CMath ℝ) (ps rs : List (QVector3D ℝ)) (t : ℝ)
    (hN : 2 ≤ ps.length) (hlen : rs.length = ps.length) (h0 : 0 < t)
    (h1 : t < (ps.length : ℝ) - 1) (hint : ∀ n : ℤ, (n : ℝ) ≠ t) :
    ∃ (curve : ℝ → QVector3D ℝ) (v : QVector3D ℝ),
      (∀ s, interpolatePosition M ps rs s false = some (curve s)) ∧
      interpolatePosition M ps rs t true = some v ∧
      v = catmullRomDerivSpec M ps rs ⌊t⌋.toNat (t - (⌊t⌋ : ℝ)) ∧
      HasDerivAt (fun s => (curve s).x) v.x t ∧
      HasDerivAt (fun s => (curve s).y) v.y t ∧
      HasDerivAt (fun s => (curve s).z) v.z t := by
  have hne : ps ≠ [] := by
    intro h
    rw [h, List.length_nil] at hN
    omega
  have hsome : ∀ s, interpolatePosition M ps rs s false
      = some ((interpolatePosition M ps rs s false).getD default) := by
    intro s
    obtain ⟨v, hv⟩ := interpolatePosition_some M ps rs hne hlen s false
    rw [hv]
    rfl
  have hlo : (⌊t⌋ : ℝ) < t := lt_of_le_of_ne (Int.floor_le t) (hint ⌊t⌋)
  have hhi : t < (⌊t⌋ : ℝ) + 1 := Int.lt_floor_add_one t
  have hf0 : 0 ≤ ⌊t⌋ := Int.floor_nonneg.mpr h0.le
  have hf1 : (⌊t⌋ : ℝ) + 1 ≤ (ps.length : ℝ) - 1 := by
    have : ⌊t⌋ < (ps.length : ℤ) - 1 := by
      rw [Int.floor_lt]
      push_cast
      exact h1
    have h2 : ⌊t⌋ + 1 ≤ (ps.length : ℤ) - 1 := by omega
    exact_mod_cast h2
  have hev : ∀ s ∈ Set.Ioo (⌊t⌋ : ℝ) ((⌊t⌋ : ℝ) + 1),
      (interpolatePosition M ps rs s false).getD default
        = catmullRomSpec M ps rs ⌊t⌋.toNat (s - (⌊t⌋ : ℝ)) := by
    intro s hs
    have hfl : ⌊s⌋ = ⌊t⌋ := by
      rw [Int.floor_eq_iff]
      exact ⟨hs.1.le, hs.2⟩
    have hs0 : 0 < s := lt_of_le_of_lt (by exact_mod_cast hf0) hs.1
    have hs1 : s < (ps.length : ℝ) - 1 := lt_of_lt_of_le hs.2 hf1
    rw [interpolatePosition_interior_spec M ps rs s false hlen hs0 hs1, hfl]
    rfl
  have hnhds : Set.Ioo (⌊t⌋ : ℝ) ((⌊t⌋ : ℝ) + 1) ∈ nhds t := Ioo_mem_nhds hlo hhi
  obtain ⟨dx, dy, dz⟩ := catmullRomSpec_hasDerivAt M ps rs ⌊t⌋.toNat (⌊t⌋ : ℝ) t
  refine ⟨fun s => (interpolatePosition M ps rs s false).getD default,
    catmullRomDerivSpec M ps rs ⌊t⌋.toNat (t - (⌊t⌋ : ℝ)), hsome, ?_, rfl, ?_, ?_, ?_⟩
  · rw [interpolatePosition_interior_spec M ps rs t true hlen h0 h1]
    rfl
  · refine dx.congr_of_eventuallyEq ?_
    filter_upwards [hnhds] with s hs
    rw [hev s hs]
  · refine dy.congr_of_eventuallyEq ?_
    filter_upwards [hnhds] with s hs
    rw [hev s hs]
  · refine dz.congr_of_eventuallyEq ?_
    filter_upwards [hnhds] with s hs
    rw [hev s hs]

/-- Witness of C25: the two waypoints of the sample path at `t = 1/2`. -/
theorem derivative_mode_is_derivative_witness :
    ∃ (curve : ℝ → QVector3D ℝ) (v : QVector3D ℝ),
      (∀ s, interpolatePosition CMath.real [⟨0, 0, 0⟩, ⟨1, 0, 0⟩] [⟨0, 0, 0⟩, ⟨0, 0, 0⟩] s false
        = some (curve s)) ∧
      interpolatePosition CMath.real [⟨0, 0, 0⟩, ⟨1, 0, 0⟩] [⟨0, 0, 0⟩, ⟨0, 0, 0⟩] (1 / 2) true
        = some v ∧
      v = catmullRomDerivSpec CMath.real [⟨0, 0, 0⟩, ⟨1, 0, 0⟩] [⟨0, 0, 0⟩, ⟨0, 0, 0⟩]
        ⌊(1 / 2 : ℝ)⌋.toNat (1 / 2 - (⌊(1 / 2 : ℝ)⌋ : ℝ)) ∧
      HasDerivAt (fun s => (curve s).x) v.x (1 / 2) ∧
      HasDerivAt (fun s => (curve s).y) v.y (1 / 2) ∧
      HasDerivAt (fun s => (curve s).z) v.z (1 / 2) :=
  derivative_mode_is_derivative CMath.real [⟨0, 0, 0⟩, ⟨1, 0, 0⟩] [⟨0, 0, 0⟩, ⟨0, 0, 0⟩]
    (1 / 2) (by simp) (by simp) (by norm_num) (by norm_num) (by
      intro n h
      have h2 : ((2 * n : ℤ) : ℝ) = ((1 : ℤ) : ℝ) := by
        push_cast
        linarith
      have h3 : 2 * n = 1 := by exact_mod_cast h2
      omega)

/-! ## The table of the sample path -/

/-- The arc lengths of the table of the sample path are strictly ascending. -/
theorem arcLengthSpec_sample_strictMono (a b : ℕ) (hab : a < b) (hb : b ≤ 100) :
    arcLengthSpec CMath.real [⟨0, 0, 0⟩, ⟨1, 0, 0⟩] [⟨0, 0, 0⟩, ⟨0, 0, 0⟩] a
      < arcLengthSpec CMath.real [⟨0, 0, 0⟩, ⟨1, 0, 0⟩] [⟨0, 0, 0⟩, ⟨0, 0, 0⟩] b := by
  have hmono := arcLengthSpec_mono CMath.real Real.sqrt_nonneg [⟨0, 0, 0⟩, ⟨1, 0, 0⟩]
    [⟨0, 0, 0⟩, ⟨0, 0, 0⟩] (a + 1) b hab
  refine lt_of_lt_of_le ?_ hmono
  unfold arcLengthSpec
  rw [Finset.sum_range_succ]
  have := GL5_sample_step a (by omega)
  linarith

/-- The table of the sample path is strictly ascending in its arc lengths. -/
theorem tableSpec_sample_sorted :
    (tableSpec CMath.real [⟨0, 0, 0⟩, ⟨1, 0, 0⟩] [⟨0, 0, 0⟩, ⟨0, 0, 0⟩]).Pairwise
      (fun a b => a.1 < b.1) := by
  unfold tableSpec
  rw [List.pairwise_map]
  refine List.Pairwise.imp_of_mem ?_ (List.pairwise_lt_range _)
  intro a b _ hb hab
  have hb2 : b < 101 := by
    have := List.mem_range.mp hb
    rw [List.length_cons, List.length_cons, List.length_nil, tableSize_two] at this
    exact this
  exact arcLengthSpec_sample_strictMono a b hab (by omega)

/-! ## The lookup in a table that `blend()` built -/

/-- The parameters that the loop of `blend` appends are strictly ascending: every turn
that appends an entry has advanced the counter. -/
theorem blendLoop_parameters (M : CMath K) (ps rs : List (QVector3D K)) (d : ℕ) :
    ∀ (u : ℕ) (s : K) (table t : List (K × K)), 2 ^ 30 * ps.length - u ≤ d →
      blendLoop M ps rs s u table = some t →
      ∃ new : List (K × K), t = table ++ new ∧ new.Pairwise (fun a b => a.2 < b.2) ∧
        ∀ e ∈ new, (Binary32.toField u : K) ≤ e.2 := by
  induction d with
  | zero =>
    intro u s table t hd h
    have hnot : ¬ (Binary32.toField u : K) < (((ps.length : ℤ) - 1 : ℤ) : K) := by
      rw [Binary32.toField_lt_iff]
      omega
    rw [blendLoop, if_neg hnot] at h
    refine ⟨[], ?_, List.Pairwise.nil, by simp⟩
    rw [← Option.some.inj h, List.append_nil]
  | succ d ih =>
    intro u s table t hd h
    rw [blendLoop] at h
    by_cases hlt : (Binary32.toField u : K) < (((ps.length : ℤ) - 1 : ℤ) : K)
    · rw [if_pos hlt] at h
      by_cases hadd : u < Binary32.add u Binary32.hundredth
      · rw [if_pos hadd] at h
        cases hg : gaussianQuadrature M ps rs (Binary32.toField u)
            (Binary32.toField (Binary32.add u Binary32.hundredth)) with
        | none =>
          rw [hg] at h
          exact Option.noConfusion h
        | some g =>
          rw [hg] at h
          obtain ⟨new, h1, h2, h3⟩ := ih _ _ _ t (by omega) h
          refine ⟨(s, Binary32.toField u) :: new, ?_, List.Pairwise.cons ?_ h2, ?_⟩
          · rw [h1, List.append_assoc]
            rfl
          · intro e he
            exact lt_of_lt_of_le (Binary32.toField_lt _ _ hadd) (h3 e he)
          · intro e he
            rcases List.mem_cons.mp he with h4 | h4
            · rw [h4]
            · exact le_trans (Binary32.toField_le _ _ hadd.le) (h3 e h4)
      · rw [if_neg hadd] at h
        exact Option.noConfusion h
    · rw [if_neg hlt] at h
      refine ⟨[], ?_, List.Pairwise.nil, by simp⟩
      rw [← Option.some.inj h, List.append_nil]

/-- The parameters of a table that `blend()` built are strictly ascending. -/
theorem blend_parameters (M : CMath K) (w w2 : FractalWidget K) (h : blend M w = some w2) :
    w2.s2uTable.Pairwise (fun a b => a.2 < b.2) := by
  unfold blend at h
  cases hb : blendLoop M w.positionWaypoints w.rotationWaypoints 0 0 [] with
  | none =>
    rw [hb] at h
    exact Option.noConfusion h
  | some t =>
    rw [hb] at h
    obtain ⟨new, h1, h2, -⟩ := blendLoop_parameters M w.positionWaypoints w.rotationWaypoints
      _ 0 0 [] t le_rfl hb
    have e : w2.s2uTable = t := by
      rw [← Option.some.inj h]
    rw [e, h1, List.nil_append]
    exact h2

/-- The first arc length of the table of `blend()` is not above any arc length of the
specification. -/
theorem tableSpec_head_le (M : CMath K) (hsqrt : ∀ x, 0 ≤ M.sqrt x)
    (ps rs : List (QVector3D K)) (hN : 2 ≤ ps.length) (hmax : ps.length ≤ 262145)
    (table : List (K × K)) (ht : table = tableSpec M ps rs) (hn : 2 ≤ table.length) (k : ℕ) :
    (table[0]).1 ≤ arcLengthSpec M ps rs k := by
  subst ht
  obtain ⟨hpos, hhead⟩ := tableSpec_head M ps rs hN hmax
  rw [hhead]
  exact arcLengthSpec_nonneg M hsqrt ps rs k

/-- The table of a call of `blend()` that returns. -/
theorem blend_table (M : CMath K) (w : FractalWidget K) (hne : w.positionWaypoints ≠ [])
    (hlen : w.positionWaypoints.length ≤ w.rotationWaypoints.length)
    (hmax : w.positionWaypoints.length ≤ 262145) :
    ∃ w2, blend M w = some w2 ∧
      w2.s2uTable = tableSpec M w.positionWaypoints w.rotationWaypoints :=
  ⟨_, blend_eq_of_le M w hne hlen hmax, rfl⟩

/-- C11. For every table that `blend()` built (the only function that writes
`s2uTable`), with at least 2 entries and strictly ascending in `s`, and every `s` with
`table[0].s ≤ s`, there is an index `j` such that `j + 1` is the first entry among all
but the last whose arc length is greater than `s` (every entry before `j + 1` is at most
`s`, and `j + 1` is the last index or entry `j + 1` is greater), and
`s2u(s) = u_j + (s - s_j)/(s_{j+1} - s_j) * (u_{j+1} - u_j)`; for `s_j ≤ s ≤ s_{j+1}` this
value lies in `[u_j, u_{j+1}]`. -/
theorem s2u_linear_interpolation (M : CMath K) (w w2 : FractalWidget K)
    (hbuilt : blend M w = some w2) (s : K) (hn : 2 ≤ w2.s2uTable.length)
    (hsorted : w2.s2uTable.Pairwise (fun a b => a.1 < b.1))
    (h0 : (w2.s2uTable[0]).1 ≤ s) :
    ∃ j : ℕ, ∃ hj : j + 1 < w2.s2uTable.length,
      (∀ i : ℕ, ∀ hi : i < j + 1, (w2.s2uTable[i]).1 ≤ s) ∧
      (j + 1 = w2.s2uTable.length - 1 ∨ s < (w2.s2uTable[j + 1]).1) ∧
      s2u w2.s2uTable s = some ((w2.s2uTable[j]).2
        + (s - (w2.s2uTable[j]).1) / ((w2.s2uTable[j + 1]).1 - (w2.s2uTable[j]).1)
          * ((w2.s2uTable[j + 1]).2 - (w2.s2uTable[j]).2)) ∧
      ((w2.s2uTable[j]).1 ≤ s → s ≤ (w2.s2uTable[j + 1]).1 →
        (w2.s2uTable[j]).2 ≤ (w2.s2uTable[j]).2
          + (s - (w2.s2uTable[j]).1) / ((w2.s2uTable[j + 1]).1 - (w2.s2uTable[j]).1)
            * ((w2.s2uTable[j + 1]).2 - (w2.s2uTable[j]).2) ∧
        (w2.s2uTable[j]).2
          + (s - (w2.s2uTable[j]).1) / ((w2.s2uTable[j + 1]).1 - (w2.s2uTable[j]).1)
            * ((w2.s2uTable[j + 1]).2 - (w2.s2uTable[j]).2) ≤ (w2.s2uTable[j + 1]).2) := by
  obtain ⟨j, hj, h1, h2, h3, h4⟩ := s2u_interpolates w2.s2uTable s hn hsorted h0
  have hu : (w2.s2uTable[j]).2 < (w2.s2uTable[j + 1]).2 :=
    (List.pairwise_iff_getElem.mp (blend_parameters M w w2 hbuilt)) j (j + 1) (by omega) hj
      (by omega)
  exact ⟨j, hj, h1, h2, h3, fun g1 g2 => h4 g1 g2 hu.le⟩

/-- Witness of C11: the table that `blend()` builds for two waypoints one unit apart over
the reals, and the arc length of its entry 50. -/
theorem s2u_linear_interpolation_witness :
    ∃ w2, blend CMath.real
        (FractalWidget.withWaypoints [⟨0, 0, 0⟩, ⟨1, 0, 0⟩] [⟨0, 0, 0⟩, ⟨0, 0, 0⟩]) = some w2 ∧
      w2.s2uTable.length = 101 ∧ w2.s2uTable.Pairwise (fun a b => a.1 < b.1) ∧
      ∃ j : ℕ, ∃ hj : j + 1 < w2.s2uTable.length,
        s2u w2.s2uTable
            (arcLengthSpec CMath.real [⟨0, 0, 0⟩, ⟨1, 0, 0⟩] [⟨0, 0, 0⟩, ⟨0, 0, 0⟩] 50)
          = some ((w2.s2uTable[j]).2
            + (arcLengthSpec CMath.real [⟨0, 0, 0⟩, ⟨1, 0, 0⟩] [⟨0, 0, 0⟩, ⟨0, 0, 0⟩] 50
                - (w2.s2uTable[j]).1) / ((w2.s2uTable[j + 1]).1 - (w2.s2uTable[j]).1)
              * ((w2.s2uTable[j + 1]).2 - (w2.s2uTable[j]).2)) := by
  obtain ⟨w2, hb, ht⟩ := blend_table CMath.real
    (FractalWidget.withWaypoints [⟨0, 0, 0⟩, ⟨1, 0, 0⟩] [⟨0, 0, 0⟩, ⟨0, 0, 0⟩])
    (by simp [FractalWidget.withWaypoints]) (by simp [FractalWidget.withWaypoints])
    (by simp [FractalWidget.withWaypoints])
  have hps : (FractalWidget.withWaypoints [⟨0, 0, 0⟩, ⟨1, 0, 0⟩]
      [⟨0, 0, 0⟩, ⟨0, 0, 0⟩] : FractalWidget ℝ).positionWaypoints
      = [⟨0, 0, 0⟩, ⟨1, 0, 0⟩] := rfl
  have hrs : (FractalWidget.withWaypoints [⟨0, 0, 0⟩, ⟨1, 0, 0⟩]
      [⟨0, 0, 0⟩, ⟨0, 0, 0⟩] : FractalWidget ℝ).rotationWaypoints
      = [⟨0, 0, 0⟩, ⟨0, 0, 0⟩] := rfl
  rw [hps, hrs] at ht
  have hlen : w2.s2uTable.length = 101 := by
    rw [ht, tableSpec_length]
    exact tableSize_two
  have hsorted : w2.s2uTable.Pairwise (fun a b => a.1 < b.1) := by
    rw [ht]
    exact tableSpec_sample_sorted
  have hn : 2 ≤ w2.s2uTable.length := by
    rw [hlen]
    norm_num
  obtain ⟨j, hj, -, -, h3, -⟩ := s2u_linear_interpolation CMath.real _ w2 hb
    (arcLengthSpec CMath.real [⟨0, 0, 0⟩, ⟨1, 0, 0⟩] [⟨0, 0, 0⟩, ⟨0, 0, 0⟩] 50) hn hsorted
    (tableSpec_head_le CMath.real Real.sqrt_nonneg [⟨0, 0, 0⟩, ⟨1, 0, 0⟩]
      [⟨0, 0, 0⟩, ⟨0, 0, 0⟩] le_rfl (by norm_num) w2.s2uTable ht hn 50)
  exact ⟨w2, hb, hlen, hsorted, j, hj, h3⟩

/-! ## The tick at the end of the target duration -/

/-- At the arc length of its last entry `s2u` returns the parameter of that entry. -/
theorem s2u_last (table : List (K × K)) (hn : 2 ≤ table.length)
    (hsorted : table.Pairwise (fun a b => a.1 < b.1)) (last : K × K)
    (hl : table.getLast? = some last) : s2u table last.1 = some last.2 := by
  have hs := List.pairwise_iff_getElem.mp hsorted
  have hlast : last = table[table.length - 1] := by
    rw [List.getLast?_eq_getElem?, List.getElem?_eq_getElem (by omega)] at hl
    exact (Option.some.inj hl).symm
  have h0 : (table[0]).1 ≤ last.1 := by
    rw [hlast]
    exact (hs 0 (table.length - 1) (by omega) (by omega) (by omega)).le
  obtain ⟨j, hj, hp, -, hafter⟩ := upper_bound_dropLast table last.1 hn h0
  have hj2 : j + 1 = table.length - 1 := by
    rcases hafter with h | h
    · exact h
    · by_contra hcon
      have := hs (j + 1) (table.length - 1) hj (by omega) (by omega)
      rw [hlast] at h
      exact lt_irrefl _ (h.trans this)
  rw [s2u_of_upper_bound table _ j hj hp]
  have e : table[j + 1] = last := by
    rw [hlast]
    congr 1
  rw [e]
  simp

theorem setCameraPosition_value (L : Lib K) (value : QVector3D K) (w : World K) :
    (setCameraPosition L value w).cameraPosition
      = ⟨L.string.toFloat4 value.x, L.string.toFloat4 value.y, L.string.toFloat4 value.z⟩ := by
  unfold setCameraPosition
  dsimp only
  split_ifs with h
  · rfl
  · exact not_not.mp h

theorem setCameraRotation_position (L : Lib K) (value : QVector3D K) (w : World K) :
    (setCameraRotation L value w).cameraPosition = w.cameraPosition := by
  unfold setCameraRotation
  dsimp only
  split_ifs <;> rfl

/-- The parameter of the last entry of the table lies in the last segment: it is above
`N - 2` and below `N - 1`. -/
theorem last_parameter_bounds (N : ℕ) (hN : 2 ≤ N) (hmax : N ≤ 262145) :
    (N : K) - 2 < Binary32.toField (loopCounter (tableSize N - 1)) ∧
    (Binary32.toField (loopCounter (tableSize N - 1)) : K) < (N : K) - 1 := by
  obtain ⟨h1, h2⟩ := loopCounter_last N hN hmax
  refine ⟨?_, (Binary32.toField_lt_natCast_iff _ _).mpr h2⟩
  unfold Binary32.toField
  rw [lt_div_iff₀ (by positivity)]
  have h3 : ((N * 2 ^ 30 : ℕ) : K)
      < ((loopCounter (tableSize N - 1) + 2 * 2 ^ 30 : ℕ) : K) := by exact_mod_cast h1
  push_cast at h3
  linarith

/-- The segment and the local parameter of a parameter between `N - 2` and `N - 1`. -/
theorem floor_last_segment (N : ℕ) (hN : 2 ≤ N) (u : K) (h1 : (N : K) - 2 < u)
    (h2 : u < (N : K) - 1) :
    ⌊u⌋.toNat = N - 2 ∧ u - ((⌊u⌋ : ℤ) : K) = u - ((N : K) - 2) := by
  have hfl : ⌊u⌋ = (N : ℤ) - 2 := by
    rw [Int.floor_eq_iff]
    push_cast
    constructor <;> linarith
  rw [hfl]
  constructor
  · omega
  · push_cast
    rfl

/-- The tick at the end of the target duration: the arc length passed to `s2u` is the
one of the last entry of the table, `s2u` returns the parameter of that entry, and the
camera is moved to the point of the last segment at that parameter. -/
theorem full_progress_tick (L : Lib K) (cursor : ℤ × ℤ) (w : World K)
    (hreach : Reachable L w)
    (hact : w.animateKeyframesActive = true ∨ w.previewKeyframesActive = true)
    (htrack : w.hasMouseTracking = false) (hdur : 0 < w.outputTargetDuration)
    (hsorted : w.s2uTable.Pairwise (fun a b => a.1 < b.1))
    (hel : elapsed w = w.outputTargetDuration * 1000) :
    ∃ (last : K × K) (p : QVector3D K) (w2 : World K),
      2 ≤ w.positionWaypoints.length ∧
      w.s2uTable.getLast? = some last ∧ 0 < last.1 ∧
      arclengthArgument w = some last.1 ∧
      last.2 = Binary32.toField (loopCounter (tableSize w.positionWaypoints.length - 1)) ∧
      (w.positionWaypoints.length : K) - 2 < last.2 ∧
      last.2 < (w.positionWaypoints.length : K) - 1 ∧
      (w.positionWaypoints.length : K) - 1
        ≤ Binary32.toField (loopCounter (tableSize w.positionWaypoints.length)) ∧
      s2u w.s2uTable last.1 = some last.2 ∧
      interpolatePosition L.math w.positionWaypoints w.rotationWaypoints last.2 false
        = some p ∧
      p = catmullRomSpec L.math w.positionWaypoints w.rotationWaypoints
        (w.positionWaypoints.length - 2)
        (last.2 - ((w.positionWaypoints.length : K) - 2)) ∧
      updatePhysics L cursor w = some w2 ∧
      w2.cameraPosition
        = ⟨L.string.toFloat4 p.x, L.string.toFloat4 p.y, L.string.toFloat4 p.z⟩ := by
  obtain ⟨-, hle, hinv⟩ := Reachable.invariant L w hreach
  obtain ⟨⟨hN, hmax⟩, htable⟩ := hinv hact
  have hlen : 2 ≤ w.s2uTable.length := by
    rw [htable, tableSpec_length]
    exact two_le_tableSize _ hN hmax
  have hlast : w.s2uTable.getLast? = some
      (arcLengthSpec L.math w.positionWaypoints w.rotationWaypoints
        (tableSize w.positionWaypoints.length - 1),
       Binary32.toField (loopCounter (tableSize w.positionWaypoints.length - 1))) := by
    rw [htable]
    exact tableSpec_getLast? L.math w.positionWaypoints w.rotationWaypoints hN hmax
  obtain ⟨hu1, hu2⟩ := last_parameter_bounds (K := K) w.positionWaypoints.length hN hmax
  have hnext : (w.positionWaypoints.length : K) - 1
      ≤ Binary32.toField (loopCounter (tableSize w.positionWaypoints.length)) := by
    rw [← not_lt, Binary32.toField_lt_natCast_iff]
    have := (tableSize_spec w.positionWaypoints.length hmax).1
    omega
  have hs2u := s2u_last w.s2uTable hlen hsorted _ hlast
  have hd : w.outputTargetDuration ≠ 0 := hdur.ne'
  have harg : arclengthArgument w = some
      (arcLengthSpec L.math w.positionWaypoints w.rotationWaypoints
        (tableSize w.positionWaypoints.length - 1)) := by
    rw [arclengthArgument_eq L.math w hN hmax htable, hel]
    congr 1
    field_simp
  have hpos0 : 0 < arcLengthSpec L.math w.positionWaypoints w.rotationWaypoints
      (tableSize w.positionWaypoints.length - 1) := by
    obtain ⟨h0, hhead⟩ := tableSpec_head L.math w.positionWaypoints w.rotationWaypoints hN hmax
    have hlastidx : w.s2uTable[w.s2uTable.length - 1]
        = (arcLengthSpec L.math w.positionWaypoints w.rotationWaypoints
            (tableSize w.positionWaypoints.length - 1),
          Binary32.toField (loopCounter (tableSize w.positionWaypoints.length - 1))) := by
      have h := hlast
      rw [List.getLast?_eq_getElem?, List.getElem?_eq_getElem (by omega)] at h
      exact Option.some.inj h
    have hfirst : w.s2uTable[0] = (0, 0) := by
      simp only [htable]
      exact hhead
    have := (List.pairwise_iff_getElem.mp hsorted) 0 (w.s2uTable.length - 1) (by omega)
      (by omega) (by omega)
    rw [hfirst, hlastidx] at this
    exact this
  have hN2 : (2 : K) ≤ (w.positionWaypoints.length : K) := by exact_mod_cast hN
  have hp := interpolatePosition_interior_spec_of_le L.math w.positionWaypoints
    w.rotationWaypoints
    (Binary32.toField (loopCounter (tableSize w.positionWaypoints.length - 1))) false hle
    (by linarith) hu2
  obtain ⟨hf1, hf2⟩ := floor_last_segment (K := K) w.positionWaypoints.length hN _ hu1 hu2
  rw [hf1, hf2] at hp
  simp only [Bool.false_eq_true, if_false] at hp
  have hner : w.rotationWaypoints ≠ [] := by
    intro h
    rw [h, List.length_nil] at hle
    omega
  obtain ⟨r, hr⟩ := interpolateRotation_some L.math L.quaternion w.rotationWaypoints hner
    (Binary32.toField (loopCounter (tableSize w.positionWaypoints.length - 1)))
  have hdur2 : (setCameraRotation L r (setCameraPosition L
      (catmullRomSpec L.math w.positionWaypoints w.rotationWaypoints
        (w.positionWaypoints.length - 2)
        (Binary32.toField (loopCounter (tableSize w.positionWaypoints.length - 1))
          - ((w.positionWaypoints.length : K) - 2))) w)).outputTargetDuration
      = w.outputTargetDuration :=
    ((setCameraRotation_cameraStep L r _).targetDuration).trans
      (setCameraPosition_cameraStep L _ w).targetDuration
  have hnot : ¬ elapsed w > (setCameraRotation L r (setCameraPosition L
      (catmullRomSpec L.math w.positionWaypoints w.rotationWaypoints
        (w.positionWaypoints.length - 2)
        (Binary32.toField (loopCounter (tableSize w.positionWaypoints.length - 1))
          - ((w.positionWaypoints.length : K) - 2))) w)).outputTargetDuration * 1000 := by
    rw [hdur2, hel]
    exact lt_irrefl _
  have hup : updatePhysics L cursor w = some ((setCameraRotation L r (setCameraPosition L
      (catmullRomSpec L.math w.positionWaypoints w.rotationWaypoints
        (w.positionWaypoints.length - 2)
        (Binary32.toField (loopCounter (tableSize w.positionWaypoints.length - 1))
          - ((w.positionWaypoints.length : K) - 2))) w)).emit
      (Signal.statusChanged (Status.animatingKeyframes (elapsed w / 1000)
        (setCameraRotation L r (setCameraPosition L
          (catmullRomSpec L.math w.positionWaypoints w.rotationWaypoints
            (w.positionWaypoints.length - 2)
            (Binary32.toField (loopCounter (tableSize w.positionWaypoints.length - 1))
              - ((w.positionWaypoints.length : K) - 2))) w)).outputTargetDuration))) := by
    unfold updatePhysics
    rw [htrack, if_neg (by simp), if_pos (by rcases hact with h | h <;> simp [h])]
    unfold updateSession
    rw [harg]
    simp only [Option.bind_eq_bind, Option.some_bind]
    rw [hs2u]
    simp only [Option.some_bind]
    rw [hp]
    simp only [Option.some_bind, if_false, Bool.false_eq_true]
    rw [(setCameraPosition_cameraStep L _ w).rotations, hr]
    simp only [Option.some_bind]
    rw [if_neg hnot]
    rfl
  refine ⟨_, _, _, hN, hlast, hpos0, harg, rfl, hu1, hu2, hnext, hs2u, hp, rfl, hup, ?_⟩
  show (setCameraRotation L r (setCameraPosition L _ w)).cameraPosition = _
  rw [setCameraRotation_position, setCameraPosition_value]

/-- C29, amended. In every state the widget can be in during a session over `N >= 2`
waypoints, with mouse tracking off, a positive target duration and a table that is
strictly ascending in its arc lengths, on a tick where `elapsed` equals
`outputTargetDuration * 1000`: the last entry of the table has a positive arc length, the
arc length passed to `s2u` is that arc length, `s2u` returns the parameter of the last
entry, which is the last value `u_{n-1}` of the binary32 counter of `blend()` below
`N - 1` (it is above `N - 2`, and the next value `u_n` is not below `N - 1`), and the tick
returns with the camera at the rounded coordinates of
`interpolatePosition(u_{n-1}, false)`, the cubic of the last segment at
`h = u_{n-1} - (N - 2)`. -/
theorem full_progress_before_last_waypoint (L : Lib K) (cursor : ℤ × ℤ) (w : World K)
    (hreach : Reachable L w)
    (hact : w.animateKeyframesActive = true ∨ w.previewKeyframesActive = true)
    (htrack : w.hasMouseTracking = false) (hdur : 0 < w.outputTargetDuration)
    (hsorted : w.s2uTable.Pairwise (fun a b => a.1 < b.1))
    (hel : elapsed w = w.outputTargetDuration * 1000) :
    ∃ (last : K × K) (p : QVector3D K) (w2 : World K),
      2 ≤ w.positionWaypoints.length ∧
      w.s2uTable.getLast? = some last ∧ 0 < last.1 ∧
      arclengthArgument w = some last.1 ∧
      last.2 = Binary32.toField (loopCounter (tableSize w.positionWaypoints.length - 1)) ∧
      (w.positionWaypoints.length : K) - 2 < last.2 ∧
      last.2 < (w.positionWaypoints.length : K) - 1 ∧
      (w.positionWaypoints.length : K) - 1
        ≤ Binary32.toField (loopCounter (tableSize w.positionWaypoints.length)) ∧
      s2u w.s2uTable last.1 = some last.2 ∧
      interpolatePosition L.math w.positionWaypoints w.rotationWaypoints last.2 false
        = some p ∧
      p = catmullRomSpec L.math w.positionWaypoints w.rotationWaypoints
        (w.positionWaypoints.length - 2)
        (last.2 - ((w.positionWaypoints.length : K) - 2)) ∧
      updatePhysics L cursor w = some w2 ∧
      w2.cameraPosition
        = ⟨L.string.toFloat4 p.x, L.string.toFloat4 p.y, L.string.toFloat4 p.z⟩ :=
  full_progress_tick L cursor w hreach hact htrack hdur hsorted hel

theorem World.sample50_eq :
    World.sample50 = { (World.initial : World ℝ) with
      positionWaypoints := [⟨0, 0, 0⟩, ⟨1, 0, 0⟩]
      rotationWaypoints := [⟨0, 0, 0⟩, ⟨0, 0, 0⟩]
      outputTargetFPS := 50
      outputTargetDuration := 2 } := by
  unfold World.sample50 setOutputTargetFPS
  rw [if_pos (by norm_num), World.sample_eq]

theorem World.sample50_reachable : Reachable Lib.sample World.sample50 :=
  Reachable.step _ _ (Event.setOutputTargetFPS 50) World.sample_reachable rfl

/-- The preview of the sample path at 50 frames per second after a hundred ticks: the
session is running and `elapsed` is `100 * 20 = 2000` milliseconds, the target
duration. -/
theorem sample50_preview_ticks :
    ∃ w0 w1, previewKeyframes Lib.sample World.sample50 = some w0 ∧
      runTicks Lib.sample (List.replicate 100 (0, 0)) w0 = some w1 ∧
      Reachable Lib.sample w1 ∧ w1.previewing ∧ w1.hasMouseTracking = false ∧
      w1.outputTargetFPS = 50 ∧ w1.outputTargetDuration = 2 ∧
      w1.fractalKeyframeBegin = 0 ∧ w1.fractalKeyframeCurrent = 100 ∧
      w1.positionWaypoints = [⟨0, 0, 0⟩, ⟨1, 0, 0⟩] ∧
      w1.rotationWaypoints = [⟨0, 0, 0⟩, ⟨0, 0, 0⟩] := by
  have f1 : World.sample50.idle := by rw [World.sample50_eq]; exact ⟨rfl, rfl⟩
  have f2 : World.sample50.positionWaypoints.length = 2 := by rw [World.sample50_eq]; rfl
  have f3 : World.sample50.outputTargetDuration = 2 := by rw [World.sample50_eq]
  have f4 : World.sample50.outputTargetFPS = 50 := by rw [World.sample50_eq]
  have f5 : World.sample50.hasMouseTracking = false := by rw [World.sample50_eq]; rfl
  have f6 : World.sample50.fractalKeyframeCurrent = 0 := by rw [World.sample50_eq]; rfl
  have hle := (Reachable.invariant Lib.sample _ World.sample50_reachable).2.1
  have hstart := previewKeyframes_start Lib.sample World.sample50 f1.1 f1.2 (by rw [f2])
    (by rw [f2]; norm_num) hle
  have hreach0 := Reachable.step _ _ Event.previewKeyframes World.sample50_reachable hstart
  have hinv0 := Reachable.invariant Lib.sample _ hreach0
  obtain ⟨w1, h1, h2, h3, h4, h5, -, -⟩ :=
    runTicks_continue Lib.sample Real.sqrt_nonneg (List.replicate 100 (0, 0)) _
      hinv0 (Or.inr rfl) f5 (le_refl _)
      (by show (0 : ℤ) ≤ World.sample50.fractalKeyframeCurrent; rw [f6])
      (by
        show World.sample50.fractalKeyframeCurrent + _ < keyframePeriod CMath.real
        rw [f6, keyframePeriod_real, List.length_replicate]
        norm_num)
      (by show (0 : ℝ) < World.sample50.outputTargetFPS; rw [f4]; norm_num)
      (by show (0 : ℝ) < World.sample50.outputTargetDuration; rw [f3]; norm_num)
      (by
        intro i hi
        rw [List.length_replicate] at hi
        show ¬ ((World.sample50.fractalKeyframeCurrent
          - World.sample50.fractalKeyframeCurrent + i : ℤ) : ℝ)
          * (1000 / World.sample50.outputTargetFPS) > World.sample50.outputTargetDuration * 1000
        rw [sub_self, zero_add, f3, f4, Int.cast_natCast, not_lt]
        have h99 : (i : ℝ) ≤ 99 := by
          have : i ≤ 99 := by omega
          exact_mod_cast this
        linarith)
  refine ⟨_, w1, hstart, h1, Reachable.runTicks Lib.sample _ _ w1 hreach0 h1,
    ⟨h2.trans f1.1, h3⟩, h4.tracking.trans f5, h4.targetFPS.trans f4,
    h4.targetDuration.trans f3, h4.keyframeBegin.trans f6, ?_, ?_, ?_⟩
  · rw [h5, List.length_replicate]
    show World.sample50.fractalKeyframeCurrent + _ = _
    rw [f6, zero_add]
    rfl
  · rw [h4.positions]
    show World.sample50.positionWaypoints = _
    rw [World.sample50_eq]
  · rw [h4.rotations]
    show World.sample50.rotationWaypoints = _
    rw [World.sample50_eq]

/-- The state of the preview of the sample path at 50 frames per second after a hundred
ticks meets the conditions of the tick at the end of the target duration. -/
theorem sample50_full_progress :
    ∃ w0 w, previewKeyframes Lib.sample World.sample50 = some w0 ∧
      runTicks Lib.sample (List.replicate 100 (0, 0)) w0 = some w ∧
      Reachable Lib.sample w ∧ w.previewKeyframesActive = true ∧
      w.hasMouseTracking = false ∧ 0 < w.outputTargetDuration ∧
      w.positionWaypoints = [⟨0, 0, 0⟩, ⟨1, 0, 0⟩] ∧
      w.rotationWaypoints = [⟨0, 0, 0⟩, ⟨0, 0, 0⟩] ∧
      elapsed w = w.outputTargetDuration * 1000 ∧
      w.s2uTable.Pairwise (fun a b => a.1 < b.1) := by
  obtain ⟨w0, w, h1, h2, hreach, hprev, htrack, hfps, hdur, hbegin, hcur, hps, hrs⟩ :=
    sample50_preview_ticks
  obtain ⟨-, -, hinv⟩ := Reachable.invariant Lib.sample w hreach
  obtain ⟨-, htable⟩ := hinv (Or.inr hprev.2)
  have hel : elapsed w = w.outputTargetDuration * 1000 := by
    unfold elapsed
    rw [hbegin, hcur, hfps, hdur]
    norm_num
  have hsorted : w.s2uTable.Pairwise (fun a b => a.1 < b.1) := by
    rw [htable, hps, hrs]
    exact tableSpec_sample_sorted
  exact ⟨w0, w, h1, h2, hreach, hprev.2, htrack, by rw [hdur]; norm_num, hps, hrs, hel,
    hsorted⟩

/-- Witness of the amended C29: the preview of the sample path at 50 frames per second
after 100 ticks, where `elapsed` is `100 * 1000 / 50 = 2000` milliseconds and the target
duration is 2 seconds. -/
theorem full_progress_before_last_waypoint_witness :
    ∃ w0 w, previewKeyframes Lib.sample World.sample50 = some w0 ∧
      runTicks Lib.sample (List.replicate 100 (0, 0)) w0 = some w ∧
      elapsed w = w.outputTargetDuration * 1000 ∧
      w.s2uTable.Pairwise (fun a b => a.1 < b.1) ∧
      ∃ (last : ℝ × ℝ) (p : QVector3D ℝ) (w2 : World ℝ),
        2 ≤ w.positionWaypoints.length ∧
        w.s2uTable.getLast? = some last ∧ 0 < last.1 ∧
        arclengthArgument w = some last.1 ∧
        last.2 = Binary32.toField (loopCounter (tableSize w.positionWaypoints.length - 1)) ∧
        (w.positionWaypoints.length : ℝ) - 2 < last.2 ∧
        last.2 < (w.positionWaypoints.length : ℝ) - 1 ∧
        (w.positionWaypoints.length : ℝ) - 1
          ≤ Binary32.toField (loopCounter (tableSize w.positionWaypoints.length)) ∧
        s2u w.s2uTable last.1 = some last.2 ∧
        interpolatePosition Lib.sample.math w.positionWaypoints w.rotationWaypoints last.2
          false = some p ∧
        p = catmullRomSpec Lib.sample.math w.positionWaypoints w.rotationWaypoints
          (w.positionWaypoints.length - 2)
          (last.2 - ((w.positionWaypoints.length : ℝ) - 2)) ∧
        updatePhysics Lib.sample (0, 0) w = some w2 ∧
        w2.cameraPosition = ⟨Lib.sample.string.toFloat4 p.x, Lib.sample.string.toFloat4 p.y,
          Lib.sample.string.toFloat4 p.z⟩ := by
  obtain ⟨w0, w, h1, h2, hreach, hprev, htrack, hdur, -, -, hel, hsorted⟩ :=
    sample50_full_progress
  exact ⟨w0, w, h1, h2, hel, hsorted,
    full_progress_before_last_waypoint Lib.sample (0, 0) w hreach (Or.inr hprev) htrack
      hdur hsorted hel⟩

/-- The position of the sample path at the parameter `h` of its segment. -/
theorem catmullRomSpec_sample (h : ℝ) :
    catmullRomSpec CMath.real [⟨0, 0, 0⟩, ⟨1, 0, 0⟩] [⟨0, 0, 0⟩, ⟨0, 0, 0⟩] 0 h
      = ⟨(h + 3 * h ^ 2 - 2 * h ^ 3) / 2, 0, (h - 3 * h ^ 2 + 2 * h ^ 3) / 2⟩ := by
  simp only [catmullRomSpec, controlPointBefore, controlPointAfter, List.getD_cons_zero,
    List.getD_cons_succ, List.length_cons, List.length_nil,
    getLookDirectionFromRotation_zero]
  ext <;> simp <;> ring

/-- C29 fails as stated. The preview of the sample path, two waypoints `(0,0,0)` and
`(1,0,0)`, at 50 frames per second after 100 ticks: `elapsed` is the target duration of
2000 milliseconds, and `s2u` returns the parameter of the last entry of the table, which
is `16777205 / 2^24 = 0.99999934` and not `N - 1 - 0.01 = 0.99`. The position that the tick
stores is `interpolatePosition(16777205 / 2^24, false)`, within a millionth of the last
waypoint `(1,0,0)` in every coordinate, and not `interpolatePosition(0.99, false)`, whose
first coordinate is below `0.995`. -/
theorem full_progress_at_last_waypoint :
    ∃ w0 w, previewKeyframes Lib.sample World.sample50 = some w0 ∧
      runTicks Lib.sample (List.replicate 100 (0, 0)) w0 = some w ∧
      Reachable Lib.sample w ∧ w.previewing ∧ w.positionWaypoints.length = 2 ∧
      elapsed w = w.outputTargetDuration * 1000 ∧
      w.s2uTable.Pairwise (fun a b => a.1 < b.1) ∧
      ∃ (last : ℝ × ℝ) (p q : QVector3D ℝ) (w2 : World ℝ),
        w.s2uTable.getLast? = some last ∧ arclengthArgument w = some last.1 ∧
        s2u w.s2uTable last.1 = some last.2 ∧
        last.2 = 16777205 / 2 ^ 24 ∧ last.2 ≠ 2 - 1 - 0.01 ∧
        interpolatePosition Lib.sample.math w.positionWaypoints w.rotationWaypoints last.2
          false = some p ∧
        updatePhysics Lib.sample (0, 0) w = some w2 ∧ w2.cameraPosition = p ∧
        |p.x - 1| < 1 / 1000000 ∧ p.y = 0 ∧ |p.z| < 1 / 1000000 ∧
        interpolatePosition Lib.sample.math w.positionWaypoints w.rotationWaypoints
          (2 - 1 - 0.01) false = some q ∧ q.x < 0.995 := by
  obtain ⟨w0, w, h1, h2, hreach, hprev, htrack, hdur, hps, hrs, hel, hsorted⟩ :=
    sample50_full_progress
  have hprev2 : w.previewing := by
    refine ⟨?_, hprev⟩
    cases ha : w.animateKeyframesActive
    · rfl
    · exact absurd ⟨ha, hprev⟩ (Reachable.invariant Lib.sample w hreach).1
  obtain ⟨last, p, w2, -, g2, -, g4, g5, -, -, -, g9, g10, g11, g12, g13⟩ :=
    full_progress_tick Lib.sample (0, 0) w hreach (Or.inr hprev) htrack hdur hsorted hel
  have hN : w.positionWaypoints.length = 2 := by rw [hps]; rfl
  have hu : last.2 = 16777205 / 2 ^ 24 := by
    rw [g5, hN, tableSize_two]
    show (Binary32.toField (loopCounter 100) : ℝ) = _
    rw [loopCounter_100]
    norm_num [Binary32.toField]
  have hp : p = ⟨(last.2 + 3 * last.2 ^ 2 - 2 * last.2 ^ 3) / 2, 0,
      (last.2 - 3 * last.2 ^ 2 + 2 * last.2 ^ 3) / 2⟩ := by
    rw [g11, hps, hrs]
    show catmullRomSpec CMath.real _ _ 0 (last.2 - ((2 : ℕ) - 2)) = _
    rw [catmullRomSpec_sample]
    norm_num
  have hq := interpolatePosition_interior_spec_of_le Lib.sample.math w.positionWaypoints
    w.rotationWaypoints (2 - 1 - 0.01) false (Reachable.invariant Lib.sample w hreach).2.1
    (by norm_num) (by rw [hN]; norm_num)
  have hfl : ⌊((2 : ℝ) - 1 - 0.01)⌋ = 0 := by
    rw [Int.floor_eq_iff]
    norm_num
  rw [hfl] at hq
  simp only [Bool.false_eq_true, if_false, Int.toNat_zero] at hq
  refine ⟨w0, w, h1, h2, hreach, hprev2, hN, hel, hsorted, last, p, _, w2, g2, g4, g9, hu,
    by rw [hu]; norm_num, g10, g12, g13, ?_, ?_, ?_, hq, ?_⟩
  · rw [hp, hu]
    show |(16777205 / 2 ^ 24 + 3 * (16777205 / 2 ^ 24) ^ 2
      - 2 * (16777205 / 2 ^ 24) ^ 3) / 2 - 1| < (1 : ℝ) / 1000000
    rw [abs_lt]
    constructor <;> norm_num
  · rw [hp]
  · rw [hp, hu]
    show |(16777205 / 2 ^ 24 - 3 * (16777205 / 2 ^ 24) ^ 2
      + 2 * (16777205 / 2 ^ 24) ^ 3) / 2| < (1 : ℝ) / 1000000
    rw [abs_lt]
    constructor <;> norm_num
  · rw [hps, hrs]
    show (catmullRomSpec CMath.real _ _ 0 _).x < 0.995
    rw [catmullRomSpec_sample]
    norm_num

/-! ## The keyframes of a session that passes the end of the keyframe counter -/

/-- The preview of the sample path that starts at the keyframe 20942, after its first
tick. -/
theorem sample_wrapped_session :
    ∃ w0 w, previewKeyframes Lib.sample (setFractalKeyframe Lib.sample 20942 World.sample)
        = some w0 ∧
      w0.previewing ∧ w0.fractalKeyframeBegin = 20942 ∧ w0.fractalKeyframeCurrent = 20942 ∧
      paintGL Lib.sample (0, 0) w0 = some w ∧
      Reachable Lib.sample w ∧ w.previewing ∧ w.hasMouseTracking = false ∧
      w.fractalKeyframeBegin = 20942 ∧ w.fractalKeyframeCurrent = 0 ∧
      w.outputTargetFPS = 60 ∧ w.outputTargetDuration = 2 := by
  obtain ⟨f1, f2, f3, f4, f5, f6, -, -⟩ := World.sample_fields
  have hle := (Reachable.invariant Lib.sample _ World.sample_reachable).2.1
  have hN : 2 ≤ World.sample.positionWaypoints.length := by rw [f2]
  have hkey : (setFractalKeyframe Lib.sample 20942 World.sample).fractalKeyframeCurrent
      = 20942 := by
    show Int.tmod 20942 (keyframePeriod CMath.real) = 20942
    rw [keyframePeriod_real]
    decide
  have hreachA : Reachable Lib.sample (setFractalKeyframe Lib.sample 20942 World.sample) :=
    Reachable.step _ _ (Event.setFractalKeyframe 20942) World.sample_reachable rfl
  have hstart := previewKeyframes_start Lib.sample
    (setFractalKeyframe Lib.sample 20942 World.sample) f1.1 f1.2 hN World.sample_max hle
  have hreach0 := Reachable.step _ _ Event.previewKeyframes hreachA hstart
  have hinv0 := Reachable.invariant Lib.sample _ hreach0
  obtain ⟨w, h1, h2, h3, h4, h5, -, -⟩ := paintGL_continue Lib.sample Real.sqrt_nonneg (0, 0) _
    hinv0 (Or.inr rfl) f5 (le_refl _)
    (by show (0 : ℝ) < World.sample.outputTargetFPS; rw [f4]; norm_num)
    (by show (0 : ℝ) < World.sample.outputTargetDuration; rw [f3]; norm_num)
    (by
      unfold elapsed
      show ¬ (((setFractalKeyframe Lib.sample 20942 World.sample).fractalKeyframeCurrent
        - (setFractalKeyframe Lib.sample 20942 World.sample).fractalKeyframeCurrent : ℤ) : ℝ)
        * (1000 / World.sample.outputTargetFPS) > World.sample.outputTargetDuration * 1000
      rw [sub_self, f3, f4]
      norm_num)
  have hreach := Reachable.step _ _ (Event.paintGL (0, 0)) hreach0 h1
  have hcur : w.fractalKeyframeCurrent = 0 := by
    rw [h5]
    show Int.tmod
      ((setFractalKeyframe Lib.sample 20942 World.sample).fractalKeyframeCurrent + 1)
      (keyframePeriod CMath.real) = 0
    rw [hkey, keyframePeriod_real]
    decide
  exact ⟨_, w, hstart, ⟨f1.1, rfl⟩, hkey, hkey, h1, hreach, ⟨h2.trans f1.1, h3⟩,
    h4.tracking.trans f5, h4.keyframeBegin.trans hkey, hcur, h4.targetFPS.trans f4,
    h4.targetDuration.trans f3⟩

/-- C28 at a failing input. A preview of the sample path that starts at the keyframe
`b = 20942`: after one tick the session is still active, `fractalKeyframeBegin` is
still 20942 and `fractalKeyframeCurrent` is 0, because `setFractalKeyframe` stores
`20943 % 20943`. The difference is `-20942` and not 1, and `elapsed` is negative. -/
theorem keyframe_difference_after_wrap :
    ∃ w0 w, previewKeyframes Lib.sample (setFractalKeyframe Lib.sample 20942 World.sample)
        = some w0 ∧
      w0.previewing ∧ w0.fractalKeyframeBegin = 20942 ∧ w0.fractalKeyframeCurrent = 20942 ∧
      paintGL Lib.sample (0, 0) w0 = some w ∧ Reachable Lib.sample w ∧ w.previewing ∧
      w.fractalKeyframeBegin = 20942 ∧ w.fractalKeyframeCurrent = 0 ∧
      w.fractalKeyframeCurrent - w.fractalKeyframeBegin = -20942 ∧
      w.fractalKeyframeCurrent - w.fractalKeyframeBegin ≠ 1 ∧
      0 < w.outputTargetFPS ∧ elapsed w < 0 := by
  obtain ⟨w0, w, h1, h2, h3, h4, h5, h6, h7, -, h9, h10, h11, -⟩ := sample_wrapped_session
  refine ⟨w0, w, h1, h2, h3, h4, h5, h6, h7, h9, h10, ?_, ?_, ?_, ?_⟩
  · rw [h9, h10]
    norm_num
  · rw [h9, h10]
    norm_num
  · rw [h11]
    norm_num
  · unfold elapsed
    rw [h9, h10, h11]
    norm_num

end FractalPioneer
